import Mathlib

/-!
# HISE Lossless Audio Codec: the encoder of `hi_lac/hlac/HlacEncoder.cpp`

A shallow embedding of `HlacEncoder` as explicit state passing.

* Samples are `Int` (the source holds `int16`), a buffer view
  (`CompressionHelpers::AudioBufferInt16` obtained through `getPart`) is the
  `List Int` of the samples it covers; the encoder never mutates its input.
  A difference that `encodeCycleDelta` stores into the `int16` work buffer is
  reduced to 16 bits (`toInt16`).
* The output stream is a byte list together with a per-call success oracle,
  so that failing writes can be expressed; a failing write appends nothing.
* `CompressionHelpers`, `BitCompressors` and the constant
  `COMPRESSION_BLOCK_SIZE` are declared outside `HlacEncoder.cpp`; they are
  the fields of `Helpers`, and every definition of the encoder is parametric
  in them. `specHelpers` is one such set of helpers, modelled from the
  specification, used where a statement is evaluated on concrete samples.
* The members of `HlacEncoder` are declared in its header, which is not part
  of the sources: the counters are natural numbers here, and a value stored
  into the `uint32` table `blockOffsetData` is reduced modulo `2^32`.
* Beside the members, the encoder state records the cycles that were emitted
  (`emitted`) and the length of the stream at every store into
  `blockOffsetData` (`sinkAtStore`); no operation reads these records.
* The two `while` loops of `encodeBlock` and the loop of `compress` take a
  fuel argument and return `none` when it is exhausted.
* The scratch member `workBuffer` is written before it is read in every
  operation and is not part of the state.
* Inside the delta loop the view `rest` is given by the position in the block
  at which it starts, so that the window which `getCycleLengthFromTemplate`
  takes at the offset `newCycle.size - 2` of `rest` is defined also when that
  offset is negative.
* The `jassert` lines of the source are debug checks that change neither the
  control flow nor the state; they have no counterpart in the definitions.
-/

namespace Hlac

/-! ## Collaborators declared outside the translation unit -/

/-- One member of `BitCompressors::Collection` (`BitCompressors::Base`). -/
structure BitCompressor where
  /-- The value of `getAllowedBitRange()`. -/
  allowedBitRange : Nat
  /-- The value of `getByteAmount(numValues)`. -/
  getByteAmount : Nat → Nat
  /-- The bytes produced by `compress(dst, data, numValues)`. -/
  compress : List Int → List Nat

/-- The functions and the constant that `HlacEncoder.cpp` uses but does not define. -/
structure Helpers where
  /-- The build-time constant `COMPRESSION_BLOCK_SIZE`. -/
  COMPRESSION_BLOCK_SIZE : Nat
  /-- `CompressionHelpers::getPossibleBitReductionAmount`. -/
  getPossibleBitReductionAmount : List Int → Nat
  /-- `CompressionHelpers::getBitReductionWithTemplate(template, next, removeDc)`. -/
  getBitReductionWithTemplate : List Int → List Int → Bool → Nat
  /-- `CompressionHelpers::getCycleLengthWithLowestBitRate`, a result that is never negative. -/
  getCycleLengthWithLowestBitRate : List Int → Nat
  /-- `CompressionHelpers::getByteAmountForDifferential`. -/
  getByteAmountForDifferential : List Int → Nat
  /-- `collection.getSuitableCompressorForData`. -/
  getSuitableCompressorForData : List Int → BitCompressor
  /-- `collection.getNumBytesForBitRate(bitRate, numSamples)`. -/
  getNumBytesForBitRate : Nat → Nat → Nat
  /-- `CompressionHelpers::Diff::getNumFullValues`. -/
  getNumFullValues : Nat → Nat
  /-- `CompressionHelpers::Diff::createBufferWithFullValues`. -/
  createBufferWithFullValues : List Int → List Int
  /-- `CompressionHelpers::Diff::getNumErrorValues`. -/
  getNumErrorValues : Nat → Nat
  /-- `CompressionHelpers::Diff::createBufferWithErrorValues(cycle, packedBuffer)`. -/
  createBufferWithErrorValues : List Int → List Int → List Int

/-- A float threshold, held as the fraction `num / den`. -/
structure Fraction where
  num : Int
  den : Nat

/-- The fields of `HlacOptions` that the encoder reads. -/
structure HlacOptions where
  bitRateForWholeBlock : Int
  fixedBlockWidth : Int
  reuseFirstCycleLengthForBlock : Bool
  useDeltaEncoding : Bool
  deltaCycleThreshhold : Fraction
  useDiffEncodingWithFixedBlocks : Bool
  removeDcOffset : Bool

/-! ## The output stream -/

/-- The `OutputStream`: the bytes accepted so far, the number of write calls
made so far, and the oracle that tells whether the write call with a given
number succeeds. A failing call appends nothing. -/
structure OutputStream where
  data : List Nat
  attempts : Nat
  ok : Nat → Bool

/-- `OutputStream::write(data, numBytes)`. -/
def OutputStream.write (o : OutputStream) (bytes : List Nat) : OutputStream × Bool :=
  if o.ok o.attempts then
    ({ o with data := o.data ++ bytes, attempts := o.attempts + 1 }, true)
  else
    ({ o with attempts := o.attempts + 1 }, false)

/-- `OutputStream::writeByte`. -/
def OutputStream.writeByte (o : OutputStream) (b : Nat) : OutputStream × Bool :=
  o.write [b % 256]

/-- The low 16 bits of a value as two bytes, little endian. -/
def shortBytes (v : Int) : List Nat :=
  [(v % 256).toNat, (v / 256 % 256).toNat]

/-- `OutputStream::writeShort`: the low 16 bits of the value, little endian. -/
def OutputStream.writeShort (o : OutputStream) (v : Int) : OutputStream × Bool :=
  o.write (shortBytes v)

/-- A stream on which every write succeeds. -/
def OutputStream.reliable (o : OutputStream) : Prop := ∀ i, o.ok i = true

/-! ## The encoder state -/

/-- What one emitted cycle was (a record kept beside the byte stream). -/
inductive Emitted where
  /-- A cycle written by `encodeCycle`: its samples. -/
  | template (samples : List Int)
  /-- A cycle written by `encodeCycleDelta` as a delta: its samples and the
  samples of `currentCycle` it was subtracted from. -/
  | delta (samples : List Int) (reference : List Int)
  /-- A cycle written by `encodeDiff`. -/
  | diff (samples : List Int)
  /-- The padding entry of `encodeLastBlock`: the declared count. -/
  | padding (count : Nat)
  deriving DecidableEq, Repr

/-- The number of samples an emitted entry accounts for. -/
def Emitted.count : Emitted → Nat
  | .template s => s.length
  | .delta s _ => s.length
  | .diff s => s.length
  | .padding n => n

/-- The member variables of `HlacEncoder`, the stream it writes to, the
caller's `blockOffsetData` as the list of stores `(index, value)` made into
it, the record of emitted cycles, and for every store into `blockOffsetData`
the number of bytes the stream held at that moment. -/
structure HlacEncoder where
  indexInBlock : Nat
  currentCycle : List Int
  blockOffset : Nat
  blockIndex : Nat
  numBytesWritten : Nat
  numBytesUncompressed : Nat
  numTemplates : Nat
  numDeltas : Nat
  bitRateForCurrentCycle : Nat
  firstCycleLength : Int
  output : OutputStream
  blockOffsetData : List (Nat × Nat)
  emitted : List Emitted
  sinkAtStore : List Nat

/-- The `AudioSampleBuffer` handed to `compress`: its channels as 16-bit samples. -/
structure AudioSampleBuffer where
  numSamples : Nat
  channels : List (List Int)

variable (h : Helpers) (options : HlacOptions)

/-- `CompressionHelpers::getPart(buffer, offset, size)` on a sample view. -/
def getPart (b : List Int) (offset size : Nat) : List Int :=
  (b.drop offset).take size

/-- Channel `c` of a buffer. -/
def AudioSampleBuffer.channel (b : AudioSampleBuffer) (c : Nat) : List Int :=
  b.channels.getD c []

/-- `HlacEncoder::reset`. -/
def reset (s : HlacEncoder) : HlacEncoder :=
  { s with
    indexInBlock := 0
    currentCycle := List.replicate h.COMPRESSION_BLOCK_SIZE 0
    blockOffset := 0
    blockIndex := 0
    numBytesWritten := 0
    numBytesUncompressed := 0
    numTemplates := 0
    numDeltas := 0
    bitRateForCurrentCycle := 0
    firstCycleLength := -1 }

/-- `isBlockExhausted()`. -/
def isBlockExhausted (s : HlacEncoder) : Bool :=
  decide (h.COMPRESSION_BLOCK_SIZE ≤ s.indexInBlock)

/-- A zeroed `MemoryBlock` of `n` bytes after a compressor has written into it. -/
def memoryBlock (n : Nat) (bytes : List Nat) : List Nat :=
  (bytes ++ List.replicate n 0).take n

/-- The first byte that `writeCycleHeader` hands to `writeByte`. -/
def cycleHeaderByte (isTemplate : Bool) (bitDepth : Nat) : Nat :=
  if bitDepth = 0 then 1
  else if bitDepth = 1 then 3
  else if bitDepth = 2 then 5
  else ((if isTemplate then 1 else 0) ||| ((((bitDepth - 1) &&& 15) <<< 1) % 256))

/-- `HlacEncoder::writeCycleHeader`. -/
def writeCycleHeader (isTemplate : Bool) (bitDepth : Nat) (numSamples : Int)
    (s : HlacEncoder) : HlacEncoder × Bool :=
  let r := s.output.writeByte (cycleHeaderByte isTemplate bitDepth)
  if r.2 = false then ({ s with output := r.1 }, false)
  else
    let r2 := r.1.writeShort numSamples
    ({ s with output := r2.1, numBytesWritten := s.numBytesWritten + 3 }, r2.2)

/-- The scan behind `floorLog2`. -/
def floorLog2Aux : Nat → Nat → Nat
  | 0, _ => 0
  | fuel + 1, n => if n < 2 then 0 else floorLog2Aux fuel (n / 2) + 1

/-- The integer part of `log2(n)` for `n ≥ 1`. -/
def floorLog2 (n : Nat) : Nat := floorLog2Aux n n

/-- The 16-bit value `shortPacked` of `writeDiffHeader`. -/
def diffShortPacked (fullBitRate errorBitRate : Int) (blockSize : Nat) : Nat :=
  let bitRates := ((((fullBitRate - 1) % 256).toNat <<< 4) % 256) ||| ((errorBitRate - 1) % 256).toNat
  let blockSizeLog := (floorLog2 blockSize) % 256
  ((bitRates <<< 8) % 65536) ||| blockSizeLog

/-- `HlacEncoder::writeDiffHeader`. -/
def writeDiffHeader (fullBitRate errorBitRate : Int) (blockSize : Nat)
    (s : HlacEncoder) : HlacEncoder × Bool :=
  let r := s.output.writeByte 0xE0
  if r.2 = false then ({ s with output := r.1 }, false)
  else
    let r2 := r.1.writeShort (diffShortPacked fullBitRate errorBitRate blockSize : Nat)
    ({ s with output := r2.1, numBytesWritten := s.numBytesWritten + 3 }, true)

/-- The statement `++numTemplates`. -/
def countTemplate (s : HlacEncoder) : HlacEncoder :=
  { s with numTemplates := s.numTemplates + 1 }

/-- The statement `++numDeltas`. -/
def countDelta (s : HlacEncoder) : HlacEncoder :=
  { s with numDeltas := s.numDeltas + 1 }

/-- An entry added to the record of emitted cycles. -/
def noteEmitted (e : Emitted) (s : HlacEncoder) : HlacEncoder :=
  { s with emitted := s.emitted ++ [e] }

/-- The statements `numBytesWritten += numBytesToWrite; ...;
return output.write(mb.getData(), numBytesToWrite)` of `encodeCycle` and
`encodeCycleDelta`: the counter moves before the write is tried. -/
def writePayload (numBytesToWrite : Nat) (bytes : List Nat) (s : HlacEncoder) :
    HlacEncoder × Bool :=
  let w := s.output.write (memoryBlock numBytesToWrite bytes)
  ({ s with numBytesWritten := s.numBytesWritten + numBytesToWrite, output := w.1 }, w.2)

/-- The statements `if (!output.write(mb.getData(), n)) return false;
numBytesWritten += n;` of `encodeDiff`: the counter moves after a successful write. -/
def writePayloadChecked (n : Nat) (bytes : List Nat) (s : HlacEncoder) :
    HlacEncoder × Bool :=
  let w := s.output.write (memoryBlock n bytes)
  if w.2 = false then ({ s with output := w.1 }, false)
  else ({ s with output := w.1, numBytesWritten := s.numBytesWritten + n }, true)

/-- `HlacEncoder::encodeCycle`. -/
def encodeCycle (cycle : List Int) (s : HlacEncoder) : HlacEncoder × Bool :=
  if cycle.length = 0 then (s, true)
  else
    let compressor := h.getSuitableCompressorForData cycle
    let numBytesToWrite := compressor.getByteAmount cycle.length
    let r := writeCycleHeader true compressor.allowedBitRange cycle.length (countTemplate s)
    if r.2 = false then r
    else if 0 < numBytesToWrite then
      writePayload numBytesToWrite (compressor.compress cycle)
        (noteEmitted (Emitted.template cycle) r.1)
    else (noteEmitted (Emitted.template cycle) r.1, true)

/-- A value stored into an `int16`: its low 16 bits, read as a signed number. -/
def toInt16 (x : Int) : Int :=
  (x + 32768) % 65536 - 32768

/-- `IntVectorOperations::sub(dst, a, b, n)` with the `int16` buffer
`workBuffer` as `dst`: the first `n` differences `a[i] - b[i]`, each as it is
stored into an `int16`. -/
def sub (a b : List Int) (n : Nat) : List Int :=
  (List.range n).map fun i => toInt16 (a.getD i 0 - b.getD i 0)

/-- `HlacEncoder::encodeCycleDelta`. -/
def encodeCycleDelta (nextCycle : List Int) (s : HlacEncoder) : HlacEncoder × Bool :=
  if nextCycle.length < 8 then encodeCycle h nextCycle s
  else
    let workBuffer := sub nextCycle s.currentCycle nextCycle.length
    let compressor := h.getSuitableCompressorForData workBuffer
    let numBytesToWrite := compressor.getByteAmount nextCycle.length
    let r := writeCycleHeader false compressor.allowedBitRange nextCycle.length (countDelta s)
    if r.2 = false then r
    else
      writePayload numBytesToWrite (compressor.compress workBuffer)
        (noteEmitted (Emitted.delta nextCycle s.currentCycle) r.1)

/-- `HlacEncoder::encodeDiff`. -/
def encodeDiff (cycle : List Int) (s : HlacEncoder) : HlacEncoder × Bool :=
  let numFullValues := h.getNumFullValues cycle.length
  let packedBuffer := h.createBufferWithFullValues cycle
  let compressorFull := h.getSuitableCompressorForData packedBuffer
  let numBytesForFull := compressorFull.getByteAmount numFullValues
  let bitRateFull := compressorFull.allowedBitRange
  let numErrorValues := h.getNumErrorValues cycle.length
  let packedErrorBuffer := h.createBufferWithErrorValues cycle packedBuffer
  let compressorError := h.getSuitableCompressorForData packedErrorBuffer
  let numBytesForError := compressorError.getByteAmount numErrorValues
  let bitRateError := compressorError.allowedBitRange
  let r := writeDiffHeader bitRateFull bitRateError cycle.length s
  if r.2 = false then r
  else
    let w := writePayloadChecked numBytesForFull (compressorFull.compress packedBuffer)
      (noteEmitted (Emitted.diff cycle) r.1)
    if w.2 = false then w
    else writePayloadChecked numBytesForError (compressorError.compress packedErrorBuffer) w.1

/-- `HlacEncoder::getCycleLength`. -/
def getCycleLength (block : List Int) : Nat :=
  h.getCycleLengthWithLowestBitRate block

/-- `CompressionHelpers::getPart(view, offset, size)` for a view that starts
`start` samples into the block `b`: the `size` samples from position
`start + offset` of the block. The offset is an `int` in the source and is
negative in `getCycleLengthFromTemplate` when `newCycle.size` is 1; a view that
would start before the block covers memory that is not the block's, and only
its samples inside the block are kept here. -/
def getPartAt (b : List Int) (start : Nat) (offset : Int) (size : Nat) : List Int :=
  if 0 ≤ (start : Int) + offset then getPart b ((start : Int) + offset).toNat size
  else getPart b 0 (size - (-((start : Int) + offset)).toNat)

/-- `HlacEncoder::getCycleLengthFromTemplate`; `newCycleSize` is `newCycle.size`,
the only field of `newCycle` that the function reads, and the view `rest` of
`block16` is given by the block and the position `rest` at which it starts. -/
def getCycleLengthFromTemplate (newCycleSize : Nat) (block16 : List Int) (rest : Nat)
    (s : HlacEncoder) : Nat :=
  let candidate1 := getPartAt block16 rest ((newCycleSize : Int) - 1) newCycleSize
  let candidate2 := getPartAt block16 rest ((newCycleSize : Int) - 2) newCycleSize
  let br1 := h.getBitReductionWithTemplate s.currentCycle candidate1 options.removeDcOffset
  let br2 := h.getBitReductionWithTemplate s.currentCycle candidate2 options.removeDcOffset
  if br2 < br1 then newCycleSize - 1 else newCycleSize

/-- The test `factor > options.deltaCycleThreshhold` of `encodeBlock`, where
`factor = (float)bitReductionDelta / (float)bitRateForCurrentCycle`: a
division by zero gives an infinity (larger than every threshold) or, for
`0 / 0`, a NaN (larger than nothing). Rounding of the quotient is not modelled. -/
def factorExceeds (bitReductionDelta bitRate : Nat) (t : Fraction) : Bool :=
  if bitRate = 0 then decide (0 < bitReductionDelta)
  else decide (t.num * (bitRate : Int) < (bitReductionDelta : Int) * (t.den : Int))

/-- The statement `indexInBlock += n`. -/
def advance (n : Nat) (s : HlacEncoder) : HlacEncoder :=
  { s with indexInBlock := s.indexInBlock + n }

/-- The `while (options.useDeltaEncoding && !isBlockExhausted())` loop of
`encodeBlock`. `numRemaining` is the local variable of that name, `rest` and
`cycleLength` are the locals of the enclosing iteration, `rest` being given
by the position in `block16` at which that view starts. The result of
`encodeCycleDelta` is dropped, as in the source. -/
def deltaLoop : Nat → List Int → Nat → Nat → Nat → HlacEncoder → Option HlacEncoder
  | 0, _, _, _, _, _ => none
  | fuel + 1, block16, rest, cycleLength, numRemaining, s =>
    if options.useDeltaEncoding = true ∧ isBlockExhausted h s = false then
      if 2 * cycleLength < numRemaining then
        let nextCycle := getPart block16 s.indexInBlock cycleLength
        let bitReductionDelta :=
          h.getBitReductionWithTemplate s.currentCycle nextCycle options.removeDcOffset
        if factorExceeds bitReductionDelta s.bitRateForCurrentCycle
            options.deltaCycleThreshhold = true then
          let nextCycleSize := getCycleLengthFromTemplate h options cycleLength block16 rest s
          let s1 := advance nextCycleSize s
          let numRemaining1 := h.COMPRESSION_BLOCK_SIZE - s1.indexInBlock
          deltaLoop fuel block16 rest cycleLength numRemaining1
            (encodeCycleDelta h (nextCycle.take nextCycleSize) s1).1
        else some s
      else some s
    else some s

/-- The local `idealCycleLength` of `encodeBlock`. -/
def idealCycleLength (rest : List Int) (s : HlacEncoder) : Int :=
  if s.firstCycleLength < 0 then
    if 0 < options.fixedBlockWidth then options.fixedBlockWidth
    else (getCycleLength h rest : Int) + 1
  else s.firstCycleLength

/-- The local `cycleLength` of `encodeBlock`:
`idealCycleLength == 0 ? numRemaining : jmin<int>(numRemaining, idealCycleLength)`. -/
def cycleLengthOf (numRemaining : Nat) (ideal : Int) : Nat :=
  if ideal = 0 then numRemaining else (min (numRemaining : Int) ideal).toNat

/-- The cycle length that `encodeBlock` chooses in state `s` for the remainder `rest`. -/
def chosenCycleLength (rest : List Int) (s : HlacEncoder) : Nat :=
  cycleLengthOf (h.COMPRESSION_BLOCK_SIZE - s.indexInBlock) (idealCycleLength h options rest s)

/-- The statement `firstCycleLength = idealCycleLength`, under its two conditions. -/
def rememberFirstCycleLength (rest : List Int) (s : HlacEncoder) : HlacEncoder :=
  if s.firstCycleLength < 0 ∧ options.reuseFirstCycleLengthForBlock = true then
    { s with firstCycleLength := idealCycleLength h options rest s }
  else s

/-- The statements that set `currentCycle` and `bitRateForCurrentCycle`. -/
def setCurrentCycle (cycle : List Int) (s : HlacEncoder) : HlacEncoder :=
  { s with
    currentCycle := cycle
    bitRateForCurrentCycle := h.getPossibleBitReductionAmount cycle }

/-- The encoder of `encodeBlock` after the cycle is chosen and `indexInBlock`
has moved past it, before the cycle is encoded. -/
def beginCycle (rest : List Int) (s : HlacEncoder) : HlacEncoder :=
  advance (chosenCycleLength h options rest s)
    (setCurrentCycle h (getPart rest 0 (chosenCycleLength h options rest s))
      (rememberFirstCycleLength h options rest s))

/-- The `while (!isBlockExhausted())` loop of `encodeBlock`. In the diff branch
the results of `encodeCycle` and `encodeDiff` are dropped, as in the source. -/
def blockLoop : Nat → List Int → HlacEncoder → Option (HlacEncoder × Bool)
  | 0, _, _ => none
  | fuel + 1, block16, s =>
    if isBlockExhausted h s = true then some (s, true)
    else
      let numRemaining := h.COMPRESSION_BLOCK_SIZE - s.indexInBlock
      let rest := getPart block16 s.indexInBlock numRemaining
      if numRemaining ≤ 4 then
        let r := encodeCycleDelta h rest s
        if r.2 = false then some (r.1, false)
        else blockLoop fuel block16 (advance numRemaining r.1)
      else
        let cycleLength := chosenCycleLength h options rest s
        let s3 := beginCycle h options rest s
        if options.useDiffEncodingWithFixedBlocks = true then
          let byteAmount := h.getByteAmountForDifferential s3.currentCycle
          let normalByteAmount := h.getNumBytesForBitRate s3.bitRateForCurrentCycle cycleLength
          if byteAmount = normalByteAmount then
            blockLoop fuel block16 (encodeCycle h s3.currentCycle s3).1
          else
            blockLoop fuel block16 (encodeDiff h s3.currentCycle s3).1
        else
          let r := encodeCycle h s3.currentCycle s3
          if r.2 = false then some (r.1, false)
          else
            match deltaLoop h options fuel block16 s.indexInBlock cycleLength numRemaining r.1 with
            | none => none
            | some s4 => blockLoop fuel block16 s4

/-- The first statements of `encodeBlock`: `firstCycleLength = -1`,
`numBytesUncompressed += COMPRESSION_BLOCK_SIZE * 2` and `indexInBlock = 0`. -/
def startBlock (s : HlacEncoder) : HlacEncoder :=
  { s with
    firstCycleLength := -1
    numBytesUncompressed := s.numBytesUncompressed + h.COMPRESSION_BLOCK_SIZE * 2
    indexInBlock := 0 }

/-- `HlacEncoder::encodeBlock(AudioBufferInt16&, OutputStream&)`. -/
def encodeBlock (fuel : Nat) (block16 : List Int) (s : HlacEncoder) :
    Option (HlacEncoder × Bool) :=
  let maxBitDepth := h.getPossibleBitReductionAmount block16
  if (maxBitDepth : Int) ≤ options.bitRateForWholeBlock then
    some (encodeCycle h block16 (startBlock h s))
  else
    blockLoop h options fuel block16 (startBlock h s)

/-- `HlacEncoder::encodeLastBlock`. -/
def encodeLastBlock (a : List Int) (s : HlacEncoder) : HlacEncoder :=
  let s1 := (encodeCycle h a s).1
  let numZerosToPad : Int := (h.COMPRESSION_BLOCK_SIZE : Int) - a.length
  let r := writeCycleHeader true 0 numZerosToPad s1
  if r.2 = false then r.1
  else noteEmitted (Emitted.padding numZerosToPad.toNat) r.1

/-- The statements `blockOffsetData[blockIndex] = numBytesWritten; ++blockIndex;`
(the table holds `uint32`). -/
def storeBlockOffset (s : HlacEncoder) : HlacEncoder :=
  { s with
    blockOffsetData := s.blockOffsetData ++ [(s.blockIndex, s.numBytesWritten % 4294967296)]
    sinkAtStore := s.sinkAtStore ++ [s.output.data.length]
    blockIndex := s.blockIndex + 1 }

/-- One block of `compress`: the left and the right channel when the source
is stereo, channel 0 otherwise; the results of `encodeBlock` are dropped. -/
def encodeBlocks (fuel : Nat) (source : AudioSampleBuffer) (offset size : Nat)
    (s : HlacEncoder) : Option HlacEncoder :=
  if source.channels.length = 2 then
    match encodeBlock h options fuel (getPart (source.channel 0) offset size) s with
    | none => none
    | some l =>
      match encodeBlock h options fuel (getPart (source.channel 1) offset size) l.1 with
      | none => none
      | some r => some r.1
  else
    match encodeBlock h options fuel (getPart (source.channel 0) offset size) s with
    | none => none
    | some b => some b.1

/-- The final, shorter block of `compress`. -/
def encodeLastBlocks (source : AudioSampleBuffer) (offset size : Nat)
    (s : HlacEncoder) : HlacEncoder :=
  if source.channels.length = 2 then
    encodeLastBlock h (getPart (source.channel 1) offset size)
      (encodeLastBlock h (getPart (source.channel 0) offset size) s)
  else
    encodeLastBlock h (getPart (source.channel 0) offset size) s

/-- The statement `blockOffset += numTodo`. -/
def advanceBlockOffset (numTodo : Nat) (s : HlacEncoder) : HlacEncoder :=
  { s with blockOffset := s.blockOffset + numTodo }

/-- The statement `blockOffset = 0`. -/
def clearBlockOffset (s : HlacEncoder) : HlacEncoder :=
  { s with blockOffset := 0 }

/-- The `while (numSamplesRemaining >= COMPRESSION_BLOCK_SIZE)` loop of `compress`. -/
def compressLoop : Nat → Nat → AudioSampleBuffer → Int → HlacEncoder → Option HlacEncoder
  | 0, _, _, _, _ => none
  | fuel + 1, blockFuel, source, numSamplesRemaining, s =>
    if (h.COMPRESSION_BLOCK_SIZE : Int) ≤ numSamplesRemaining then
      let s1 := storeBlockOffset s
      let numTodo := min h.COMPRESSION_BLOCK_SIZE source.numSamples
      match encodeBlocks h options blockFuel source s1.blockOffset numTodo s1 with
      | none => none
      | some s2 =>
        compressLoop fuel blockFuel source (numSamplesRemaining - numTodo)
          (advanceBlockOffset numTodo s2)
    else some s

/-- `HlacEncoder::compress`. `fuel` bounds the block loop, `blockFuel` the
loops of each `encodeBlock`. -/
def compress (fuel blockFuel : Nat) (source : AudioSampleBuffer) (s : HlacEncoder) :
    Option HlacEncoder :=
  if source.numSamples = h.COMPRESSION_BLOCK_SIZE then
    encodeBlocks h options blockFuel source 0 h.COMPRESSION_BLOCK_SIZE (storeBlockOffset s)
  else
    match compressLoop h options fuel blockFuel source (source.numSamples : Int)
        (clearBlockOffset s) with
    | none => none
    | some s1 =>
      if s1.blockOffset < source.numSamples then
        let remaining := source.numSamples - s1.blockOffset
        some (encodeLastBlocks h source s1.blockOffset remaining (storeBlockOffset s1))
      else some s1

/-- A freshly constructed encoder writing to `out`, after `reset()`. -/
def freshEncoder (out : OutputStream) : HlacEncoder :=
  reset h
    { indexInBlock := 0, currentCycle := [], blockOffset := 0, blockIndex := 0,
      numBytesWritten := 0, numBytesUncompressed := 0, numTemplates := 0, numDeltas := 0,
      bitRateForCurrentCycle := 0, firstCycleLength := -1, output := out,
      blockOffsetData := [], emitted := [], sinkAtStore := [] }

/-- An empty stream on which every write succeeds. -/
def reliableStream : OutputStream := { data := [], attempts := 0, ok := fun _ => true }

/-- A sequence of `compress` calls on one encoder. -/
def compressAll (fuel blockFuel : Nat) : List AudioSampleBuffer → HlacEncoder → Option HlacEncoder
  | [], s => some s
  | b :: bs, s =>
    match compress h options fuel blockFuel b s with
    | none => none
    | some s1 => compressAll fuel blockFuel bs s1

/-! ## A concrete set of helpers -/

/-- Modelled from the spec: the Bit-Depth Analyzer of section 4.1 for one
sample, the least `b` with `-2^(b-1) ≤ x ≤ 2^(b-1) - 1`, and `0` for the
sample `0` (`CompressionHelpers` is not part of the sources). -/
def bitsNeeded (x : Int) : Nat :=
  if x = 0 then 0
  else if 0 < x then floorLog2 x.toNat + 2
  else if x = -1 then 1
  else floorLog2 (-x - 1).toNat + 2

/-- Modelled from the spec: the Bit-Depth Analyzer of section 4.1, the
minimal signed bit depth of a run and `0` for an all-zero run. -/
def bitDepthOf (data : List Int) : Nat :=
  data.foldr (fun x acc => max (bitsNeeded x) acc) 0

/-- Modelled from the spec: the byte count of the packer for one depth
(section 4.2, a bit-packer sized exactly to the depth; nothing for depth 0). -/
def packedByteCount (bitDepth numSamples : Nat) : Nat :=
  (bitDepth * numSamples + 7) / 8

/-- The bits of a sample in two's complement, lowest first. -/
def sampleBits (bitDepth : Nat) (x : Int) : List Nat :=
  (List.range bitDepth).map fun i => ((x % (2 : Int) ^ bitDepth).toNat >>> i) % 2

/-- The value of up to eight bits, lowest first. -/
def bitsToByte (bits : List Nat) : Nat :=
  bits.foldr (fun b acc => b + 2 * acc) 0

/-- Modelled from the spec: the `pack` of the packer for one depth (section
4.2): the samples in `bitDepth` bits each, back to back. -/
def packSamples (bitDepth : Nat) (data : List Int) : List Nat :=
  ((data.map (sampleBits bitDepth)).flatten.toChunks 8).map bitsToByte

/-- Modelled from the spec: `selectPacker` of section 4.2 applied to the bit
depth of the data. -/
def specCompressor (data : List Int) : BitCompressor :=
  { allowedBitRange := bitDepthOf data
    getByteAmount := packedByteCount (bitDepthOf data)
    compress := packSamples (bitDepthOf data) }

/-- Every fourth sample of a cycle. -/
def everyFourth : List Int → List Int
  | a :: _ :: _ :: _ :: rest => a :: everyFourth rest
  | a :: _ => [a]
  | [] => []

/-- The three samples after every fourth one, each minus that fourth one. -/
def afterFourth : List Int → List Int
  | a :: b :: c :: d :: rest => (b - a) :: (c - a) :: (d - a) :: afterFourth rest
  | a :: rest => rest.map (· - a)
  | [] => []

/-- Modelled from the spec: the collaborators of the encoder that are not
part of the sources (`CompressionHelpers`, `BitCompressors::Collection`,
`COMPRESSION_BLOCK_SIZE`), for a block size `block`. The bit depth and the
packers follow sections 4.1 and 4.2; the bit reduction of a delta is the
template's bit depth minus the bit depth of candidate minus template (section
4.4); the periodicity search, left open by section 9, finds no period; the
split of the diff mode, left open by section 9, takes every fourth sample as a
full value. -/
def specHelpers (block : Nat) : Helpers :=
  { COMPRESSION_BLOCK_SIZE := block
    getPossibleBitReductionAmount := bitDepthOf
    getBitReductionWithTemplate := fun template next _ =>
      bitDepthOf template - bitDepthOf (sub next template next.length)
    getCycleLengthWithLowestBitRate := fun rest => rest.length
    getByteAmountForDifferential := fun cycle =>
      packedByteCount (bitDepthOf (everyFourth cycle)) (everyFourth cycle).length
        + packedByteCount (bitDepthOf (afterFourth cycle)) (afterFourth cycle).length
    getSuitableCompressorForData := specCompressor
    getNumBytesForBitRate := packedByteCount
    getNumFullValues := fun n => (n + 3) / 4
    createBufferWithFullValues := everyFourth
    getNumErrorValues := fun n => n - (n + 3) / 4
    createBufferWithErrorValues := fun cycle _ => afterFourth cycle }

/-- Modelled from the spec: the helpers of `specHelpers` with a cost of the
diff encoding that is never reported above the cost of the template encoding
(it is the smaller of the two), which is the kind of cost that the comparison
`byteAmount == normalByteAmount` of `encodeBlock` presupposes. -/
def cappedHelpers (block : Nat) : Helpers :=
  { specHelpers block with
    getByteAmountForDifferential := fun cycle =>
      min (packedByteCount (bitDepthOf (everyFourth cycle)) (everyFourth cycle).length
          + packedByteCount (bitDepthOf (afterFourth cycle)) (afterFourth cycle).length)
        (packedByteCount (bitDepthOf cycle) cycle.length) }

/-! ## Relations and invariants used by the theorems -/

/-- The relation between the encoder before and after an encoding operation:
the stream keeps its oracle and only grows, the block bookkeeping of
`compress` is untouched, and on a stream whose writes all succeed the byte
counter grows by the number of bytes the stream grew by. -/
structure Frame (s t : HlacEncoder) : Prop where
  ok : t.output.ok = s.output.ok
  blockIndex : t.blockIndex = s.blockIndex
  blockOffsetData : t.blockOffsetData = s.blockOffsetData
  sinkAtStore : t.sinkAtStore = s.sinkAtStore
  blockOffset : t.blockOffset = s.blockOffset
  dataLe : s.output.data.length ≤ t.output.data.length
  attemptsLe : s.output.attempts ≤ t.output.attempts
  bytes : s.output.reliable →
    t.numBytesWritten + s.output.data.length = s.numBytesWritten + t.output.data.length

/-- The bookkeeping invariant of an encoder that writes to a stream whose
writes all succeed and that held `base` bytes at `reset()`: the byte counter
is the number of bytes written since, every value stored into
`blockOffsetData` is (in 32 bits) the number of bytes that had been written
when it was stored, and these numbers never decrease. -/
structure Consistent (base : Nat) (s : HlacEncoder) : Prop where
  reliable : s.output.reliable
  counter : s.numBytesWritten + base = s.output.data.length
  table : s.blockOffsetData.map Prod.snd =
    s.sinkAtStore.map (fun g => (g - base) % 4294967296)
  bounded : ∀ g ∈ s.sinkAtStore, g ≤ s.output.data.length
  sorted : s.sinkAtStore.Pairwise (fun a b => a ≤ b)
  first : s.sinkAtStore.head?.getD s.output.data.length = base

/-- What the operations that write one cycle leave alone: the position in the
block and the current template. -/
structure Keeps (s t : HlacEncoder) : Prop where
  indexInBlock : t.indexInBlock = s.indexInBlock
  currentCycle : t.currentCycle = s.currentCycle
  bitRateForCurrentCycle : t.bitRateForCurrentCycle = s.bitRateForCurrentCycle
  firstCycleLength : t.firstCycleLength = s.firstCycleLength

/-- The number of samples that a list of emitted entries accounts for. -/
def coverage (es : List Emitted) : Nat :=
  (es.map Emitted.count).sum

/-- The entry that `encodeCycle` records for a cycle when its header is written. -/
def templateEntry (cycle : List Int) : List Emitted :=
  if cycle.length = 0 then [] else [Emitted.template cycle]

/-- The entry that `encodeCycleDelta` records for a cycle when its header is written. -/
def deltaEntry (cycle reference : List Int) : List Emitted :=
  if cycle.length < 8 then templateEntry cycle else [Emitted.delta cycle reference]

/-- The samples of the most recent entry written with a template header,
after the entries `es`, when it was `last` before them. A padding entry is
written with a template header and holds no samples. -/
def lastTemplate : Option (List Int) → List Emitted → Option (List Int)
  | last, [] => last
  | _, Emitted.template t :: es => lastTemplate (some t) es
  | last, Emitted.delta _ _ :: es => lastTemplate last es
  | last, Emitted.diff _ :: es => lastTemplate last es
  | _, Emitted.padding _ :: es => lastTemplate none es

/-- Every delta among the entries `es` holds 8 or more samples and was taken
against the samples of the most recent entry written with a template header
(`last` before `es`). -/
def deltasFollowTemplate : Option (List Int) → List Emitted → Bool
  | _, [] => true
  | _, Emitted.template t :: es => deltasFollowTemplate (some t) es
  | last, Emitted.delta c r :: es =>
    decide (last = some r) && decide (8 ≤ c.length) && deltasFollowTemplate last es
  | last, Emitted.diff _ :: es => deltasFollowTemplate last es
  | _, Emitted.padding _ :: es => deltasFollowTemplate none es

/-- The encoder `t` has recorded the entries of `s` and then entries among
which every delta follows its template, whatever was recorded before. -/
def Extends (s t : HlacEncoder) : Prop :=
  ∃ new, t.emitted = s.emitted ++ new ∧ ∀ last, deltasFollowTemplate last new = true

/-- Options under which every delta cycle holds at least one sample: deltas
are off, or the cycle length is fixed at 2 or more. -/
def Progressing (options : HlacOptions) : Prop :=
  options.useDeltaEncoding = false ∨ 2 ≤ options.fixedBlockWidth

/-- The outcome of compressing one silent mono block of `BLOCK` samples on a
freshly reset encoder: three bytes (the shorthand header byte 1 and the
count), one table entry 0, and the counters 3 and `2 * BLOCK`. -/
def SilentBlockOutcome (h : Helpers) (options : HlacOptions) (fuel blockFuel : Nat)
    (out : OutputStream) : Prop :=
  ∃ t, compress h options fuel blockFuel
      { numSamples := h.COMPRESSION_BLOCK_SIZE,
        channels := [List.replicate h.COMPRESSION_BLOCK_SIZE 0] }
      (freshEncoder h out) = some t ∧
    t.output.data = out.data
      ++ [1, h.COMPRESSION_BLOCK_SIZE % 256, h.COMPRESSION_BLOCK_SIZE / 256] ∧
    t.emitted = [Emitted.template (List.replicate h.COMPRESSION_BLOCK_SIZE 0)] ∧
    t.blockOffsetData = [(0, 0)] ∧
    t.numBytesWritten = 3 ∧
    t.numBytesUncompressed = 2 * h.COMPRESSION_BLOCK_SIZE

/-- The number of channels that `compress` encodes: two for a stereo source, else one. -/
def encodedChannels (source : AudioSampleBuffer) : Nat :=
  if source.channels.length = 2 then 2 else 1

/-- Two streams behave alike from now on: their next writes succeed or fail together. -/
def SameFuture (o o' : OutputStream) : Prop :=
  ∀ i, o.ok (o.attempts + i) = o'.ok (o'.attempts + i)

/-- Two encoders that have written the same bytes `x` after the bytes `p` and
`p'` that their streams held before, whose streams behave alike from now on,
and whose byte counters differ by `d`. -/
structure Alike (p p' : List Nat) (d : Int) (s s' : HlacEncoder) : Prop where
  future : SameFuture s.output s'.output
  written : ∃ x, s.output.data = p ++ x ∧ s'.output.data = p' ++ x
  counter : (s'.numBytesWritten : Int) = s.numBytesWritten + d

/-- Two encoders at the same place of a block. -/
def SamePlace (s s' : HlacEncoder) : Prop :=
  s'.indexInBlock = s.indexInBlock ∧ s'.firstCycleLength = s.firstCycleLength

/-- Two encoders with the same current template. -/
def SameTemplate (s s' : HlacEncoder) : Prop :=
  s'.currentCycle = s.currentCycle ∧ s'.bitRateForCurrentCycle = s.bitRateForCurrentCycle

/-- Two results of a loop that may run out of fuel: both did, or both are
there and related. -/
def BothOr {α : Type} (R : α → α → Prop) : Option α → Option α → Prop
  | some a, some b => R a b
  | none, none => True
  | some _, none => False
  | none, some _ => False

/-- Two results of an encoding operation: alike encoders and the same answer. -/
def AlikeOut (p p' : List Nat) (d : Int) (r r' : HlacEncoder × Bool) : Prop :=
  Alike p p' d r.1 r'.1 ∧ r'.2 = r.2

/-- Two encoders inside `compress` that are alike, have equal byte counters,
are at the same block, and have stored the same entries `y` into
`blockOffsetData` after the entries `q` and `q'` stored before. -/
structure AlikeRun (p p' : List Nat) (q q' : List (Nat × Nat)) (s s' : HlacEncoder) : Prop where
  alike : Alike p p' 0 s s'
  blockIndex : s'.blockIndex = s.blockIndex
  blockOffset : s'.blockOffset = s.blockOffset
  table : ∃ y, s.blockOffsetData = q ++ y ∧ s'.blockOffsetData = q' ++ y

/-- The encoder `t` has recorded the entries of `s` and then entries that all
satisfy `P`. -/
def Emits (P : Emitted → Prop) (s t : HlacEncoder) : Prop :=
  ∃ new, t.emitted = s.emitted ++ new ∧ ∀ e ∈ new, P e

/-- An entry that is not a diff cycle, or is a diff cycle of `2 ^ k` samples. -/
def DiffLength (k : Nat) : Emitted → Prop
  | Emitted.diff c => c.length = 2 ^ k
  | Emitted.template _ => True
  | Emitted.delta _ _ => True
  | Emitted.padding _ => True

/-- The bytes of one emitted entry, as its operation writes them when every
write succeeds: for a template or a delta the header byte, the sample count
that the header declares (two bytes) and the packed payload; for a diff cycle
the sentinel, the packed bit rates and logarithm, and the two payloads; for a
padding entry the header byte 1 and the declared count. -/
def cycleBytes (h : Helpers) : Emitted → List Nat
  | Emitted.template c =>
    cycleHeaderByte true (h.getSuitableCompressorForData c).allowedBitRange
      :: shortBytes c.length
      ++ memoryBlock ((h.getSuitableCompressorForData c).getByteAmount c.length)
        ((h.getSuitableCompressorForData c).compress c)
  | Emitted.delta c r =>
    cycleHeaderByte false (h.getSuitableCompressorForData (sub c r c.length)).allowedBitRange
      :: shortBytes c.length
      ++ memoryBlock ((h.getSuitableCompressorForData (sub c r c.length)).getByteAmount c.length)
        ((h.getSuitableCompressorForData (sub c r c.length)).compress (sub c r c.length))
  | Emitted.diff c =>
    224 :: shortBytes (diffShortPacked
        (h.getSuitableCompressorForData (h.createBufferWithFullValues c)).allowedBitRange
        (h.getSuitableCompressorForData
          (h.createBufferWithErrorValues c (h.createBufferWithFullValues c))).allowedBitRange
        c.length : Nat)
      ++ memoryBlock
        ((h.getSuitableCompressorForData (h.createBufferWithFullValues c)).getByteAmount
          (h.getNumFullValues c.length))
        ((h.getSuitableCompressorForData (h.createBufferWithFullValues c)).compress
          (h.createBufferWithFullValues c))
      ++ memoryBlock
        ((h.getSuitableCompressorForData
          (h.createBufferWithErrorValues c (h.createBufferWithFullValues c))).getByteAmount
          (h.getNumErrorValues c.length))
        ((h.getSuitableCompressorForData
          (h.createBufferWithErrorValues c (h.createBufferWithFullValues c))).compress
          (h.createBufferWithErrorValues c (h.createBufferWithFullValues c)))
  | Emitted.padding n => 1 :: shortBytes n

/-- The bytes of a list of emitted entries, one entry after the other. -/
def renderAll (h : Helpers) : List Emitted → List Nat
  | [] => []
  | e :: es => cycleBytes h e ++ renderAll h es

/-- The sample count that the header at the start of `bytes` declares: the
two bytes after the header byte, read as a little-endian `int16`. -/
def declaredCount (bytes : List Nat) : Int :=
  toInt16 ((bytes.getD 1 0 : Int) + 256 * (bytes.getD 2 0 : Int))

/-- The encoder `t` has recorded the entries of `s` and then entries `new`,
and its stream holds the bytes of `s` followed by the bytes of `new`. -/
def Renders (h : Helpers) (s t : HlacEncoder) : Prop :=
  ∃ new, t.emitted = s.emitted ++ new ∧ t.output.data = s.output.data ++ renderAll h new

/-- A stream on which the first `n` writes succeed and every later one fails. -/
def streamFailingAfter (n : Nat) : OutputStream :=
  { data := [], attempts := 0, ok := fun i => decide (i < n) }

/-- A stream on which the write with number `n` fails and every other one succeeds. -/
def streamFailingAt (n : Nat) : OutputStream :=
  { data := [], attempts := 0, ok := fun i => decide (i ≠ n) }

/-- Options with a fixed cycle length of 8 samples and delta encoding. -/
def deltaOptions : HlacOptions :=
  { bitRateForWholeBlock := 0
    fixedBlockWidth := 8
    reuseFirstCycleLengthForBlock := true
    useDeltaEncoding := true
    deltaCycleThreshhold := { num := 1, den := 5 }
    useDiffEncodingWithFixedBlocks := false
    removeDcOffset := false }

/-- A buffer of one channel. -/
def monoBuffer (samples : List Int) : AudioSampleBuffer :=
  { numSamples := samples.length, channels := [samples] }

/-- A buffer of two channels. -/
def stereoBuffer (left right : List Int) : AudioSampleBuffer :=
  { numSamples := left.length, channels := [left, right] }

/-- Options under which no block takes the whole-block shortcut unless it is
silent, cycles are four samples long and neither deltas nor diffs are used. -/
def plainOptions : HlacOptions :=
  { bitRateForWholeBlock := 0
    fixedBlockWidth := 4
    reuseFirstCycleLengthForBlock := false
    useDeltaEncoding := false
    deltaCycleThreshhold := { num := 1, den := 5 }
    useDiffEncodingWithFixedBlocks := false
    removeDcOffset := false }

/-- Eight samples of bit depth 8. -/
def cycleX : List Int := [100, -50, 3, 7, 0, -1, 25, 60]

/-- Eight samples of bit depth 5. -/
def cycleY : List Int := [1, 2, 3, 4, 5, 6, 7, 8]

/-- Eight more samples of bit depth 5. -/
def cycleZ : List Int := [9, 9, 9, 9, -9, -9, -9, -9]

/-- Two buffers for two successive `compress` calls with a block size of 8:
eleven mono samples, then eight stereo samples. -/
def exampleSources : List AudioSampleBuffer :=
  [monoBuffer (cycleX ++ [5, 6, 7]), stereoBuffer cycleY cycleZ]

/-- A block of 32 samples whose second cycle repeats the first. -/
def blockA : List Int := cycleX ++ cycleX ++ cycleY ++ cycleZ

/-- A block of 32 samples whose second cycle is silent. -/
def blockB : List Int := cycleX ++ List.replicate 8 0 ++ cycleY ++ cycleZ

/-- Options under which every block of bit depth 16 or less is encoded whole. -/
def wholeBlockOptions : HlacOptions :=
  { bitRateForWholeBlock := 16
    fixedBlockWidth := 4
    reuseFirstCycleLengthForBlock := false
    useDeltaEncoding := true
    deltaCycleThreshhold := { num := 1, den := 5 }
    useDiffEncodingWithFixedBlocks := false
    removeDcOffset := false }

/-- Eight samples of bit depth 8 whose differences to every fourth sample need 9 bits. -/
def cycleW : List Int := [100, -100, -100, -100, 100, -100, -100, -100]

/-- An encoder that has been in use: every field differs from a fresh one. -/
def usedEncoder : HlacEncoder :=
  { indexInBlock := 5, currentCycle := cycleZ, blockOffset := 16, blockIndex := 2,
    numBytesWritten := 40, numBytesUncompressed := 32, numTemplates := 3, numDeltas := 1,
    bitRateForCurrentCycle := 5, firstCycleLength := 8,
    output := { data := [7, 7, 7], attempts := 9, ok := fun _ => true },
    blockOffsetData := [(0, 0), (1, 21)], emitted := [], sinkAtStore := [] }

/-- The diff mode with a fixed cycle length of 12 samples. -/
def diffTwelveOptions : HlacOptions :=
  { bitRateForWholeBlock := 0
    fixedBlockWidth := 12
    reuseFirstCycleLengthForBlock := false
    useDeltaEncoding := false
    deltaCycleThreshhold := { num := 1, den := 5 }
    useDiffEncodingWithFixedBlocks := true
    removeDcOffset := false }

/-- Delta encoding with a fixed cycle length of 1 sample. -/
def singleSampleOptions : HlacOptions :=
  { bitRateForWholeBlock := 0
    fixedBlockWidth := 1
    reuseFirstCycleLengthForBlock := true
    useDeltaEncoding := true
    deltaCycleThreshhold := { num := 1, den := 5 }
    useDiffEncodingWithFixedBlocks := false
    removeDcOffset := false }

/-- A block of 8 samples: a 5 followed by seven 9s. -/
def blockS : List Int := [5, 9, 9, 9, 9, 9, 9, 9]

/-- A block of 20 samples: `cycleX` twice and four more samples. -/
def blockT : List Int := cycleX ++ cycleX ++ [1, 2, 3, 4]

/-- Twelve samples that stay within 2 of every fourth one. -/
def cycleV : List Int := [100, 101, 102, 101, 100, 101, 102, 101, 100, 101, 102, 101]

/-- A block of 16 samples: `cycleV` and four more samples. -/
def blockV : List Int := cycleV ++ [5, 6, 7, 8]

theorem write_data (o : OutputStream) (bytes : List Nat) :
    (o.write bytes).1.data = if o.ok o.attempts = true then o.data ++ bytes else o.data := by
  unfold OutputStream.write
  split <;> simp_all

theorem write_attempts (o : OutputStream) (bytes : List Nat) :
    (o.write bytes).1.attempts = o.attempts + 1 := by
  unfold OutputStream.write
  split <;> rfl

theorem write_ok (o : OutputStream) (bytes : List Nat) :
    (o.write bytes).1.ok = o.ok := by
  unfold OutputStream.write
  split <;> rfl

theorem write_result (o : OutputStream) (bytes : List Nat) :
    (o.write bytes).2 = o.ok o.attempts := by
  unfold OutputStream.write
  split <;> simp_all

theorem write_reliable (o : OutputStream) (bytes : List Nat) (hr : o.reliable) :
    (o.write bytes).1.reliable ∧ (o.write bytes).2 = true ∧
      (o.write bytes).1.data = o.data ++ bytes := by
  refine ⟨?_, ?_, ?_⟩
  · intro i
    rw [write_ok]
    exact hr i
  · rw [write_result]
    exact hr _
  · rw [write_data, if_pos (hr _)]

/-! ### Header bytes -/

theorem cycleHeaderByte_lt (isTemplate : Bool) (bitDepth : Nat) :
    cycleHeaderByte isTemplate bitDepth < 32 := by
  unfold cycleHeaderByte
  split
  · omega
  split
  · omega
  split
  · omega
  have h1 : (bitDepth - 1) &&& 15 ≤ 15 := Nat.and_le_right
  have h2 : (((bitDepth - 1) &&& 15) <<< 1) % 256 < 2 ^ 5 := by
    rw [Nat.shiftLeft_eq]
    omega
  have h3 : (if isTemplate = true then 1 else 0) < 2 ^ 5 := by
    split <;> omega
  exact Nat.or_lt_two_pow h3 h2

/-- The bytes that `writeCycleHeader` appends: the header byte when the first
write succeeds, then the count when the second one succeeds too. -/
theorem writeCycleHeader_data (isTemplate : Bool) (bitDepth : Nat) (numSamples : Int)
    (s : HlacEncoder) :
    (writeCycleHeader isTemplate bitDepth numSamples s).1.output.data =
      s.output.data ++
        (if s.output.ok s.output.attempts = true then
          cycleHeaderByte isTemplate bitDepth % 256 ::
            (if s.output.ok (s.output.attempts + 1) = true then shortBytes numSamples else [])
        else []) := by
  unfold writeCycleHeader OutputStream.writeByte OutputStream.writeShort
  simp only [write_result]
  by_cases h1 : s.output.ok s.output.attempts = true
  · simp only [h1, Bool.true_eq_false, if_false, if_true, write_data, write_ok, write_attempts]
    split <;> simp
  · simp only [Bool.not_eq_true] at h1
    simp [h1, write_data]

/-- The bytes that `writeDiffHeader` appends. -/
theorem writeDiffHeader_data (fullBitRate errorBitRate : Int) (blockSize : Nat)
    (s : HlacEncoder) :
    (writeDiffHeader fullBitRate errorBitRate blockSize s).1.output.data =
      s.output.data ++
        (if s.output.ok s.output.attempts = true then
          224 ::
            (if s.output.ok (s.output.attempts + 1) = true then
              shortBytes (diffShortPacked fullBitRate errorBitRate blockSize : Nat) else [])
        else []) := by
  unfold writeDiffHeader OutputStream.writeByte OutputStream.writeShort
  simp only [write_result]
  by_cases h1 : s.output.ok s.output.attempts = true
  · simp only [h1, Bool.true_eq_false, if_false, if_true, write_data, write_ok, write_attempts]
    split <;> simp
  · simp only [Bool.not_eq_true] at h1
    simp [h1, write_data]

/-- C10: the first byte that `writeCycleHeader` emits is never the diff
sentinel `0xE0`, for every template/delta flag and every bit depth, and the
first byte that `writeDiffHeader` emits is always `0xE0` (nothing is emitted
when the first write fails). -/
theorem header_disambiguation (isTemplate : Bool) (bitDepth : Nat) (numSamples : Int)
    (fullBitRate errorBitRate : Int) (blockSize : Nat) (s : HlacEncoder) :
    cycleHeaderByte isTemplate bitDepth ≠ 0xE0 ∧
    ((writeCycleHeader isTemplate bitDepth numSamples s).1.output.data.drop
        s.output.data.length).head? ≠ some 0xE0 ∧
    ((writeDiffHeader fullBitRate errorBitRate blockSize s).1.output.data.drop
        s.output.data.length).head? =
      if s.output.ok s.output.attempts = true then some 0xE0 else none := by
  have hlt := cycleHeaderByte_lt isTemplate bitDepth
  refine ⟨by omega, ?_, ?_⟩
  · rw [writeCycleHeader_data, List.drop_left]
    split
    · simp only [List.head?_cons, ne_eq, Option.some.injEq]
      omega
    · simp
  · rw [writeDiffHeader_data, List.drop_left]
    split <;> simp

/-! ### Header failures -/

/-- C9: when the header write of `encodeCycle` (a template header) or of
`encodeCycleDelta` (a delta header, for a cycle of 8 or more samples) fails,
the operation returns `false` and leaves the stream as the failed header
write left it: no payload write is attempted. -/
theorem header_failure_writes_no_payload (cycle : List Int) (s : HlacEncoder) :
    (cycle ≠ [] →
      (writeCycleHeader true (h.getSuitableCompressorForData cycle).allowedBitRange
          cycle.length (countTemplate s)).2 = false →
      (encodeCycle h cycle s).2 = false ∧
      (encodeCycle h cycle s).1.output =
        (writeCycleHeader true (h.getSuitableCompressorForData cycle).allowedBitRange
          cycle.length (countTemplate s)).1.output) ∧
    (8 ≤ cycle.length →
      (writeCycleHeader false
          (h.getSuitableCompressorForData
            (sub cycle s.currentCycle cycle.length)).allowedBitRange
          cycle.length (countDelta s)).2 = false →
      (encodeCycleDelta h cycle s).2 = false ∧
      (encodeCycleDelta h cycle s).1.output =
        (writeCycleHeader false
          (h.getSuitableCompressorForData
            (sub cycle s.currentCycle cycle.length)).allowedBitRange
          cycle.length (countDelta s)).1.output) := by
  constructor
  · intro hne hfail
    have hlen : cycle.length ≠ 0 := by
      intro h0
      exact hne (List.length_eq_zero.mp h0)
    unfold encodeCycle
    simp only [hlen, if_false, hfail, if_true, and_self]
  · intro hlen hfail
    have hlen2 : ¬ cycle.length < 8 := by omega
    unfold encodeCycleDelta
    simp only [hlen2, if_false, hfail, if_true, and_self]

/-- The statement of C9 on a stream whose second write fails, for a cycle of eight samples. -/
theorem header_failure_writes_no_payload_witness :
    ((encodeCycle (specHelpers 32) cycleX
        (freshEncoder (specHelpers 32) (streamFailingAfter 1))).2 = false ∧
      (encodeCycle (specHelpers 32) cycleX
        (freshEncoder (specHelpers 32) (streamFailingAfter 1))).1.output =
        (writeCycleHeader true ((specHelpers 32).getSuitableCompressorForData cycleX).allowedBitRange
          cycleX.length
          (countTemplate (freshEncoder (specHelpers 32) (streamFailingAfter 1)))).1.output) ∧
    ((encodeCycleDelta (specHelpers 32) cycleX
        (freshEncoder (specHelpers 32) (streamFailingAfter 1))).2 = false ∧
      (encodeCycleDelta (specHelpers 32) cycleX
        (freshEncoder (specHelpers 32) (streamFailingAfter 1))).1.output =
        (writeCycleHeader false
          ((specHelpers 32).getSuitableCompressorForData
            (sub cycleX (freshEncoder (specHelpers 32) (streamFailingAfter 1)).currentCycle
              cycleX.length)).allowedBitRange
          cycleX.length
          (countDelta (freshEncoder (specHelpers 32) (streamFailingAfter 1)))).1.output) :=
  ⟨(header_failure_writes_no_payload (specHelpers 32) cycleX
      (freshEncoder (specHelpers 32) (streamFailingAfter 1))).1 (by decide) (by decide),
   (header_failure_writes_no_payload (specHelpers 32) cycleX
      (freshEncoder (specHelpers 32) (streamFailingAfter 1))).2 (by decide) (by decide)⟩

/-! ### What the encoding operations leave alone, and the byte counter -/

theorem Frame.stay (s : HlacEncoder) : Frame s s :=
  ⟨rfl, rfl, rfl, rfl, rfl, le_rfl, le_rfl, fun _ => rfl⟩

theorem Frame.andThen {s t u : HlacEncoder} (a : Frame s t) (b : Frame t u) : Frame s u where
  ok := b.ok.trans a.ok
  blockIndex := b.blockIndex.trans a.blockIndex
  blockOffsetData := b.blockOffsetData.trans a.blockOffsetData
  sinkAtStore := b.sinkAtStore.trans a.sinkAtStore
  blockOffset := b.blockOffset.trans a.blockOffset
  dataLe := le_trans a.dataLe b.dataLe
  attemptsLe := le_trans a.attemptsLe b.attemptsLe
  bytes := by
    intro hr
    have h1 := a.bytes hr
    have hr2 : t.output.reliable := by
      intro i
      rw [a.ok]
      exact hr i
    have h2 := b.bytes hr2
    omega

theorem Frame.reliable {s t : HlacEncoder} (a : Frame s t) (hr : s.output.reliable) :
    t.output.reliable := by
  intro i
  rw [a.ok]
  exact hr i

theorem memoryBlock_length (n : Nat) (bytes : List Nat) : (memoryBlock n bytes).length = n := by
  unfold memoryBlock
  simp

theorem shortBytes_length (v : Int) : (shortBytes v).length = 2 := rfl

theorem write_data_le (o : OutputStream) (bytes : List Nat) :
    o.data.length ≤ (o.write bytes).1.data.length := by
  rw [write_data]
  split <;> simp

theorem writeCycleHeader_frame (isTemplate : Bool) (bitDepth : Nat) (numSamples : Int)
    (s : HlacEncoder) : Frame s (writeCycleHeader isTemplate bitDepth numSamples s).1 := by
  have hd := writeCycleHeader_data isTemplate bitDepth numSamples s
  refine ⟨?_, ?_, ?_, ?_, ?_, ?_, ?_, ?_⟩
  · unfold writeCycleHeader OutputStream.writeByte OutputStream.writeShort
    dsimp only
    split <;> simp [write_ok]
  · unfold writeCycleHeader
    dsimp only
    split <;> rfl
  · unfold writeCycleHeader
    dsimp only
    split <;> rfl
  · unfold writeCycleHeader
    dsimp only
    split <;> rfl
  · unfold writeCycleHeader
    dsimp only
    split <;> rfl
  · rw [hd]
    simp
  · unfold writeCycleHeader OutputStream.writeByte OutputStream.writeShort
    dsimp only
    split
    · simp [write_attempts]
    · simp only [write_attempts]
      omega
  · intro hr
    rw [hd]
    simp only [hr _, if_true, List.length_append, List.length_cons, shortBytes_length]
    unfold writeCycleHeader OutputStream.writeByte
    simp only [write_result, hr _, Bool.true_eq_false, if_false]
    omega

theorem writeDiffHeader_frame (fullBitRate errorBitRate : Int) (blockSize : Nat)
    (s : HlacEncoder) : Frame s (writeDiffHeader fullBitRate errorBitRate blockSize s).1 := by
  have hd := writeDiffHeader_data fullBitRate errorBitRate blockSize s
  refine ⟨?_, ?_, ?_, ?_, ?_, ?_, ?_, ?_⟩
  · unfold writeDiffHeader OutputStream.writeByte OutputStream.writeShort
    dsimp only
    split <;> simp [write_ok]
  · unfold writeDiffHeader
    dsimp only
    split <;> rfl
  · unfold writeDiffHeader
    dsimp only
    split <;> rfl
  · unfold writeDiffHeader
    dsimp only
    split <;> rfl
  · unfold writeDiffHeader
    dsimp only
    split <;> rfl
  · rw [hd]
    simp
  · unfold writeDiffHeader OutputStream.writeByte OutputStream.writeShort
    dsimp only
    split
    · simp [write_attempts]
    · simp only [write_attempts]
      omega
  · intro hr
    rw [hd]
    simp only [hr _, if_true, List.length_append, List.length_cons, shortBytes_length]
    unfold writeDiffHeader OutputStream.writeByte
    simp only [write_result, hr _, Bool.true_eq_false, if_false]
    omega

theorem countTemplate_frame (s : HlacEncoder) : Frame s (countTemplate s) :=
  ⟨rfl, rfl, rfl, rfl, rfl, le_rfl, le_rfl, fun _ => rfl⟩

theorem countDelta_frame (s : HlacEncoder) : Frame s (countDelta s) :=
  ⟨rfl, rfl, rfl, rfl, rfl, le_rfl, le_rfl, fun _ => rfl⟩

theorem noteEmitted_frame (e : Emitted) (s : HlacEncoder) : Frame s (noteEmitted e s) :=
  ⟨rfl, rfl, rfl, rfl, rfl, le_rfl, le_rfl, fun _ => rfl⟩

theorem writePayload_frame (n : Nat) (bytes : List Nat) (s : HlacEncoder) :
    Frame s (writePayload n bytes s).1 := by
  refine ⟨?_, rfl, rfl, rfl, rfl, ?_, ?_, ?_⟩
  · exact write_ok _ _
  · exact write_data_le _ _
  · show s.output.attempts ≤ (s.output.write _).1.attempts
    rw [write_attempts]
    omega
  · intro hr
    have h3 := write_reliable s.output (memoryBlock n bytes) hr
    show s.numBytesWritten + n + s.output.data.length
      = s.numBytesWritten + (s.output.write (memoryBlock n bytes)).1.data.length
    rw [h3.2.2, List.length_append, memoryBlock_length]
    omega

theorem writePayloadChecked_frame (n : Nat) (bytes : List Nat) (s : HlacEncoder) :
    Frame s (writePayloadChecked n bytes s).1 := by
  unfold writePayloadChecked
  dsimp only
  split
  next hw =>
    refine ⟨?_, rfl, rfl, rfl, rfl, ?_, ?_, ?_⟩
    · exact write_ok _ _
    · exact write_data_le _ _
    · show s.output.attempts ≤ (s.output.write _).1.attempts
      rw [write_attempts]
      omega
    · intro hr
      have h3 := write_reliable s.output (memoryBlock n bytes) hr
      rw [h3.2.1] at hw
      cases hw
  next hw =>
    refine ⟨?_, rfl, rfl, rfl, rfl, ?_, ?_, ?_⟩
    · exact write_ok _ _
    · exact write_data_le _ _
    · show s.output.attempts ≤ (s.output.write _).1.attempts
      rw [write_attempts]
      omega
    · intro hr
      have h3 := write_reliable s.output (memoryBlock n bytes) hr
      show s.numBytesWritten + n + s.output.data.length
        = s.numBytesWritten + (s.output.write (memoryBlock n bytes)).1.data.length
      rw [h3.2.2, List.length_append, memoryBlock_length]
      omega

theorem encodeCycle_frame (cycle : List Int) (s : HlacEncoder) :
    Frame s (encodeCycle h cycle s).1 := by
  unfold encodeCycle
  split
  · exact Frame.stay s
  · have f1 := (countTemplate_frame s).andThen
      (writeCycleHeader_frame true (h.getSuitableCompressorForData cycle).allowedBitRange
        cycle.length (countTemplate s))
    dsimp only
    split
    · exact f1
    · split
      · exact (f1.andThen (noteEmitted_frame _ _)).andThen (writePayload_frame _ _ _)
      · exact f1.andThen (noteEmitted_frame _ _)

theorem encodeCycleDelta_frame (cycle : List Int) (s : HlacEncoder) :
    Frame s (encodeCycleDelta h cycle s).1 := by
  unfold encodeCycleDelta
  split
  · exact encodeCycle_frame h cycle s
  · have f1 := (countDelta_frame s).andThen
      (writeCycleHeader_frame false
        (h.getSuitableCompressorForData (sub cycle s.currentCycle cycle.length)).allowedBitRange
        cycle.length (countDelta s))
    dsimp only
    split
    · exact f1
    · exact (f1.andThen (noteEmitted_frame _ _)).andThen (writePayload_frame _ _ _)

theorem encodeDiff_frame (cycle : List Int) (s : HlacEncoder) :
    Frame s (encodeDiff h cycle s).1 := by
  unfold encodeDiff
  have f1 := writeDiffHeader_frame
    (h.getSuitableCompressorForData (h.createBufferWithFullValues cycle)).allowedBitRange
    (h.getSuitableCompressorForData
      (h.createBufferWithErrorValues cycle (h.createBufferWithFullValues cycle))).allowedBitRange
    cycle.length s
  dsimp only
  split
  · exact f1
  · have f2 := (f1.andThen (noteEmitted_frame (Emitted.diff cycle) _)).andThen
      (writePayloadChecked_frame
        ((h.getSuitableCompressorForData (h.createBufferWithFullValues cycle)).getByteAmount
          (h.getNumFullValues cycle.length))
        ((h.getSuitableCompressorForData (h.createBufferWithFullValues cycle)).compress
          (h.createBufferWithFullValues cycle)) _)
    split
    · exact f2
    · exact f2.andThen (writePayloadChecked_frame _ _ _)

theorem advance_frame (n : Nat) (s : HlacEncoder) : Frame s (advance n s) :=
  ⟨rfl, rfl, rfl, rfl, rfl, le_rfl, le_rfl, fun _ => rfl⟩

theorem setCurrentCycle_frame (cycle : List Int) (s : HlacEncoder) :
    Frame s (setCurrentCycle h cycle s) :=
  ⟨rfl, rfl, rfl, rfl, rfl, le_rfl, le_rfl, fun _ => rfl⟩

theorem startBlock_frame (s : HlacEncoder) : Frame s (startBlock h s) :=
  ⟨rfl, rfl, rfl, rfl, rfl, le_rfl, le_rfl, fun _ => rfl⟩

theorem rememberFirstCycleLength_frame (rest : List Int) (s : HlacEncoder) :
    Frame s (rememberFirstCycleLength h options rest s) := by
  unfold rememberFirstCycleLength
  split
  · exact ⟨rfl, rfl, rfl, rfl, rfl, le_rfl, le_rfl, fun _ => rfl⟩
  · exact Frame.stay s

theorem beginCycle_frame (rest : List Int) (s : HlacEncoder) :
    Frame s (beginCycle h options rest s) :=
  ((rememberFirstCycleLength_frame h options rest s).andThen (setCurrentCycle_frame h _ _)).andThen
    (advance_frame _ _)

theorem deltaLoop_frame (fuel : Nat) (block16 : List Int) (rest : Nat) (cycleLength : Nat) :
    ∀ (numRemaining : Nat) (s t : HlacEncoder),
      deltaLoop h options fuel block16 rest cycleLength numRemaining s = some t → Frame s t := by
  induction fuel with
  | zero =>
    intro numRemaining s t ht
    simp [deltaLoop] at ht
  | succ fuel ih =>
    intro numRemaining s t ht
    unfold deltaLoop at ht
    dsimp only at ht
    split at ht
    · split at ht
      · split at ht
        · exact ((advance_frame _ s).andThen (encodeCycleDelta_frame h _ _)).andThen (ih _ _ _ ht)
        · cases ht
          exact Frame.stay s
      · cases ht
        exact Frame.stay s
    · cases ht
      exact Frame.stay s

theorem blockLoop_frame (fuel : Nat) (block16 : List Int) :
    ∀ (s : HlacEncoder) (r : HlacEncoder × Bool),
      blockLoop h options fuel block16 s = some r → Frame s r.1 := by
  induction fuel with
  | zero =>
    intro s r hr
    simp [blockLoop] at hr
  | succ fuel ih =>
    intro s r hr
    unfold blockLoop at hr
    dsimp only at hr
    split at hr
    · cases hr
      exact Frame.stay s
    · split at hr
      · split at hr
        · cases hr
          exact encodeCycleDelta_frame h _ _
        · exact ((encodeCycleDelta_frame h _ s).andThen (advance_frame _ _)).andThen (ih _ _ hr)
      · have fb := beginCycle_frame h options
          (getPart block16 s.indexInBlock (h.COMPRESSION_BLOCK_SIZE - s.indexInBlock)) s
        split at hr
        · split at hr
          · exact (fb.andThen (encodeCycle_frame h _ _)).andThen (ih _ _ hr)
          · exact (fb.andThen (encodeDiff_frame h _ _)).andThen (ih _ _ hr)
        · split at hr
          · cases hr
            exact fb.andThen (encodeCycle_frame h _ _)
          · split at hr
            · cases hr
            next s4 hd =>
              exact ((fb.andThen (encodeCycle_frame h _ _)).andThen
                (deltaLoop_frame h options _ _ _ _ _ _ _ hd)).andThen (ih _ _ hr)

theorem encodeBlock_frame (fuel : Nat) (block16 : List Int) (s : HlacEncoder)
    (r : HlacEncoder × Bool) (hr : encodeBlock h options fuel block16 s = some r) :
    Frame s r.1 := by
  unfold encodeBlock at hr
  dsimp only at hr
  split at hr
  · cases hr
    exact (startBlock_frame h s).andThen (encodeCycle_frame h _ _)
  · exact (startBlock_frame h s).andThen (blockLoop_frame h options _ _ _ _ hr)

theorem encodeLastBlock_frame (a : List Int) (s : HlacEncoder) :
    Frame s (encodeLastBlock h a s) := by
  unfold encodeLastBlock
  have f1 := (encodeCycle_frame h a s).andThen
    (writeCycleHeader_frame true 0 ((h.COMPRESSION_BLOCK_SIZE : Int) - a.length)
      (encodeCycle h a s).1)
  dsimp only
  split
  · exact f1
  · exact f1.andThen (noteEmitted_frame _ _)

theorem encodeBlocks_frame (fuel : Nat) (source : AudioSampleBuffer) (offset size : Nat)
    (s t : HlacEncoder) (ht : encodeBlocks h options fuel source offset size s = some t) :
    Frame s t := by
  unfold encodeBlocks at ht
  split at ht
  · split at ht
    · cases ht
    next l hl =>
      split at ht
      · cases ht
      next r hr =>
        cases ht
        exact (encodeBlock_frame h options _ _ _ _ hl).andThen
          (encodeBlock_frame h options _ _ _ _ hr)
  · split at ht
    · cases ht
    next b hb =>
      cases ht
      exact encodeBlock_frame h options _ _ _ _ hb

theorem encodeLastBlocks_frame (source : AudioSampleBuffer) (offset size : Nat)
    (s : HlacEncoder) : Frame s (encodeLastBlocks h source offset size s) := by
  unfold encodeLastBlocks
  split
  · exact (encodeLastBlock_frame h _ s).andThen (encodeLastBlock_frame h _ _)
  · exact encodeLastBlock_frame h _ s

/-! ### The byte counter and the offset table along `compress` -/

theorem Consistent.frame {base : Nat} {s t : HlacEncoder} (c : Consistent base s)
    (hne : s.sinkAtStore ≠ []) (f : Frame s t) : Consistent base t where
  first := by
    rw [f.sinkAtStore]
    have h1 := c.first
    cases hs : s.sinkAtStore with
    | nil => exact absurd hs hne
    | cons a l =>
      rw [hs] at h1
      exact h1
  reliable := f.reliable c.reliable
  counter := by
    have h1 := f.bytes c.reliable
    have h2 := c.counter
    omega
  table := by
    rw [f.blockOffsetData, f.sinkAtStore]
    exact c.table
  bounded := by
    intro g hg
    rw [f.sinkAtStore] at hg
    exact le_trans (c.bounded g hg) f.dataLe
  sorted := by
    rw [f.sinkAtStore]
    exact c.sorted

theorem Consistent.store {base : Nat} {s : HlacEncoder} (c : Consistent base s) :
    Consistent base (storeBlockOffset s) where
  reliable := c.reliable
  counter := c.counter
  table := by
    show (s.blockOffsetData ++ [(s.blockIndex, s.numBytesWritten % 4294967296)]).map Prod.snd
      = (s.sinkAtStore ++ [s.output.data.length]).map (fun g => (g - base) % 4294967296)
    rw [List.map_append, List.map_append, c.table]
    have h2 := c.counter
    have h3 : s.output.data.length - base = s.numBytesWritten := by omega
    simp [h3]
  bounded := by
    intro g hg
    have hg2 : g ∈ s.sinkAtStore ++ [s.output.data.length] := hg
    rw [List.mem_append] at hg2
    rcases hg2 with hg2 | hg2
    · exact c.bounded g hg2
    · simp only [List.mem_singleton] at hg2
      rw [hg2]
      exact le_rfl
  sorted := by
    show (s.sinkAtStore ++ [s.output.data.length]).Pairwise (fun a b => a ≤ b)
    rw [List.pairwise_append]
    refine ⟨c.sorted, List.pairwise_singleton _ _, ?_⟩
    intro a ha b hb
    simp only [List.mem_singleton] at hb
    rw [hb]
    exact c.bounded a ha
  first := by
    show (s.sinkAtStore ++ [s.output.data.length]).head?.getD s.output.data.length = base
    have h1 := c.first
    cases hs : s.sinkAtStore with
    | nil =>
      rw [hs] at h1
      exact h1
    | cons a l =>
      rw [hs] at h1
      exact h1

theorem storeBlockOffset_sinkAtStore_ne (s : HlacEncoder) :
    (storeBlockOffset s).sinkAtStore ≠ [] := by
  show s.sinkAtStore ++ [s.output.data.length] ≠ []
  simp

theorem Consistent.advanceBlockOffset {base : Nat} {s : HlacEncoder} (n : Nat)
    (c : Consistent base s) : Consistent base (advanceBlockOffset n s) :=
  ⟨c.reliable, c.counter, c.table, c.bounded, c.sorted, c.first⟩

theorem Consistent.clearBlockOffset {base : Nat} {s : HlacEncoder}
    (c : Consistent base s) : Consistent base (clearBlockOffset s) :=
  ⟨c.reliable, c.counter, c.table, c.bounded, c.sorted, c.first⟩

theorem compressLoop_consistent (base : Nat) (blockFuel : Nat) (source : AudioSampleBuffer)
    (fuel : Nat) :
    ∀ (n : Int) (s t : HlacEncoder), Consistent base s →
      compressLoop h options fuel blockFuel source n s = some t → Consistent base t := by
  induction fuel with
  | zero =>
    intro n s t _ ht
    simp [compressLoop] at ht
  | succ fuel ih =>
    intro n s t c ht
    unfold compressLoop at ht
    dsimp only at ht
    split at ht
    · split at ht
      · cases ht
      next s2 h2 =>
        exact ih _ _ _
          ((c.store.frame (storeBlockOffset_sinkAtStore_ne s)
            (encodeBlocks_frame h options _ _ _ _ _ _ h2)).advanceBlockOffset _) ht
    · cases ht
      exact c

theorem compress_consistent (base : Nat) (fuel blockFuel : Nat) (source : AudioSampleBuffer)
    (s t : HlacEncoder) (c : Consistent base s)
    (ht : compress h options fuel blockFuel source s = some t) : Consistent base t := by
  unfold compress at ht
  split at ht
  · exact c.store.frame (storeBlockOffset_sinkAtStore_ne s)
      (encodeBlocks_frame h options _ _ _ _ _ _ ht)
  · split at ht
    · cases ht
    next s1 h1 =>
      have c1 := compressLoop_consistent h options base blockFuel source fuel _ _ _
        c.clearBlockOffset h1
      split at ht
      · cases ht
        exact c1.store.frame (storeBlockOffset_sinkAtStore_ne s1)
          (encodeLastBlocks_frame h _ _ _ _)
      · cases ht
        exact c1

theorem compressAll_consistent (base : Nat) (fuel blockFuel : Nat) :
    ∀ (sources : List AudioSampleBuffer) (s t : HlacEncoder), Consistent base s →
      compressAll h options fuel blockFuel sources s = some t → Consistent base t := by
  intro sources
  induction sources with
  | nil =>
    intro s t c ht
    simp only [compressAll, Option.some.injEq] at ht
    rw [← ht]
    exact c
  | cons b bs ih =>
    intro s t c ht
    unfold compressAll at ht
    split at ht
    · cases ht
    next s1 h1 =>
      exact ih _ _ (compress_consistent h options base fuel blockFuel b s s1 c h1) ht

theorem freshEncoder_consistent (out : OutputStream) (hr : out.reliable) :
    Consistent out.data.length (freshEncoder h out) where
  reliable := hr
  counter := by
    show 0 + out.data.length = out.data.length
    omega
  table := rfl
  bounded := by
    intro g hg
    cases hg
  sorted := List.Pairwise.nil
  first := rfl

theorem writeCycleHeader_counts (isTemplate : Bool) (bitDepth : Nat) (numSamples : Int)
    (s : HlacEncoder) (hs : s.output.reliable) :
    (writeCycleHeader isTemplate bitDepth numSamples s).1.numBytesWritten = s.numBytesWritten + 3 ∧
    (writeCycleHeader isTemplate bitDepth numSamples s).1.output.data.length
      = s.output.data.length + 3 := by
  have hb := (writeCycleHeader_frame isTemplate bitDepth numSamples s).bytes hs
  have hd := writeCycleHeader_data isTemplate bitDepth numSamples s
  have hl : (writeCycleHeader isTemplate bitDepth numSamples s).1.output.data.length
      = s.output.data.length + 3 := by
    rw [hd]
    simp [hs _, shortBytes_length]
  constructor
  · omega
  · exact hl

theorem writeDiffHeader_counts (fullBitRate errorBitRate : Int) (blockSize : Nat)
    (s : HlacEncoder) (hs : s.output.reliable) :
    (writeDiffHeader fullBitRate errorBitRate blockSize s).1.numBytesWritten
      = s.numBytesWritten + 3 ∧
    (writeDiffHeader fullBitRate errorBitRate blockSize s).1.output.data.length
      = s.output.data.length + 3 := by
  have hb := (writeDiffHeader_frame fullBitRate errorBitRate blockSize s).bytes hs
  have hd := writeDiffHeader_data fullBitRate errorBitRate blockSize s
  have hl : (writeDiffHeader fullBitRate errorBitRate blockSize s).1.output.data.length
      = s.output.data.length + 3 := by
    rw [hd]
    simp [hs _, shortBytes_length]
  constructor
  · omega
  · exact hl

theorem writePayload_counts (n : Nat) (bytes : List Nat) (s : HlacEncoder)
    (hs : s.output.reliable) :
    (writePayload n bytes s).1.numBytesWritten = s.numBytesWritten + n ∧
    (writePayload n bytes s).1.output.data.length = s.output.data.length + n := by
  have h3 := write_reliable s.output (memoryBlock n bytes) hs
  constructor
  · rfl
  · show (s.output.write (memoryBlock n bytes)).1.data.length = s.output.data.length + n
    rw [h3.2.2, List.length_append, memoryBlock_length]

theorem writePayloadChecked_counts (n : Nat) (bytes : List Nat) (s : HlacEncoder)
    (hs : s.output.reliable) :
    (writePayloadChecked n bytes s).1.numBytesWritten = s.numBytesWritten + n ∧
    (writePayloadChecked n bytes s).1.output.data.length = s.output.data.length + n := by
  have h3 := write_reliable s.output (memoryBlock n bytes) hs
  unfold writePayloadChecked
  simp only [h3.2.1, Bool.true_eq_false, if_false, true_and]
  rw [h3.2.2, List.length_append, memoryBlock_length]

/-- C3: on a stream whose writes all succeed, after `reset()` and any sequence
of `compress` calls that return, `numBytesWritten` is the number of bytes
written to the stream since the reset; and on such a stream every cycle,
padding or diff header adds 3 to the counter and 3 bytes to the stream, and
every template, delta, full-value or error-value payload adds the packer's
byte count to both. -/
theorem numBytesWritten_counts_sink_bytes (out : OutputStream) (hr : out.reliable)
    (fuel blockFuel : Nat) (sources : List AudioSampleBuffer) (t : HlacEncoder)
    (ht : compressAll h options fuel blockFuel sources (freshEncoder h out) = some t)
    (s : HlacEncoder) (hs : s.output.reliable) :
    t.numBytesWritten + out.data.length = t.output.data.length ∧
    (∀ (isTemplate : Bool) (bitDepth : Nat) (numSamples : Int),
      (writeCycleHeader isTemplate bitDepth numSamples s).1.numBytesWritten
        = s.numBytesWritten + 3 ∧
      (writeCycleHeader isTemplate bitDepth numSamples s).1.output.data.length
        = s.output.data.length + 3) ∧
    (∀ (fullBitRate errorBitRate : Int) (blockSize : Nat),
      (writeDiffHeader fullBitRate errorBitRate blockSize s).1.numBytesWritten
        = s.numBytesWritten + 3 ∧
      (writeDiffHeader fullBitRate errorBitRate blockSize s).1.output.data.length
        = s.output.data.length + 3) ∧
    (∀ (n : Nat) (bytes : List Nat),
      (writePayload n bytes s).1.numBytesWritten = s.numBytesWritten + n ∧
      (writePayload n bytes s).1.output.data.length = s.output.data.length + n ∧
      (writePayloadChecked n bytes s).1.numBytesWritten = s.numBytesWritten + n ∧
      (writePayloadChecked n bytes s).1.output.data.length = s.output.data.length + n) :=
  ⟨(compressAll_consistent h options _ fuel blockFuel sources _ t
      (freshEncoder_consistent h out hr) ht).counter,
   fun f d n => writeCycleHeader_counts f d n s hs,
   fun a b c => writeDiffHeader_counts a b c s hs,
   fun n bytes => ⟨(writePayload_counts n bytes s hs).1, (writePayload_counts n bytes s hs).2,
     (writePayloadChecked_counts n bytes s hs).1, (writePayloadChecked_counts n bytes s hs).2⟩⟩

/-- The statement of C3 for two `compress` calls with a block size of 8. -/
theorem numBytesWritten_counts_sink_bytes_witness :
    ∃ t, compressAll (specHelpers 8) plainOptions 3 12 exampleSources
        (freshEncoder (specHelpers 8) reliableStream) = some t ∧
      t.numBytesWritten + reliableStream.data.length = t.output.data.length :=
  ⟨_, Option.eq_some_of_isSome (by decide),
    (numBytesWritten_counts_sink_bytes (specHelpers 8) plainOptions reliableStream
      (fun _ => rfl) 3 12 exampleSources _ (Option.eq_some_of_isSome (by decide))
      (freshEncoder (specHelpers 8) reliableStream) (fun _ => rfl)).1⟩

/-- C4: on a stream whose writes all succeed, after `reset()` and any sequence
of `compress` calls that return, the value stored into `blockOffsetData` for a
block is, in 32 bits, the number of bytes written when that block began, and
exactly that number while the byte counter is below `2^32`; these numbers never
decrease and the first one is 0. Hence the difference of two consecutive
entries is the number of bytes written for the earlier block. -/
theorem blockOffsetData_marks_block_starts (out : OutputStream) (hr : out.reliable)
    (fuel blockFuel : Nat) (sources : List AudioSampleBuffer) (t : HlacEncoder)
    (ht : compressAll h options fuel blockFuel sources (freshEncoder h out) = some t) :
    t.blockOffsetData.map Prod.snd =
      t.sinkAtStore.map (fun g => (g - out.data.length) % 4294967296) ∧
    (t.numBytesWritten < 4294967296 →
      t.blockOffsetData.map Prod.snd = t.sinkAtStore.map (fun g => g - out.data.length)) ∧
    t.sinkAtStore.Pairwise (fun a b => a ≤ b) ∧
    (∀ g ∈ t.sinkAtStore, out.data.length ≤ g ∧ g ≤ t.output.data.length) ∧
    (∀ e, t.blockOffsetData.head? = some e → e.2 = 0) := by
  have c := compressAll_consistent h options _ fuel blockFuel sources _ t
    (freshEncoder_consistent h out hr) ht
  have hfirst : ∀ g ∈ t.sinkAtStore, out.data.length ≤ g := by
    intro g hg
    have h1 := c.first
    have h2 := c.sorted
    cases hs : t.sinkAtStore with
    | nil =>
      rw [hs] at hg
      cases hg
    | cons a l =>
      rw [hs] at h1 h2 hg
      simp only [List.head?_cons, Option.getD_some] at h1
      rw [List.pairwise_cons] at h2
      rcases List.mem_cons.mp hg with hg | hg
      · omega
      · have := h2.1 g hg
        omega
  refine ⟨c.table, ?_, c.sorted, fun g hg => ⟨hfirst g hg, c.bounded g hg⟩, ?_⟩
  · intro hlt
    rw [c.table]
    apply List.map_congr_left
    intro g hg
    have h1 := c.bounded g hg
    have h2 := c.counter
    apply Nat.mod_eq_of_lt
    omega
  · intro e he
    have h1 := c.table
    have h2 := c.first
    cases hb : t.blockOffsetData with
    | nil =>
      rw [hb] at he
      cases he
    | cons a l =>
      rw [hb] at he h1
      simp only [List.head?_cons, Option.some.injEq] at he
      cases hs : t.sinkAtStore with
      | nil =>
        rw [hs] at h1
        cases h1
      | cons g gs =>
        rw [hs] at h1 h2
        simp only [List.head?_cons, Option.getD_some] at h2
        simp only [List.map_cons, List.cons.injEq] at h1
        rw [← he, h1.1, h2]
        simp

/-- The statement of C4 for two `compress` calls with a block size of 8:
the three blocks begin at the bytes 0, 14 and 22. -/
theorem blockOffsetData_marks_block_starts_witness :
    ∃ t, compressAll (specHelpers 8) plainOptions 3 12 exampleSources
        (freshEncoder (specHelpers 8) reliableStream) = some t ∧
      t.blockOffsetData = [(0, 0), (1, 14), (2, 22)] ∧
      t.blockOffsetData.map Prod.snd =
        t.sinkAtStore.map (fun g => (g - reliableStream.data.length) % 4294967296) ∧
      t.blockOffsetData.map Prod.snd =
        t.sinkAtStore.map (fun g => g - reliableStream.data.length) :=
  ⟨_, Option.eq_some_of_isSome (by decide), by decide,
    (blockOffsetData_marks_block_starts (specHelpers 8) plainOptions reliableStream
      (fun _ => rfl) 3 12 exampleSources _ (Option.eq_some_of_isSome (by decide))).1,
    (blockOffsetData_marks_block_starts (specHelpers 8) plainOptions reliableStream
      (fun _ => rfl) 3 12 exampleSources _ (Option.eq_some_of_isSome (by decide))).2.1
      (by decide)⟩

/-! ### One table entry per block -/

theorem range_succ_map_add (a k : Nat) :
    (List.range (k + 1)).map (fun i => a + i) = a :: (List.range k).map (fun i => a + 1 + i) := by
  rw [List.range_succ_eq_map, List.map_cons, List.map_map]
  congr 1
  apply List.map_congr_left
  intro i _
  simp only [Function.comp_apply]
  omega

/-- The stores of the block loop of `compress`: one for each whole block of the
`n` samples that remain. -/
theorem compressLoop_table (hB : 0 < h.COMPRESSION_BLOCK_SIZE) (blockFuel : Nat)
    (source : AudioSampleBuffer) (fuel : Nat) :
    ∀ (n : Nat) (s t : HlacEncoder), n ≤ source.numSamples →
      compressLoop h options fuel blockFuel source (n : Int) s = some t →
      t.blockIndex = s.blockIndex + n / h.COMPRESSION_BLOCK_SIZE ∧
      t.blockOffset = s.blockOffset + n / h.COMPRESSION_BLOCK_SIZE * h.COMPRESSION_BLOCK_SIZE ∧
      ∃ new, t.blockOffsetData = s.blockOffsetData ++ new ∧
        new.map Prod.fst =
          (List.range (n / h.COMPRESSION_BLOCK_SIZE)).map (fun i => s.blockIndex + i) := by
  induction fuel with
  | zero =>
    intro n s t _ ht
    simp [compressLoop] at ht
  | succ fuel ih =>
    intro n s t hn ht
    unfold compressLoop at ht
    dsimp only at ht
    split at ht
    next hle =>
      have hle2 : h.COMPRESSION_BLOCK_SIZE ≤ n := by exact_mod_cast hle
      have hmin : min h.COMPRESSION_BLOCK_SIZE source.numSamples = h.COMPRESSION_BLOCK_SIZE :=
        Nat.min_eq_left (le_trans hle2 hn)
      rw [hmin] at ht
      split at ht
      · cases ht
      next s2 h2 =>
        have f := encodeBlocks_frame h options _ _ _ _ _ _ h2
        have hcast : ((n : Int) - (h.COMPRESSION_BLOCK_SIZE : Int))
            = ((n - h.COMPRESSION_BLOCK_SIZE : Nat) : Int) := by omega
        rw [hcast] at ht
        obtain ⟨i1, i2, new, i3, i4⟩ := ih (n - h.COMPRESSION_BLOCK_SIZE) _ t (by omega) ht
        have hdiv : n / h.COMPRESSION_BLOCK_SIZE
            = (n - h.COMPRESSION_BLOCK_SIZE) / h.COMPRESSION_BLOCK_SIZE + 1 := by
          rw [Nat.div_eq_sub_div hB hle2]
        have hbi : (advanceBlockOffset h.COMPRESSION_BLOCK_SIZE s2).blockIndex
            = s.blockIndex + 1 := f.blockIndex
        have hbo : (advanceBlockOffset h.COMPRESSION_BLOCK_SIZE s2).blockOffset
            = s.blockOffset + h.COMPRESSION_BLOCK_SIZE := by
          show s2.blockOffset + h.COMPRESSION_BLOCK_SIZE = _
          rw [f.blockOffset]
          rfl
        have hbd : (advanceBlockOffset h.COMPRESSION_BLOCK_SIZE s2).blockOffsetData
            = s.blockOffsetData ++ [(s.blockIndex, s.numBytesWritten % 4294967296)] :=
          f.blockOffsetData
        rw [hbi] at i1 i4
        rw [hbo] at i2
        rw [hbd] at i3
        refine ⟨by omega, ?_, (s.blockIndex, s.numBytesWritten % 4294967296) :: new, ?_, ?_⟩
        · rw [i2, hdiv, Nat.add_mul]
          omega
        · rw [i3]
          simp
        · rw [hdiv, range_succ_map_add, List.map_cons, i4]
    next hlt =>
      have hlt2 : n < h.COMPRESSION_BLOCK_SIZE := by
        have : ¬ (h.COMPRESSION_BLOCK_SIZE ≤ n) := by
          intro hc
          exact hlt (by exact_mod_cast hc)
        omega
      cases ht
      rw [Nat.div_eq_of_lt hlt2]
      exact ⟨rfl, by simp, [], by simp, rfl⟩

theorem ceil_div_eq (B L : Nat) (hB : 0 < B) :
    (L + B - 1) / B = L / B + (if L % B = 0 then 0 else 1) := by
  have hdm := Nat.div_add_mod L B
  have hr := Nat.mod_lt L hB
  split
  next h0 =>
    have e : L + B - 1 = B * (L / B) + (B - 1) := by omega
    have h1 : (B - 1) / B = 0 := Nat.div_eq_of_lt (by omega)
    rw [e, Nat.mul_add_div hB, h1]
  next h0 =>
    have e : L + B - 1 = B * (L / B + 1) + (L % B - 1) := by
      rw [Nat.mul_add, Nat.mul_one]
      omega
    have h1 : (L % B - 1) / B = 0 := Nat.div_eq_of_lt (by omega)
    rw [e, Nat.mul_add_div hB, h1]

/-- What a `compress` call that returns has stored into `blockOffsetData`. -/
theorem compress_table (hB : 0 < h.COMPRESSION_BLOCK_SIZE)
    (fuel blockFuel : Nat) (source : AudioSampleBuffer) (s t : HlacEncoder)
    (ht : compress h options fuel blockFuel source s = some t) :
    t.blockIndex = s.blockIndex
      + (source.numSamples + h.COMPRESSION_BLOCK_SIZE - 1) / h.COMPRESSION_BLOCK_SIZE ∧
    (∃ new, t.blockOffsetData = s.blockOffsetData ++ new ∧
      new.map Prod.fst =
        (List.range ((source.numSamples + h.COMPRESSION_BLOCK_SIZE - 1)
          / h.COMPRESSION_BLOCK_SIZE)).map (fun i => s.blockIndex + i)) ∧
    (source.numSamples = 0 →
      t.blockOffsetData = s.blockOffsetData ∧ t.output = s.output ∧
      compress h options (fuel + 1) blockFuel source s = some (clearBlockOffset s)) := by
  have hceil := ceil_div_eq h.COMPRESSION_BLOCK_SIZE source.numSamples hB
  unfold compress at ht
  split at ht
  next hL =>
    have f := encodeBlocks_frame h options _ _ _ _ _ _ ht
    have hk : (source.numSamples + h.COMPRESSION_BLOCK_SIZE - 1) / h.COMPRESSION_BLOCK_SIZE
        = 1 := by
      rw [hceil, hL, Nat.div_self hB, Nat.mod_self]
      rfl
    rw [hk]
    refine ⟨f.blockIndex, ⟨[(s.blockIndex, s.numBytesWritten % 4294967296)], f.blockOffsetData,
      by simp [List.range_succ]⟩, ?_⟩
    intro h0
    omega
  next hL =>
    split at ht
    · cases ht
    next s1 h1 =>
      obtain ⟨i1, i2, new, i3, i4⟩ := compressLoop_table h options hB blockFuel source fuel
        source.numSamples _ s1 le_rfl h1
      have hbo : s1.blockOffset
          = source.numSamples / h.COMPRESSION_BLOCK_SIZE * h.COMPRESSION_BLOCK_SIZE := by
        rw [i2]
        show 0 + _ = _
        omega
      have hdm := Nat.div_add_mod source.numSamples h.COMPRESSION_BLOCK_SIZE
      have hmul : h.COMPRESSION_BLOCK_SIZE * (source.numSamples / h.COMPRESSION_BLOCK_SIZE)
          = source.numSamples / h.COMPRESSION_BLOCK_SIZE * h.COMPRESSION_BLOCK_SIZE :=
        Nat.mul_comm _ _
      have hbi : s1.blockIndex = s.blockIndex + source.numSamples / h.COMPRESSION_BLOCK_SIZE := i1
      have hbd : s1.blockOffsetData = s.blockOffsetData ++ new := i3
      have hfst : new.map Prod.fst = (List.range (source.numSamples
          / h.COMPRESSION_BLOCK_SIZE)).map (fun i => s.blockIndex + i) := i4
      split at ht
      next hlt =>
        have hmod : ¬ source.numSamples % h.COMPRESSION_BLOCK_SIZE = 0 := by omega
        rw [hceil, if_neg hmod]
        cases ht
        have f := encodeLastBlocks_frame h source s1.blockOffset
          (source.numSamples - s1.blockOffset) (storeBlockOffset s1)
        refine ⟨?_, ⟨new ++ [(s1.blockIndex, s1.numBytesWritten % 4294967296)], ?_, ?_⟩, ?_⟩
        · rw [f.blockIndex]
          show s1.blockIndex + 1 = _
          omega
        · rw [f.blockOffsetData]
          show s1.blockOffsetData ++ _ = _
          rw [hbd, List.append_assoc]
        · rw [List.map_append, hfst, List.range_succ, List.map_append, hbi]
          rfl
        · intro h0
          omega
      next hge =>
        have hmod : source.numSamples % h.COMPRESSION_BLOCK_SIZE = 0 := by omega
        rw [hceil, if_pos hmod]
        cases ht
        refine ⟨by omega, ⟨new, hbd, by simpa using hfst⟩, ?_⟩
        intro h0
        have hq : source.numSamples / h.COMPRESSION_BLOCK_SIZE = 0 := by
          rw [h0]
          exact Nat.zero_div _
        rw [hq] at hfst
        have hnew : new = [] := by
          cases new with
          | nil => rfl
          | cons a l => simp at hfst
        have hL2 : ¬ source.numSamples = h.COMPRESSION_BLOCK_SIZE := by omega
        refine ⟨by rw [hbd, hnew, List.append_nil], ?_, ?_⟩
        · cases fuel with
          | zero => simp [compressLoop] at h1
          | succ fuel =>
            unfold compressLoop at h1
            rw [h0] at h1
            have hB2 : ¬ ((h.COMPRESSION_BLOCK_SIZE : Int) ≤ ((0 : Nat) : Int)) := by
              intro hc
              have : h.COMPRESSION_BLOCK_SIZE ≤ 0 := by exact_mod_cast hc
              omega
            simp only [hB2, if_false, Option.some.injEq] at h1
            rw [← h1]
            rfl
        · unfold compress
          rw [if_neg hL2]
          unfold compressLoop
          rw [h0]
          have hB2 : ¬ ((h.COMPRESSION_BLOCK_SIZE : Int) ≤ ((0 : Nat) : Int)) := by
            intro hc
            have : h.COMPRESSION_BLOCK_SIZE ≤ 0 := by exact_mod_cast hc
            omega
          simp only [hB2, if_false]
          have hbo0 : ¬ (clearBlockOffset s).blockOffset < 0 := by omega
          simp only [hbo0, if_false]

/-! ### The record of emitted cycles -/

theorem Keeps.keepsStay (s : HlacEncoder) : Keeps s s := ⟨rfl, rfl, rfl, rfl⟩

theorem Keeps.keepsThen {s t u : HlacEncoder} (a : Keeps s t) (b : Keeps t u) : Keeps s u :=
  ⟨b.indexInBlock.trans a.indexInBlock, b.currentCycle.trans a.currentCycle,
    b.bitRateForCurrentCycle.trans a.bitRateForCurrentCycle,
    b.firstCycleLength.trans a.firstCycleLength⟩

theorem countTemplate_keeps (s : HlacEncoder) : Keeps s (countTemplate s) :=
  ⟨rfl, rfl, rfl, rfl⟩

theorem countDelta_keeps (s : HlacEncoder) : Keeps s (countDelta s) :=
  ⟨rfl, rfl, rfl, rfl⟩

theorem noteEmitted_keeps (e : Emitted) (s : HlacEncoder) : Keeps s (noteEmitted e s) :=
  ⟨rfl, rfl, rfl, rfl⟩

theorem writeCycleHeader_keeps (isTemplate : Bool) (bitDepth : Nat) (numSamples : Int)
    (s : HlacEncoder) : Keeps s (writeCycleHeader isTemplate bitDepth numSamples s).1 := by
  unfold writeCycleHeader
  dsimp only
  split <;> exact ⟨rfl, rfl, rfl, rfl⟩

theorem writeCycleHeader_emitted (isTemplate : Bool) (bitDepth : Nat) (numSamples : Int)
    (s : HlacEncoder) :
    (writeCycleHeader isTemplate bitDepth numSamples s).1.emitted = s.emitted := by
  unfold writeCycleHeader
  dsimp only
  split <;> rfl

theorem writeCycleHeader_reliable (isTemplate : Bool) (bitDepth : Nat) (numSamples : Int)
    (s : HlacEncoder) (hs : s.output.reliable) :
    (writeCycleHeader isTemplate bitDepth numSamples s).2 = true := by
  unfold writeCycleHeader OutputStream.writeByte OutputStream.writeShort
  have h1 := write_reliable s.output [cycleHeaderByte isTemplate bitDepth % 256] hs
  simp only [h1.2.1, Bool.true_eq_false, if_false]
  exact (write_reliable _ _ h1.1).2.1

theorem writeDiffHeader_keeps (fullBitRate errorBitRate : Int) (blockSize : Nat)
    (s : HlacEncoder) : Keeps s (writeDiffHeader fullBitRate errorBitRate blockSize s).1 := by
  unfold writeDiffHeader
  dsimp only
  split <;> exact ⟨rfl, rfl, rfl, rfl⟩

theorem writeDiffHeader_emitted (fullBitRate errorBitRate : Int) (blockSize : Nat)
    (s : HlacEncoder) :
    (writeDiffHeader fullBitRate errorBitRate blockSize s).1.emitted = s.emitted := by
  unfold writeDiffHeader
  dsimp only
  split <;> rfl

theorem writeDiffHeader_reliable (fullBitRate errorBitRate : Int) (blockSize : Nat)
    (s : HlacEncoder) (hs : s.output.reliable) :
    (writeDiffHeader fullBitRate errorBitRate blockSize s).2 = true := by
  unfold writeDiffHeader OutputStream.writeByte
  have h1 := write_reliable s.output [224 % 256] hs
  simp only [h1.2.1, Bool.true_eq_false, if_false]

theorem writePayload_keeps (n : Nat) (bytes : List Nat) (s : HlacEncoder) :
    Keeps s (writePayload n bytes s).1 := ⟨rfl, rfl, rfl, rfl⟩

theorem writePayloadChecked_keeps (n : Nat) (bytes : List Nat) (s : HlacEncoder) :
    Keeps s (writePayloadChecked n bytes s).1 := by
  unfold writePayloadChecked
  dsimp only
  split <;> exact ⟨rfl, rfl, rfl, rfl⟩

theorem writePayloadChecked_emitted (n : Nat) (bytes : List Nat) (s : HlacEncoder) :
    (writePayloadChecked n bytes s).1.emitted = s.emitted := by
  unfold writePayloadChecked
  dsimp only
  split <;> rfl

theorem writePayloadChecked_reliable (n : Nat) (bytes : List Nat) (s : HlacEncoder)
    (hs : s.output.reliable) : (writePayloadChecked n bytes s).2 = true := by
  have h3 := write_reliable s.output (memoryBlock n bytes) hs
  unfold writePayloadChecked
  simp only [h3.2.1, Bool.true_eq_false, if_false]

theorem encodeCycle_keeps (cycle : List Int) (s : HlacEncoder) :
    Keeps s (encodeCycle h cycle s).1 := by
  unfold encodeCycle
  split
  · exact Keeps.keepsStay s
  · have k1 : Keeps s (writeCycleHeader true
        (h.getSuitableCompressorForData cycle).allowedBitRange cycle.length (countTemplate s)).1 :=
      (countTemplate_keeps s).keepsThen (writeCycleHeader_keeps _ _ _ (countTemplate s))
    dsimp only
    split
    · exact k1
    · split
      · exact (k1.keepsThen (noteEmitted_keeps _ _)).keepsThen (writePayload_keeps _ _ _)
      · exact k1.keepsThen (noteEmitted_keeps _ _)

theorem encodeCycleDelta_keeps (cycle : List Int) (s : HlacEncoder) :
    Keeps s (encodeCycleDelta h cycle s).1 := by
  unfold encodeCycleDelta
  split
  · exact encodeCycle_keeps h cycle s
  · have k1 : Keeps s (writeCycleHeader false
        (h.getSuitableCompressorForData (sub cycle s.currentCycle cycle.length)).allowedBitRange
        cycle.length (countDelta s)).1 :=
      (countDelta_keeps s).keepsThen (writeCycleHeader_keeps _ _ _ (countDelta s))
    dsimp only
    split
    · exact k1
    · exact (k1.keepsThen (noteEmitted_keeps _ _)).keepsThen (writePayload_keeps _ _ _)

theorem encodeDiff_keeps (cycle : List Int) (s : HlacEncoder) :
    Keeps s (encodeDiff h cycle s).1 := by
  unfold encodeDiff
  have k1 := writeDiffHeader_keeps
    (h.getSuitableCompressorForData (h.createBufferWithFullValues cycle)).allowedBitRange
    (h.getSuitableCompressorForData
      (h.createBufferWithErrorValues cycle (h.createBufferWithFullValues cycle))).allowedBitRange
    cycle.length s
  dsimp only
  split
  · exact k1
  · have k2 := (k1.keepsThen (noteEmitted_keeps (Emitted.diff cycle) _)).keepsThen
      (writePayloadChecked_keeps
        ((h.getSuitableCompressorForData (h.createBufferWithFullValues cycle)).getByteAmount
          (h.getNumFullValues cycle.length))
        ((h.getSuitableCompressorForData (h.createBufferWithFullValues cycle)).compress
          (h.createBufferWithFullValues cycle)) _)
    split
    · exact k2
    · exact k2.keepsThen (writePayloadChecked_keeps _ _ _)

/-- What `encodeCycle` records: nothing, or the cycle as a template. -/
theorem encodeCycle_emitted (cycle : List Int) (s : HlacEncoder) :
    (encodeCycle h cycle s).1.emitted = s.emitted ∨
    (encodeCycle h cycle s).1.emitted = s.emitted ++ templateEntry cycle := by
  unfold encodeCycle
  split
  next h0 =>
    left
    rfl
  next h0 =>
    have e1 := writeCycleHeader_emitted true
      (h.getSuitableCompressorForData cycle).allowedBitRange cycle.length (countTemplate s)
    dsimp only
    split
    · left
      exact e1
    · right
      unfold templateEntry
      rw [if_neg h0]
      split
      · show _ ++ _ = _
        rw [e1]
        rfl
      · show _ ++ _ = _
        rw [e1]
        rfl

/-- What `encodeCycle` does on a stream whose writes all succeed. -/
theorem encodeCycle_reliable (cycle : List Int) (s : HlacEncoder) (hs : s.output.reliable) :
    (encodeCycle h cycle s).2 = true ∧
    (encodeCycle h cycle s).1.emitted = s.emitted ++ templateEntry cycle := by
  unfold encodeCycle templateEntry
  split
  next h0 => simp
  next h0 =>
    have e1 := writeCycleHeader_emitted true
      (h.getSuitableCompressorForData cycle).allowedBitRange cycle.length (countTemplate s)
    have r1 := writeCycleHeader_reliable true
      (h.getSuitableCompressorForData cycle).allowedBitRange cycle.length (countTemplate s) hs
    have f1 := (writeCycleHeader_frame true
      (h.getSuitableCompressorForData cycle).allowedBitRange cycle.length
      (countTemplate s)).reliable hs
    dsimp only
    rw [if_neg (by rw [r1]; simp)]
    split
    · constructor
      · exact (write_reliable _ _ f1).2.1
      · show _ ++ _ = _
        rw [e1]
        rfl
    · constructor
      · rfl
      · show _ ++ _ = _
        rw [e1]
        rfl

/-- What `encodeCycleDelta` records: nothing, or the cycle as a template (fewer
than 8 samples) or as a delta against `currentCycle`. -/
theorem encodeCycleDelta_emitted (cycle : List Int) (s : HlacEncoder) :
    (encodeCycleDelta h cycle s).1.emitted = s.emitted ∨
    (encodeCycleDelta h cycle s).1.emitted = s.emitted ++ deltaEntry cycle s.currentCycle := by
  unfold encodeCycleDelta deltaEntry
  split
  · exact encodeCycle_emitted h cycle s
  · have e1 := writeCycleHeader_emitted false
      (h.getSuitableCompressorForData (sub cycle s.currentCycle cycle.length)).allowedBitRange
      cycle.length (countDelta s)
    dsimp only
    split
    · left
      exact e1
    · right
      show _ ++ _ = _
      rw [e1]
      rfl

/-- What `encodeCycleDelta` does on a stream whose writes all succeed. -/
theorem encodeCycleDelta_reliable (cycle : List Int) (s : HlacEncoder)
    (hs : s.output.reliable) :
    (encodeCycleDelta h cycle s).2 = true ∧
    (encodeCycleDelta h cycle s).1.emitted = s.emitted ++ deltaEntry cycle s.currentCycle := by
  unfold encodeCycleDelta deltaEntry
  split
  · exact encodeCycle_reliable h cycle s hs
  · have e1 := writeCycleHeader_emitted false
      (h.getSuitableCompressorForData (sub cycle s.currentCycle cycle.length)).allowedBitRange
      cycle.length (countDelta s)
    have r1 := writeCycleHeader_reliable false
      (h.getSuitableCompressorForData (sub cycle s.currentCycle cycle.length)).allowedBitRange
      cycle.length (countDelta s) hs
    have f1 := (writeCycleHeader_frame false
      (h.getSuitableCompressorForData (sub cycle s.currentCycle cycle.length)).allowedBitRange
      cycle.length (countDelta s)).reliable hs
    dsimp only
    rw [if_neg (by rw [r1]; simp)]
    constructor
    · exact (write_reliable _ _ f1).2.1
    · show _ ++ _ = _
      rw [e1]
      rfl

/-- What `encodeDiff` records: nothing, or the cycle as a diff. -/
theorem encodeDiff_emitted (cycle : List Int) (s : HlacEncoder) :
    (encodeDiff h cycle s).1.emitted = s.emitted ∨
    (encodeDiff h cycle s).1.emitted = s.emitted ++ [Emitted.diff cycle] := by
  unfold encodeDiff
  have e1 := writeDiffHeader_emitted
    (h.getSuitableCompressorForData (h.createBufferWithFullValues cycle)).allowedBitRange
    (h.getSuitableCompressorForData
      (h.createBufferWithErrorValues cycle (h.createBufferWithFullValues cycle))).allowedBitRange
    cycle.length s
  dsimp only
  split
  · left
    exact e1
  · right
    split
    · rw [writePayloadChecked_emitted]
      show _ ++ _ = _
      rw [e1]
    · rw [writePayloadChecked_emitted, writePayloadChecked_emitted]
      show _ ++ _ = _
      rw [e1]

/-- What `encodeDiff` does on a stream whose writes all succeed. -/
theorem encodeDiff_reliable (cycle : List Int) (s : HlacEncoder) (hs : s.output.reliable) :
    (encodeDiff h cycle s).2 = true ∧
    (encodeDiff h cycle s).1.emitted = s.emitted ++ [Emitted.diff cycle] := by
  unfold encodeDiff
  have e1 := writeDiffHeader_emitted
    (h.getSuitableCompressorForData (h.createBufferWithFullValues cycle)).allowedBitRange
    (h.getSuitableCompressorForData
      (h.createBufferWithErrorValues cycle (h.createBufferWithFullValues cycle))).allowedBitRange
    cycle.length s
  have r1 := writeDiffHeader_reliable
    (h.getSuitableCompressorForData (h.createBufferWithFullValues cycle)).allowedBitRange
    (h.getSuitableCompressorForData
      (h.createBufferWithErrorValues cycle (h.createBufferWithFullValues cycle))).allowedBitRange
    cycle.length s hs
  have f1 := ((writeDiffHeader_frame
    (h.getSuitableCompressorForData (h.createBufferWithFullValues cycle)).allowedBitRange
    (h.getSuitableCompressorForData
      (h.createBufferWithErrorValues cycle (h.createBufferWithFullValues cycle))).allowedBitRange
    cycle.length s).andThen (noteEmitted_frame (Emitted.diff cycle) _)).reliable hs
  have r2 := writePayloadChecked_reliable
    ((h.getSuitableCompressorForData (h.createBufferWithFullValues cycle)).getByteAmount
      (h.getNumFullValues cycle.length))
    ((h.getSuitableCompressorForData (h.createBufferWithFullValues cycle)).compress
      (h.createBufferWithFullValues cycle)) _ f1
  have f2 := (writePayloadChecked_frame
    ((h.getSuitableCompressorForData (h.createBufferWithFullValues cycle)).getByteAmount
      (h.getNumFullValues cycle.length))
    ((h.getSuitableCompressorForData (h.createBufferWithFullValues cycle)).compress
      (h.createBufferWithFullValues cycle)) _).reliable f1
  dsimp only
  rw [if_neg (by rw [r1]; simp), if_neg (by rw [r2]; simp)]
  constructor
  · exact writePayloadChecked_reliable _ _ _ f2
  · rw [writePayloadChecked_emitted, writePayloadChecked_emitted]
    show _ ++ _ = _
    rw [e1]

theorem coverage_append (a b : List Emitted) : coverage (a ++ b) = coverage a + coverage b := by
  unfold coverage
  rw [List.map_append, List.sum_append]

theorem coverage_templateEntry (cycle : List Int) : coverage (templateEntry cycle) = cycle.length := by
  unfold templateEntry coverage
  split
  next h0 => simp [h0]
  next h0 => simp [Emitted.count]

theorem coverage_deltaEntry (cycle reference : List Int) :
    coverage (deltaEntry cycle reference) = cycle.length := by
  unfold deltaEntry
  split
  · exact coverage_templateEntry cycle
  · simp [coverage, Emitted.count]

theorem getPart_length (b : List Int) (offset size : Nat) (hb : offset + size ≤ b.length) :
    (getPart b offset size).length = size := by
  unfold getPart
  rw [List.length_take, List.length_drop]
  omega

theorem getCycleLengthFromTemplate_le (n : Nat) (block16 : List Int) (rest : Nat)
    (s : HlacEncoder) : getCycleLengthFromTemplate h options n block16 rest s ≤ n := by
  unfold getCycleLengthFromTemplate
  dsimp only
  split <;> omega

theorem cycleLengthOf_le (numRemaining : Nat) (ideal : Int) :
    cycleLengthOf numRemaining ideal ≤ numRemaining := by
  unfold cycleLengthOf
  split
  · exact le_rfl
  · omega

theorem rememberFirstCycleLength_fields (rest : List Int) (s : HlacEncoder) :
    (rememberFirstCycleLength h options rest s).emitted = s.emitted ∧
    (rememberFirstCycleLength h options rest s).indexInBlock = s.indexInBlock := by
  unfold rememberFirstCycleLength
  split <;> exact ⟨rfl, rfl⟩

theorem beginCycle_emitted (rest : List Int) (s : HlacEncoder) :
    (beginCycle h options rest s).emitted = s.emitted :=
  (rememberFirstCycleLength_fields h options rest s).1

theorem beginCycle_indexInBlock (rest : List Int) (s : HlacEncoder) :
    (beginCycle h options rest s).indexInBlock
      = s.indexInBlock + chosenCycleLength h options rest s := by
  show (rememberFirstCycleLength h options rest s).indexInBlock + _ = _
  rw [(rememberFirstCycleLength_fields h options rest s).2]

theorem beginCycle_currentCycle (rest : List Int) (s : HlacEncoder) :
    (beginCycle h options rest s).currentCycle
      = getPart rest 0 (chosenCycleLength h options rest s) := rfl

/-- On a stream whose writes all succeed, the delta loop records cycles whose
sample counts add up to the distance it moves `indexInBlock`, and it stays
inside the block. -/
theorem deltaLoop_coverage (block16 : List Int) (rest : Nat) (cycleLength : Nat)
    (hb : block16.length = h.COMPRESSION_BLOCK_SIZE) (fuel : Nat) :
    ∀ (numRemaining : Nat) (s t : HlacEncoder), s.output.reliable →
      numRemaining ≤ h.COMPRESSION_BLOCK_SIZE - s.indexInBlock + cycleLength →
      s.indexInBlock ≤ h.COMPRESSION_BLOCK_SIZE →
      deltaLoop h options fuel block16 rest cycleLength numRemaining s = some t →
      t.indexInBlock ≤ h.COMPRESSION_BLOCK_SIZE ∧
      ∃ new, t.emitted = s.emitted ++ new ∧ coverage new + s.indexInBlock = t.indexInBlock := by
  induction fuel with
  | zero =>
    intro numRemaining s t _ _ _ ht
    simp [deltaLoop] at ht
  | succ fuel ih =>
    intro numRemaining s t hs hn hi ht
    unfold deltaLoop at ht
    dsimp only at ht
    split at ht
    · split at ht
      next h2 =>
        split at ht
        · have hle := getCycleLengthFromTemplate_le h options cycleLength block16 rest s
          have hlen : (getPart block16 s.indexInBlock cycleLength).length = cycleLength :=
            getPart_length _ _ _ (by omega)
          have htake : ((getPart block16 s.indexInBlock cycleLength).take
              (getCycleLengthFromTemplate h options cycleLength block16 rest s)).length
              = getCycleLengthFromTemplate h options cycleLength block16 rest s := by
            rw [List.length_take, hlen]
            omega
          have hs1 : (advance (getCycleLengthFromTemplate h options cycleLength block16 rest s)
              s).output.reliable := hs
          have k := encodeCycleDelta_keeps h ((getPart block16 s.indexInBlock cycleLength).take
            (getCycleLengthFromTemplate h options cycleLength block16 rest s))
            (advance (getCycleLengthFromTemplate h options cycleLength block16 rest s) s)
          have f := encodeCycleDelta_frame h ((getPart block16 s.indexInBlock cycleLength).take
            (getCycleLengthFromTemplate h options cycleLength block16 rest s))
            (advance (getCycleLengthFromTemplate h options cycleLength block16 rest s) s)
          have e := (encodeCycleDelta_reliable h
            ((getPart block16 s.indexInBlock cycleLength).take
              (getCycleLengthFromTemplate h options cycleLength block16 rest s))
            (advance (getCycleLengthFromTemplate h options cycleLength block16 rest s) s) hs1).2
          have hidx : (encodeCycleDelta h ((getPart block16 s.indexInBlock cycleLength).take
              (getCycleLengthFromTemplate h options cycleLength block16 rest s))
              (advance (getCycleLengthFromTemplate h options cycleLength block16 rest s) s)).1.indexInBlock
              = s.indexInBlock + getCycleLengthFromTemplate h options cycleLength block16 rest s :=
            k.indexInBlock
          obtain ⟨i1, new, i2, i3⟩ := ih _ _ t (f.reliable hs1)
            (by rw [hidx]; show h.COMPRESSION_BLOCK_SIZE - (s.indexInBlock + _) ≤ _; omega)
            (by rw [hidx]; omega) ht
          refine ⟨i1, deltaEntry ((getPart block16 s.indexInBlock cycleLength).take
            (getCycleLengthFromTemplate h options cycleLength block16 rest s)) s.currentCycle ++ new,
            ?_, ?_⟩
          · rw [i2, e, List.append_assoc]
            rfl
          · rw [coverage_append, coverage_deltaEntry, htake]
            rw [hidx] at i3
            omega
        · cases ht
          exact ⟨hi, [], by simp, by simp [coverage]⟩
      · cases ht
        exact ⟨hi, [], by simp, by simp [coverage]⟩
    · cases ht
      exact ⟨hi, [], by simp, by simp [coverage]⟩

/-- On a stream whose writes all succeed, the block loop succeeds and records
cycles whose sample counts add up to what was left of the block. -/
theorem blockLoop_coverage (block16 : List Int)
    (hb : block16.length = h.COMPRESSION_BLOCK_SIZE) (fuel : Nat) :
    ∀ (s : HlacEncoder) (r : HlacEncoder × Bool), s.output.reliable →
      s.indexInBlock ≤ h.COMPRESSION_BLOCK_SIZE →
      blockLoop h options fuel block16 s = some r →
      r.2 = true ∧ r.1.indexInBlock = h.COMPRESSION_BLOCK_SIZE ∧
      ∃ new, r.1.emitted = s.emitted ++ new ∧
        coverage new + s.indexInBlock = h.COMPRESSION_BLOCK_SIZE := by
  induction fuel with
  | zero =>
    intro s r _ _ hr
    simp [blockLoop] at hr
  | succ fuel ih =>
    intro s r hs hi hr
    unfold blockLoop at hr
    dsimp only at hr
    split at hr
    next hex =>
      cases hr
      have hex2 : h.COMPRESSION_BLOCK_SIZE ≤ s.indexInBlock := by
        simpa [isBlockExhausted] using hex
      refine ⟨rfl, ?_, [], by simp, ?_⟩
      · show s.indexInBlock = _
        omega
      · simp only [coverage, List.map_nil, List.sum_nil]
        omega
    next hex =>
      have hex2 : s.indexInBlock < h.COMPRESSION_BLOCK_SIZE := by
        simpa [isBlockExhausted] using hex
      have hrest : (getPart block16 s.indexInBlock
          (h.COMPRESSION_BLOCK_SIZE - s.indexInBlock)).length
          = h.COMPRESSION_BLOCK_SIZE - s.indexInBlock := getPart_length _ _ _ (by omega)
      split at hr
      · have e := encodeCycleDelta_reliable h (getPart block16 s.indexInBlock
          (h.COMPRESSION_BLOCK_SIZE - s.indexInBlock)) s hs
        have k := encodeCycleDelta_keeps h (getPart block16 s.indexInBlock
          (h.COMPRESSION_BLOCK_SIZE - s.indexInBlock)) s
        have f := encodeCycleDelta_frame h (getPart block16 s.indexInBlock
          (h.COMPRESSION_BLOCK_SIZE - s.indexInBlock)) s
        rw [if_neg (by rw [e.1]; simp)] at hr
        have hidx : (advance (h.COMPRESSION_BLOCK_SIZE - s.indexInBlock)
            (encodeCycleDelta h (getPart block16 s.indexInBlock
              (h.COMPRESSION_BLOCK_SIZE - s.indexInBlock)) s).1).indexInBlock
            = s.indexInBlock + (h.COMPRESSION_BLOCK_SIZE - s.indexInBlock) := by
          show _ + _ = _
          rw [k.indexInBlock]
        obtain ⟨i1, i2, new, i3, i4⟩ := ih _ r ((f.andThen (advance_frame _ _)).reliable hs)
          (by rw [hidx]; omega) hr
        refine ⟨i1, i2, deltaEntry (getPart block16 s.indexInBlock
          (h.COMPRESSION_BLOCK_SIZE - s.indexInBlock)) s.currentCycle ++ new, ?_, ?_⟩
        · rw [i3]
          show (encodeCycleDelta h _ s).1.emitted ++ new = _
          rw [e.2, List.append_assoc]
        · rw [coverage_append, coverage_deltaEntry, hrest]
          rw [hidx] at i4
          omega
      · have hcl : chosenCycleLength h options (getPart block16 s.indexInBlock
            (h.COMPRESSION_BLOCK_SIZE - s.indexInBlock)) s
            ≤ h.COMPRESSION_BLOCK_SIZE - s.indexInBlock := cycleLengthOf_le _ _
        have fb := beginCycle_frame h options
          (getPart block16 s.indexInBlock (h.COMPRESSION_BLOCK_SIZE - s.indexInBlock)) s
        have hbi := beginCycle_indexInBlock h options
          (getPart block16 s.indexInBlock (h.COMPRESSION_BLOCK_SIZE - s.indexInBlock)) s
        have hbe := beginCycle_emitted h options
          (getPart block16 s.indexInBlock (h.COMPRESSION_BLOCK_SIZE - s.indexInBlock)) s
        have hbc := beginCycle_currentCycle h options
          (getPart block16 s.indexInBlock (h.COMPRESSION_BLOCK_SIZE - s.indexInBlock)) s
        have hcyc : ((beginCycle h options (getPart block16 s.indexInBlock
            (h.COMPRESSION_BLOCK_SIZE - s.indexInBlock)) s).currentCycle).length
            = chosenCycleLength h options (getPart block16 s.indexInBlock
              (h.COMPRESSION_BLOCK_SIZE - s.indexInBlock)) s := by
          rw [hbc]
          exact getPart_length _ _ _ (by omega)
        have hs3 := fb.reliable hs
        split at hr
        · split at hr
          · have e := encodeCycle_reliable h (beginCycle h options (getPart block16 s.indexInBlock
              (h.COMPRESSION_BLOCK_SIZE - s.indexInBlock)) s).currentCycle
              (beginCycle h options (getPart block16 s.indexInBlock
              (h.COMPRESSION_BLOCK_SIZE - s.indexInBlock)) s) hs3
            have k := encodeCycle_keeps h (beginCycle h options (getPart block16 s.indexInBlock
              (h.COMPRESSION_BLOCK_SIZE - s.indexInBlock)) s).currentCycle
              (beginCycle h options (getPart block16 s.indexInBlock
              (h.COMPRESSION_BLOCK_SIZE - s.indexInBlock)) s)
            have f := encodeCycle_frame h (beginCycle h options (getPart block16 s.indexInBlock
              (h.COMPRESSION_BLOCK_SIZE - s.indexInBlock)) s).currentCycle
              (beginCycle h options (getPart block16 s.indexInBlock
              (h.COMPRESSION_BLOCK_SIZE - s.indexInBlock)) s)
            obtain ⟨i1, i2, new, i3, i4⟩ := ih _ r (f.reliable hs3)
              (by rw [k.indexInBlock, hbi]; omega) hr
            refine ⟨i1, i2, templateEntry (beginCycle h options (getPart block16 s.indexInBlock
              (h.COMPRESSION_BLOCK_SIZE - s.indexInBlock)) s).currentCycle ++ new, ?_, ?_⟩
            · rw [i3, e.2, hbe, List.append_assoc]
            · rw [coverage_append, coverage_templateEntry, hcyc]
              rw [k.indexInBlock, hbi] at i4
              omega
          · have e := encodeDiff_reliable h (beginCycle h options (getPart block16 s.indexInBlock
              (h.COMPRESSION_BLOCK_SIZE - s.indexInBlock)) s).currentCycle
              (beginCycle h options (getPart block16 s.indexInBlock
              (h.COMPRESSION_BLOCK_SIZE - s.indexInBlock)) s) hs3
            have k := encodeDiff_keeps h (beginCycle h options (getPart block16 s.indexInBlock
              (h.COMPRESSION_BLOCK_SIZE - s.indexInBlock)) s).currentCycle
              (beginCycle h options (getPart block16 s.indexInBlock
              (h.COMPRESSION_BLOCK_SIZE - s.indexInBlock)) s)
            have f := encodeDiff_frame h (beginCycle h options (getPart block16 s.indexInBlock
              (h.COMPRESSION_BLOCK_SIZE - s.indexInBlock)) s).currentCycle
              (beginCycle h options (getPart block16 s.indexInBlock
              (h.COMPRESSION_BLOCK_SIZE - s.indexInBlock)) s)
            obtain ⟨i1, i2, new, i3, i4⟩ := ih _ r (f.reliable hs3)
              (by rw [k.indexInBlock, hbi]; omega) hr
            refine ⟨i1, i2, [Emitted.diff (beginCycle h options (getPart block16 s.indexInBlock
              (h.COMPRESSION_BLOCK_SIZE - s.indexInBlock)) s).currentCycle] ++ new, ?_, ?_⟩
            · rw [i3, e.2, hbe, List.append_assoc]
            · rw [coverage_append]
              simp only [coverage, List.map_cons, List.map_nil, List.sum_cons, List.sum_nil,
                Emitted.count, hcyc]
              rw [k.indexInBlock, hbi] at i4
              simp only [coverage] at i4
              omega
        · have e := encodeCycle_reliable h (beginCycle h options (getPart block16 s.indexInBlock
            (h.COMPRESSION_BLOCK_SIZE - s.indexInBlock)) s).currentCycle _ hs3
          have k := encodeCycle_keeps h (beginCycle h options (getPart block16 s.indexInBlock
            (h.COMPRESSION_BLOCK_SIZE - s.indexInBlock)) s).currentCycle
            (beginCycle h options (getPart block16 s.indexInBlock
            (h.COMPRESSION_BLOCK_SIZE - s.indexInBlock)) s)
          have f := encodeCycle_frame h (beginCycle h options (getPart block16 s.indexInBlock
            (h.COMPRESSION_BLOCK_SIZE - s.indexInBlock)) s).currentCycle
            (beginCycle h options (getPart block16 s.indexInBlock
            (h.COMPRESSION_BLOCK_SIZE - s.indexInBlock)) s)
          rw [if_neg (by rw [e.1]; simp)] at hr
          split at hr
          · cases hr
          next s4 hd =>
            obtain ⟨d1, dnew, d2, d3⟩ := deltaLoop_coverage h options block16 _ _ hb fuel _ _ s4
              (f.reliable hs3) (by rw [k.indexInBlock, hbi]; omega)
              (by rw [k.indexInBlock, hbi]; omega) hd
            have fd := deltaLoop_frame h options _ _ _ _ _ _ _ hd
            obtain ⟨i1, i2, new, i3, i4⟩ := ih _ r (fd.reliable (f.reliable hs3)) d1 hr
            refine ⟨i1, i2, templateEntry (beginCycle h options (getPart block16 s.indexInBlock
              (h.COMPRESSION_BLOCK_SIZE - s.indexInBlock)) s).currentCycle ++ (dnew ++ new), ?_, ?_⟩
            · rw [i3, d2, e.2, hbe, List.append_assoc, List.append_assoc]
            · rw [coverage_append, coverage_append, coverage_templateEntry, hcyc]
              rw [k.indexInBlock, hbi] at d3
              omega

theorem encodeBlock_coverage (block16 : List Int)
    (hb : block16.length = h.COMPRESSION_BLOCK_SIZE) (fuel : Nat) (s : HlacEncoder)
    (r : HlacEncoder × Bool) (hs : s.output.reliable)
    (hr : encodeBlock h options fuel block16 s = some r) :
    r.2 = true ∧ ∃ new, r.1.emitted = s.emitted ++ new ∧
      coverage new = h.COMPRESSION_BLOCK_SIZE := by
  unfold encodeBlock at hr
  dsimp only at hr
  split at hr
  · cases hr
    have e := encodeCycle_reliable h block16 (startBlock h s) hs
    exact ⟨e.1, templateEntry block16, e.2, by rw [coverage_templateEntry, hb]⟩
  · obtain ⟨i1, _, new, i3, i4⟩ := blockLoop_coverage h options block16 hb fuel (startBlock h s) r
      hs (Nat.zero_le _) hr
    exact ⟨i1, new, i3, i4⟩

theorem encodeLastBlock_emitted (a : List Int) (s : HlacEncoder) (hs : s.output.reliable) :
    (encodeLastBlock h a s).emitted = s.emitted ++ templateEntry a
      ++ [Emitted.padding ((h.COMPRESSION_BLOCK_SIZE : Int) - a.length).toNat] := by
  unfold encodeLastBlock
  have e := encodeCycle_reliable h a s hs
  have f := (encodeCycle_frame h a s).reliable hs
  have r1 := writeCycleHeader_reliable true 0 ((h.COMPRESSION_BLOCK_SIZE : Int) - a.length)
    (encodeCycle h a s).1 f
  dsimp only
  rw [if_neg (by rw [r1]; simp)]
  show _ ++ _ = _
  rw [writeCycleHeader_emitted, e.2]

/-! ### The last block -/

theorem shortBytes_natCast (v : Nat) (hv : v < 65536) :
    shortBytes (v : Int) = [v % 256, v / 256] := by
  unfold shortBytes
  have h1 : ((v : Int) % 256).toNat = v % 256 := by omega
  have h2 : ((v : Int) / 256 % 256).toNat = v / 256 := by omega
  rw [h1, h2]

theorem writeCycleHeader_data_reliable (isTemplate : Bool) (bitDepth : Nat) (numSamples : Int)
    (s : HlacEncoder) (hs : s.output.reliable) :
    (writeCycleHeader isTemplate bitDepth numSamples s).1.output.data =
      s.output.data ++ cycleHeaderByte isTemplate bitDepth :: shortBytes numSamples := by
  rw [writeCycleHeader_data, if_pos (hs _), if_pos (hs _),
    Nat.mod_eq_of_lt (lt_trans (cycleHeaderByte_lt isTemplate bitDepth) (by omega))]

/-- The bytes of a template cycle on a stream whose writes all succeed: the
header byte, the sample count, the packed samples. -/
theorem encodeCycle_data (cycle : List Int) (s : HlacEncoder) (hs : s.output.reliable)
    (hne : cycle ≠ []) :
    (encodeCycle h cycle s).1.output.data =
      s.output.data
        ++ cycleHeaderByte true (h.getSuitableCompressorForData cycle).allowedBitRange
          :: shortBytes cycle.length
        ++ memoryBlock ((h.getSuitableCompressorForData cycle).getByteAmount cycle.length)
          ((h.getSuitableCompressorForData cycle).compress cycle) := by
  have hlen : cycle.length ≠ 0 := by
    intro h0
    exact hne (List.length_eq_zero.mp h0)
  have d1 := writeCycleHeader_data_reliable true
    (h.getSuitableCompressorForData cycle).allowedBitRange cycle.length (countTemplate s) hs
  have r1 := writeCycleHeader_reliable true
    (h.getSuitableCompressorForData cycle).allowedBitRange cycle.length (countTemplate s) hs
  have f1 := (writeCycleHeader_frame true
    (h.getSuitableCompressorForData cycle).allowedBitRange cycle.length
    (countTemplate s)).reliable hs
  unfold encodeCycle
  rw [if_neg hlen]
  dsimp only
  rw [if_neg (by rw [r1]; simp)]
  split
  · show ((writeCycleHeader true _ _ (countTemplate s)).1.output.write _).1.data = _
    rw [(write_reliable _ _ f1).2.2, d1]
    rfl
  next h0 =>
    have h00 : (h.getSuitableCompressorForData cycle).getByteAmount cycle.length = 0 := by omega
    show (writeCycleHeader true _ _ (countTemplate s)).1.output.data = _
    rw [d1, h00]
    simp only [memoryBlock, List.take_zero, List.append_nil]
    rfl

/-- The bytes and the record of `encodeLastBlock` on a stream whose writes all succeed. -/
theorem encodeLastBlock_data (a : List Int) (s : HlacEncoder) (hs : s.output.reliable)
    (hne : a ≠ []) :
    (encodeLastBlock h a s).output.data =
      s.output.data
        ++ cycleHeaderByte true (h.getSuitableCompressorForData a).allowedBitRange
          :: shortBytes a.length
        ++ memoryBlock ((h.getSuitableCompressorForData a).getByteAmount a.length)
          ((h.getSuitableCompressorForData a).compress a)
        ++ 1 :: shortBytes ((h.COMPRESSION_BLOCK_SIZE : Int) - a.length) := by
  unfold encodeLastBlock
  have f := (encodeCycle_frame h a s).reliable hs
  have r1 := writeCycleHeader_reliable true 0 ((h.COMPRESSION_BLOCK_SIZE : Int) - a.length)
    (encodeCycle h a s).1 f
  have d1 := writeCycleHeader_data_reliable true 0 ((h.COMPRESSION_BLOCK_SIZE : Int) - a.length)
    (encodeCycle h a s).1 f
  dsimp only
  rw [if_neg (by rw [r1]; simp)]
  show (writeCycleHeader true 0 _ (encodeCycle h a s).1).1.output.data = _
  rw [d1, encodeCycle_data h a s hs hne]
  rfl

/-- A mono buffer of `BLOCK + n` samples, `0 < n < BLOCK`: `compress` encodes
the first `BLOCK` samples with `encodeBlock` and the other `n` with
`encodeLastBlock`. -/
theorem compress_block_and_rest (fuel blockFuel : Nat) (source : AudioSampleBuffer)
    (samples : List Int) (n : Nat) (s t : HlacEncoder)
    (hch : source.channels = [samples])
    (hnum : source.numSamples = h.COMPRESSION_BLOCK_SIZE + n)
    (hn : 0 < n) (hnB : n < h.COMPRESSION_BLOCK_SIZE)
    (ht : compress h options fuel blockFuel source s = some t) :
    ∃ b, encodeBlock h options blockFuel (getPart samples 0 h.COMPRESSION_BLOCK_SIZE)
        (storeBlockOffset (clearBlockOffset s)) = some b ∧
      t = encodeLastBlock h (getPart samples h.COMPRESSION_BLOCK_SIZE n)
        (storeBlockOffset (advanceBlockOffset h.COMPRESSION_BLOCK_SIZE b.1)) := by
  have hch0 : source.channel 0 = samples := by
    unfold AudioSampleBuffer.channel
    rw [hch]
    rfl
  have hlen : ¬ source.channels.length = 2 := by
    rw [hch]
    simp
  unfold compress at ht
  rw [if_neg (by omega)] at ht
  split at ht
  · cases ht
  next s1 h1 =>
    cases fuel with
    | zero => simp [compressLoop] at h1
    | succ fuel =>
      unfold compressLoop at h1
      have hle : (h.COMPRESSION_BLOCK_SIZE : Int) ≤ (source.numSamples : Int) := by
        rw [hnum]
        push_cast
        omega
      rw [if_pos hle] at h1
      dsimp only at h1
      have hmin : min h.COMPRESSION_BLOCK_SIZE source.numSamples = h.COMPRESSION_BLOCK_SIZE := by
        rw [hnum]
        exact Nat.min_eq_left (by omega)
      rw [hmin] at h1
      unfold encodeBlocks at h1
      rw [if_neg hlen, hch0] at h1
      have hbo0 : (storeBlockOffset (clearBlockOffset s)).blockOffset = 0 := rfl
      rw [hbo0] at h1
      cases hb : encodeBlock h options blockFuel (getPart samples 0 h.COMPRESSION_BLOCK_SIZE)
          (storeBlockOffset (clearBlockOffset s)) with
      | none =>
        rw [hb] at h1
        cases h1
      | some b =>
        rw [hb] at h1
        dsimp only at h1
        refine ⟨b, rfl, ?_⟩
        have f := encodeBlock_frame h options _ _ _ _ hb
        cases fuel with
        | zero => simp [compressLoop] at h1
        | succ fuel =>
          unfold compressLoop at h1
          have hlt : ¬ ((h.COMPRESSION_BLOCK_SIZE : Int)
              ≤ (source.numSamples : Int) - (h.COMPRESSION_BLOCK_SIZE : Int)) := by
            rw [hnum]
            push_cast
            omega
          rw [if_neg hlt] at h1
          cases h1
          have hbo : (advanceBlockOffset h.COMPRESSION_BLOCK_SIZE b.1).blockOffset
              = h.COMPRESSION_BLOCK_SIZE := by
            show b.1.blockOffset + _ = _
            rw [f.blockOffset, hbo0]
            omega
          rw [hbo, if_pos (by omega)] at ht
          cases ht
          unfold encodeLastBlocks
          rw [if_neg hlen, hch0]
          have hrem : source.numSamples - h.COMPRESSION_BLOCK_SIZE = n := by omega
          rw [hrem]

theorem encodeLastBlock_bytes (a : List Int) (s : HlacEncoder) (hs : s.output.reliable)
    (hB : h.COMPRESSION_BLOCK_SIZE ≤ 32767) (hne : a ≠ [])
    (hlt : a.length < h.COMPRESSION_BLOCK_SIZE) :
    (encodeLastBlock h a s).output.data =
      s.output.data
        ++ [cycleHeaderByte true (h.getSuitableCompressorForData a).allowedBitRange,
            a.length % 256, a.length / 256]
        ++ memoryBlock ((h.getSuitableCompressorForData a).getByteAmount a.length)
          ((h.getSuitableCompressorForData a).compress a)
        ++ [1, (h.COMPRESSION_BLOCK_SIZE - a.length) % 256,
            (h.COMPRESSION_BLOCK_SIZE - a.length) / 256] ∧
    (encodeLastBlock h a s).emitted =
      s.emitted ++ [Emitted.template a,
        Emitted.padding (h.COMPRESSION_BLOCK_SIZE - a.length)] := by
  have hcast : ((h.COMPRESSION_BLOCK_SIZE : Int) - a.length)
      = ((h.COMPRESSION_BLOCK_SIZE - a.length : Nat) : Int) := by omega
  have hlen : a.length ≠ 0 := by
    intro h0
    exact hne (List.length_eq_zero.mp h0)
  constructor
  · rw [encodeLastBlock_data h a s hs hne, hcast, shortBytes_natCast _ (by omega),
      shortBytes_natCast _ (by omega)]
  · rw [encodeLastBlock_emitted h a s hs, hcast, Int.toNat_ofNat]
    unfold templateEntry
    rw [if_neg hlen, List.append_assoc]
    rfl

/-- C7: on a stream whose writes all succeed and for a block size within the
16-bit count, `encodeLastBlock` on `n` samples, `0 < n < BLOCK`, writes a
template header that declares `n` samples, the packed payload, and then the
three bytes of the padding entry and nothing more: the byte 1 and the count
`BLOCK - n`. A mono buffer of `BLOCK + n` samples such as `BLOCK + 3` gives
one full block encoded by `encodeBlock` and then exactly this. -/
theorem last_block_template_then_padding (s : HlacEncoder) (hs : s.output.reliable)
    (hB : h.COMPRESSION_BLOCK_SIZE ≤ 32767) :
    (∀ (a : List Int), a ≠ [] → a.length < h.COMPRESSION_BLOCK_SIZE →
      (encodeLastBlock h a s).output.data =
        s.output.data
          ++ [cycleHeaderByte true (h.getSuitableCompressorForData a).allowedBitRange,
              a.length % 256, a.length / 256]
          ++ memoryBlock ((h.getSuitableCompressorForData a).getByteAmount a.length)
            ((h.getSuitableCompressorForData a).compress a)
          ++ [1, (h.COMPRESSION_BLOCK_SIZE - a.length) % 256,
              (h.COMPRESSION_BLOCK_SIZE - a.length) / 256] ∧
      (encodeLastBlock h a s).emitted =
        s.emitted ++ [Emitted.template a,
          Emitted.padding (h.COMPRESSION_BLOCK_SIZE - a.length)]) ∧
    (∀ (fuel blockFuel : Nat) (source : AudioSampleBuffer) (samples : List Int) (n : Nat)
      (t : HlacEncoder),
      source.channels = [samples] → samples.length = h.COMPRESSION_BLOCK_SIZE + n →
      source.numSamples = h.COMPRESSION_BLOCK_SIZE + n →
      0 < n → n < h.COMPRESSION_BLOCK_SIZE →
      compress h options fuel blockFuel source s = some t →
      ∃ b, encodeBlock h options blockFuel (getPart samples 0 h.COMPRESSION_BLOCK_SIZE)
          (storeBlockOffset (clearBlockOffset s)) = some b ∧
        (getPart samples h.COMPRESSION_BLOCK_SIZE n).length = n ∧
        t.emitted = b.1.emitted
          ++ [Emitted.template (getPart samples h.COMPRESSION_BLOCK_SIZE n),
              Emitted.padding (h.COMPRESSION_BLOCK_SIZE - n)] ∧
        t.output.data = b.1.output.data
          ++ [cycleHeaderByte true (h.getSuitableCompressorForData
                (getPart samples h.COMPRESSION_BLOCK_SIZE n)).allowedBitRange,
              n % 256, n / 256]
          ++ memoryBlock ((h.getSuitableCompressorForData
                (getPart samples h.COMPRESSION_BLOCK_SIZE n)).getByteAmount n)
              ((h.getSuitableCompressorForData
                (getPart samples h.COMPRESSION_BLOCK_SIZE n)).compress
                (getPart samples h.COMPRESSION_BLOCK_SIZE n))
          ++ [1, (h.COMPRESSION_BLOCK_SIZE - n) % 256, (h.COMPRESSION_BLOCK_SIZE - n) / 256]) := by
  constructor
  · intro a hne hlt
    exact encodeLastBlock_bytes h a s hs hB hne hlt
  · intro fuel blockFuel source samples n t hch hlen hnum hn hnB ht
    obtain ⟨b, hb, hte⟩ := compress_block_and_rest h options fuel blockFuel source samples n s t
      hch hnum hn hnB ht
    have hpart : (getPart samples h.COMPRESSION_BLOCK_SIZE n).length = n :=
      getPart_length _ _ _ (by omega)
    have hne : getPart samples h.COMPRESSION_BLOCK_SIZE n ≠ [] := by
      intro h0
      rw [h0] at hpart
      simp at hpart
      omega
    have f := encodeBlock_frame h options _ _ _ _ hb
    have hrel : (storeBlockOffset (advanceBlockOffset h.COMPRESSION_BLOCK_SIZE b.1)).output.reliable :=
      f.reliable hs
    have e := encodeLastBlock_bytes h (getPart samples h.COMPRESSION_BLOCK_SIZE n)
      (storeBlockOffset (advanceBlockOffset h.COMPRESSION_BLOCK_SIZE b.1)) hrel hB hne
      (by rw [hpart]; exact hnB)
    rw [hpart] at e
    refine ⟨b, hb, hpart, ?_, ?_⟩
    · rw [hte]
      exact e.2
    · rw [hte]
      exact e.1

/-- The statement of C7 for a block size of 8 and a mono buffer of 8 + 3 samples. -/
theorem last_block_template_then_padding_witness :
    (encodeLastBlock (specHelpers 8) [5, 6, 7]
        (freshEncoder (specHelpers 8) reliableStream)).output.data
      = [] ++ [7, 3, 0] ++ [101, 7] ++ [1, 5, 0] ∧
    ∃ t, compress (specHelpers 8) plainOptions 3 12 (monoBuffer (cycleX ++ [5, 6, 7]))
        (freshEncoder (specHelpers 8) reliableStream) = some t ∧
      ∃ b, encodeBlock (specHelpers 8) plainOptions 12 (getPart (cycleX ++ [5, 6, 7]) 0 8)
          (storeBlockOffset (clearBlockOffset (freshEncoder (specHelpers 8) reliableStream)))
            = some b ∧
        t.emitted = b.1.emitted
          ++ [Emitted.template (getPart (cycleX ++ [5, 6, 7]) 8 3), Emitted.padding (8 - 3)] :=
  ⟨((last_block_template_then_padding (specHelpers 8) plainOptions
      (freshEncoder (specHelpers 8) reliableStream) (fun _ => rfl) (by decide)).1
        [5, 6, 7] (by decide) (by decide)).1,
    _, Option.eq_some_of_isSome (by decide),
    (fun ⟨b, hb, _, he, _⟩ => ⟨b, hb, he⟩)
      ((last_block_template_then_padding (specHelpers 8) plainOptions
        (freshEncoder (specHelpers 8) reliableStream) (fun _ => rfl) (by decide)).2
          3 12 (monoBuffer (cycleX ++ [5, 6, 7])) (cycleX ++ [5, 6, 7]) 3 _
          rfl (by decide) (by decide) (by decide) (by decide)
          (Option.eq_some_of_isSome (by decide)))⟩

/-! ### Deltas and their templates -/

theorem deltasFollowTemplate_append (a b : List Emitted) :
    ∀ last, deltasFollowTemplate last (a ++ b)
      = (deltasFollowTemplate last a && deltasFollowTemplate (lastTemplate last a) b) := by
  induction a with
  | nil =>
    intro last
    simp [deltasFollowTemplate, lastTemplate]
  | cons e es ih =>
    intro last
    cases e with
    | template t => simp [deltasFollowTemplate, lastTemplate, ih]
    | delta c r => simp [deltasFollowTemplate, lastTemplate, ih, Bool.and_assoc]
    | diff c => simp [deltasFollowTemplate, lastTemplate, ih]
    | padding n => simp [deltasFollowTemplate, lastTemplate, ih]

theorem Extends.extendsStay (s : HlacEncoder) : Extends s s :=
  ⟨[], by simp, fun _ => rfl⟩

theorem Extends.extendsThen {s t u : HlacEncoder} (a : Extends s t) (b : Extends t u) :
    Extends s u := by
  obtain ⟨n1, e1, d1⟩ := a
  obtain ⟨n2, e2, d2⟩ := b
  refine ⟨n1 ++ n2, by rw [e2, e1, List.append_assoc], ?_⟩
  intro last
  rw [deltasFollowTemplate_append, d1, d2]
  rfl

/-- A step that records nothing. -/
theorem Extends.of_eq {s t : HlacEncoder} (e : t.emitted = s.emitted) : Extends s t :=
  ⟨[], by simp [e], fun _ => rfl⟩

theorem templateEntry_follows (cycle : List Int) (last : Option (List Int)) :
    deltasFollowTemplate last (templateEntry cycle) = true := by
  unfold templateEntry
  split <;> rfl

theorem encodeCycle_extends (cycle : List Int) (s : HlacEncoder) :
    Extends s (encodeCycle h cycle s).1 := by
  rcases encodeCycle_emitted h cycle s with e | e
  · exact Extends.of_eq e
  · exact ⟨templateEntry cycle, e, templateEntry_follows cycle⟩

/-- A successful `encodeCycle` on a cycle that is not empty has recorded it as a template. -/
theorem encodeCycle_true_emitted (cycle : List Int) (s : HlacEncoder) (hne : cycle ≠ [])
    (ht : (encodeCycle h cycle s).2 = true) :
    (encodeCycle h cycle s).1.emitted = s.emitted ++ [Emitted.template cycle] := by
  have hlen : cycle.length ≠ 0 := by
    intro h0
    exact hne (List.length_eq_zero.mp h0)
  have e1 := writeCycleHeader_emitted true
    (h.getSuitableCompressorForData cycle).allowedBitRange cycle.length (countTemplate s)
  unfold encodeCycle at ht ⊢
  rw [if_neg hlen] at ht ⊢
  dsimp only at ht ⊢
  split
  next hf =>
    rw [if_pos hf, hf] at ht
    cases ht
  next hf =>
    split
    · show _ ++ _ = _
      rw [e1]
      rfl
    · show _ ++ _ = _
      rw [e1]
      rfl

theorem getCycleLengthFromTemplate_congr (n : Nat) (block16 : List Int) (rest : Nat)
    (s t : HlacEncoder) (hc : t.currentCycle = s.currentCycle) :
    getCycleLengthFromTemplate h options n block16 rest t
      = getCycleLengthFromTemplate h options n block16 rest s := by
  unfold getCycleLengthFromTemplate
  rw [hc]

theorem getPart_length_le (b : List Int) (offset size : Nat) :
    (getPart b offset size).length ≤ size ∧ (getPart b offset size).length ≤ b.length - offset := by
  unfold getPart
  rw [List.length_take, List.length_drop]
  omega

/-- The delta loop keeps `currentCycle`, and every delta it records was taken
against `currentCycle`; it records a delta only if `currentCycle` is the most
recent template, because a cycle shorter than 8 samples (which it would
write with a template header) cannot be followed by a longer one. -/
theorem deltaLoop_refs (block16 : List Int) (rest : Nat) (cycleLength : Nat) (fuel : Nat) :
    ∀ (numRemaining : Nat) (s t : HlacEncoder),
      deltaLoop h options fuel block16 rest cycleLength numRemaining s = some t →
      t.currentCycle = s.currentCycle ∧
      ∃ new, t.emitted = s.emitted ++ new ∧
        ∀ last, (last = some s.currentCycle ∨ block16.length < s.indexInBlock + 8 ∨
            getCycleLengthFromTemplate h options cycleLength block16 rest s < 8) →
          deltasFollowTemplate last new = true := by
  induction fuel with
  | zero =>
    intro numRemaining s t ht
    simp [deltaLoop] at ht
  | succ fuel ih =>
    intro numRemaining s t ht
    unfold deltaLoop at ht
    dsimp only at ht
    split at ht
    · split at ht
      · split at ht
        · have hle := getCycleLengthFromTemplate_le h options cycleLength block16 rest s
          have k := encodeCycleDelta_keeps h ((getPart block16 s.indexInBlock cycleLength).take
            (getCycleLengthFromTemplate h options cycleLength block16 rest s))
            (advance (getCycleLengthFromTemplate h options cycleLength block16 rest s) s)
          have hcur : (encodeCycleDelta h ((getPart block16 s.indexInBlock cycleLength).take
              (getCycleLengthFromTemplate h options cycleLength block16 rest s))
              (advance (getCycleLengthFromTemplate h options cycleLength block16 rest s) s)).1.currentCycle
              = s.currentCycle := k.currentCycle
          have hidx : (encodeCycleDelta h ((getPart block16 s.indexInBlock cycleLength).take
              (getCycleLengthFromTemplate h options cycleLength block16 rest s))
              (advance (getCycleLengthFromTemplate h options cycleLength block16 rest s) s)).1.indexInBlock
              = s.indexInBlock + getCycleLengthFromTemplate h options cycleLength block16 rest s :=
            k.indexInBlock
          have hn := getCycleLengthFromTemplate_congr h options cycleLength block16 rest s _ hcur
          have hclen : ((getPart block16 s.indexInBlock cycleLength).take
              (getCycleLengthFromTemplate h options cycleLength block16 rest s)).length
              = min (getCycleLengthFromTemplate h options cycleLength block16 rest s)
                (min cycleLength (block16.length - s.indexInBlock)) := by
            unfold getPart
            rw [List.length_take, List.length_take, List.length_drop]
          obtain ⟨i1, new, i2, i3⟩ := ih _ _ t ht
          rw [hcur] at i1
          rw [hcur, hidx, hn] at i3
          refine ⟨i1, ?_⟩
          rcases encodeCycleDelta_emitted h ((getPart block16 s.indexInBlock cycleLength).take
            (getCycleLengthFromTemplate h options cycleLength block16 rest s))
            (advance (getCycleLengthFromTemplate h options cycleLength block16 rest s) s) with e | e
          · refine ⟨new, by rw [i2, e]; rfl, ?_⟩
            intro last hl
            apply i3
            rcases hl with hl | hl | hl
            · exact Or.inl hl
            · exact Or.inr (Or.inl (by omega))
            · exact Or.inr (Or.inr hl)
          · refine ⟨deltaEntry ((getPart block16 s.indexInBlock cycleLength).take
              (getCycleLengthFromTemplate h options cycleLength block16 rest s)) s.currentCycle ++ new,
              by rw [i2, e, List.append_assoc]; rfl, ?_⟩
            intro last hl
            rw [deltasFollowTemplate_append]
            by_cases hQ : block16.length < s.indexInBlock + 8 ∨
                getCycleLengthFromTemplate h options cycleLength block16 rest s < 8
            · have hshort : ((getPart block16 s.indexInBlock cycleLength).take
                  (getCycleLengthFromTemplate h options cycleLength block16 rest s)).length < 8 := by
                rw [hclen]
                omega
              unfold deltaEntry
              rw [if_pos hshort, templateEntry_follows, Bool.true_and]
              apply i3
              rcases hQ with hQ | hQ
              · exact Or.inr (Or.inl (by omega))
              · exact Or.inr (Or.inr hQ)
            · have hlast : last = some s.currentCycle := by
                rcases hl with hl | hl | hl
                · exact hl
                · exact absurd (Or.inl hl) hQ
                · exact absurd (Or.inr hl) hQ
              have hlong : ¬ ((getPart block16 s.indexInBlock cycleLength).take
                  (getCycleLengthFromTemplate h options cycleLength block16 rest s)).length < 8 := by
                rw [hclen]
                omega
              unfold deltaEntry
              rw [if_neg hlong]
              simp only [deltasFollowTemplate, lastTemplate, hlast, decide_True, Bool.true_and,
                Bool.and_true, Bool.and_eq_true, decide_eq_true_eq]
              exact ⟨by omega, i3 _ (Or.inl rfl)⟩
        · cases ht
          exact ⟨rfl, [], by simp, fun _ _ => rfl⟩
      · cases ht
        exact ⟨rfl, [], by simp, fun _ _ => rfl⟩
    · cases ht
      exact ⟨rfl, [], by simp, fun _ _ => rfl⟩

theorem encodeCycleDelta_short_extends (cycle : List Int) (s : HlacEncoder)
    (hc : cycle.length < 8) : Extends s (encodeCycleDelta h cycle s).1 := by
  unfold encodeCycleDelta
  rw [if_pos hc]
  exact encodeCycle_extends h cycle s

theorem encodeDiff_extends (cycle : List Int) (s : HlacEncoder) :
    Extends s (encodeDiff h cycle s).1 := by
  rcases encodeDiff_emitted h cycle s with e | e
  · exact Extends.of_eq e
  · exact ⟨[Emitted.diff cycle], e, fun _ => rfl⟩

/-- The template cycle of one iteration of the block loop followed by its delta loop. -/
theorem template_then_deltas_extends (block16 : List Int) (fuel : Nat) (s s4 : HlacEncoder)
    (hnr : ¬ h.COMPRESSION_BLOCK_SIZE - s.indexInBlock ≤ 4)
    (htrue : ¬ (encodeCycle h (beginCycle h options (getPart block16 s.indexInBlock (h.COMPRESSION_BLOCK_SIZE - s.indexInBlock)) s).currentCycle
      (beginCycle h options (getPart block16 s.indexInBlock (h.COMPRESSION_BLOCK_SIZE - s.indexInBlock)) s)).2 = false)
    (hd : deltaLoop h options fuel block16 s.indexInBlock
      (chosenCycleLength h options (getPart block16 s.indexInBlock (h.COMPRESSION_BLOCK_SIZE - s.indexInBlock)) s)
      (h.COMPRESSION_BLOCK_SIZE - s.indexInBlock)
      (encodeCycle h (beginCycle h options (getPart block16 s.indexInBlock (h.COMPRESSION_BLOCK_SIZE - s.indexInBlock)) s).currentCycle
        (beginCycle h options (getPart block16 s.indexInBlock (h.COMPRESSION_BLOCK_SIZE - s.indexInBlock)) s)).1 = some s4) :
    Extends s s4 := by
  have hbe := beginCycle_emitted h options (getPart block16 s.indexInBlock (h.COMPRESSION_BLOCK_SIZE - s.indexInBlock)) s
  have hbi := beginCycle_indexInBlock h options (getPart block16 s.indexInBlock (h.COMPRESSION_BLOCK_SIZE - s.indexInBlock)) s
  have hbc := beginCycle_currentCycle h options (getPart block16 s.indexInBlock (h.COMPRESSION_BLOCK_SIZE - s.indexInBlock)) s
  have k := encodeCycle_keeps h (beginCycle h options (getPart block16 s.indexInBlock (h.COMPRESSION_BLOCK_SIZE - s.indexInBlock)) s).currentCycle
    (beginCycle h options (getPart block16 s.indexInBlock (h.COMPRESSION_BLOCK_SIZE - s.indexInBlock)) s)
  have htrue2 : (encodeCycle h (beginCycle h options (getPart block16 s.indexInBlock (h.COMPRESSION_BLOCK_SIZE - s.indexInBlock)) s).currentCycle
      (beginCycle h options (getPart block16 s.indexInBlock (h.COMPRESSION_BLOCK_SIZE - s.indexInBlock)) s)).2 = true := by
    simpa using htrue
  obtain ⟨_, dnew, d2, d3⟩ := deltaLoop_refs h options block16 _ _ fuel _ _ s4 hd
  rw [k.currentCycle] at d3
  rw [k.indexInBlock, hbi] at d3
  rw [getCycleLengthFromTemplate_congr h options _ _ _ _ _ k.currentCycle] at d3
  by_cases hne : (beginCycle h options (getPart block16 s.indexInBlock (h.COMPRESSION_BLOCK_SIZE - s.indexInBlock)) s).currentCycle = []
  · have hsame : (encodeCycle h (beginCycle h options (getPart block16 s.indexInBlock (h.COMPRESSION_BLOCK_SIZE - s.indexInBlock)) s).currentCycle
        (beginCycle h options (getPart block16 s.indexInBlock (h.COMPRESSION_BLOCK_SIZE - s.indexInBlock)) s)).1.emitted = s.emitted := by
      rw [hne]
      unfold encodeCycle
      simp only [List.length_nil, if_true]
      exact hbe
    refine ⟨dnew, by rw [d2, hsame], ?_⟩
    intro last
    apply d3
    have hlen : ((beginCycle h options (getPart block16 s.indexInBlock (h.COMPRESSION_BLOCK_SIZE - s.indexInBlock)) s).currentCycle).length = 0 := by
      rw [hne]
      rfl
    rw [hbc] at hlen
    have hl2 : (getPart (getPart block16 s.indexInBlock (h.COMPRESSION_BLOCK_SIZE - s.indexInBlock)) 0
        (chosenCycleLength h options (getPart block16 s.indexInBlock (h.COMPRESSION_BLOCK_SIZE - s.indexInBlock)) s)).length
        = min (chosenCycleLength h options (getPart block16 s.indexInBlock (h.COMPRESSION_BLOCK_SIZE - s.indexInBlock)) s)
          (min (h.COMPRESSION_BLOCK_SIZE - s.indexInBlock) (block16.length - s.indexInBlock)) := by
      unfold getPart
      rw [List.length_take, List.drop_zero, List.length_take, List.length_drop]
    rw [hl2] at hlen
    have hle := getCycleLengthFromTemplate_le h options
      (chosenCycleLength h options (getPart block16 s.indexInBlock (h.COMPRESSION_BLOCK_SIZE - s.indexInBlock)) s) block16 s.indexInBlock
      (beginCycle h options (getPart block16 s.indexInBlock (h.COMPRESSION_BLOCK_SIZE - s.indexInBlock)) s)
    right
    omega
  · have e := encodeCycle_true_emitted h _ _ hne htrue2
    refine ⟨[Emitted.template (beginCycle h options (getPart block16 s.indexInBlock (h.COMPRESSION_BLOCK_SIZE - s.indexInBlock)) s).currentCycle] ++ dnew,
      by rw [d2, e, hbe, List.append_assoc], ?_⟩
    intro last
    rw [deltasFollowTemplate_append]
    simp only [deltasFollowTemplate, lastTemplate, Bool.true_and]
    exact d3 _ (Or.inl rfl)

theorem blockLoop_extends (block16 : List Int) (fuel : Nat) :
    ∀ (s : HlacEncoder) (r : HlacEncoder × Bool),
      blockLoop h options fuel block16 s = some r → Extends s r.1 := by
  induction fuel with
  | zero =>
    intro s r hr
    simp [blockLoop] at hr
  | succ fuel ih =>
    intro s r hr
    unfold blockLoop at hr
    dsimp only at hr
    split at hr
    · cases hr
      exact Extends.extendsStay s
    · split at hr
      next hnr =>
        have hshort : (getPart block16 s.indexInBlock (h.COMPRESSION_BLOCK_SIZE - s.indexInBlock)).length < 8 := by
          have := (getPart_length_le block16 s.indexInBlock
            (h.COMPRESSION_BLOCK_SIZE - s.indexInBlock)).1
          omega
        have e1 := encodeCycleDelta_short_extends h _ s hshort
        split at hr
        · cases hr
          exact e1
        · exact (e1.extendsThen (Extends.of_eq rfl)).extendsThen (ih (advance _ _) r hr)
      next hnr =>
        have eb : Extends s (beginCycle h options (getPart block16 s.indexInBlock (h.COMPRESSION_BLOCK_SIZE - s.indexInBlock)) s) :=
          Extends.of_eq (beginCycle_emitted h options _ s)
        split at hr
        · split at hr
          · exact (eb.extendsThen (encodeCycle_extends h _ _)).extendsThen (ih _ r hr)
          · exact (eb.extendsThen (encodeDiff_extends h _ _)).extendsThen (ih _ r hr)
        · split at hr
          · cases hr
            exact eb.extendsThen (encodeCycle_extends h _ _)
          next htrue =>
            split at hr
            · cases hr
            next s4 hd =>
              exact (template_then_deltas_extends h options block16 fuel s s4 hnr htrue hd).extendsThen
                (ih s4 r hr)

theorem encodeBlock_extends (fuel : Nat) (block16 : List Int) (s : HlacEncoder)
    (r : HlacEncoder × Bool) (hr : encodeBlock h options fuel block16 s = some r) :
    Extends s r.1 := by
  have e0 : Extends s (startBlock h s) := Extends.of_eq rfl
  unfold encodeBlock at hr
  dsimp only at hr
  split at hr
  · cases hr
    exact e0.extendsThen (encodeCycle_extends h _ _)
  · exact e0.extendsThen (blockLoop_extends h options _ _ _ _ hr)

theorem encodeLastBlock_extends (a : List Int) (s : HlacEncoder) :
    Extends s (encodeLastBlock h a s) := by
  unfold encodeLastBlock
  have e1 : Extends s (writeCycleHeader true 0 ((h.COMPRESSION_BLOCK_SIZE : Int) - a.length)
      (encodeCycle h a s).1).1 :=
    (encodeCycle_extends h a s).extendsThen (Extends.of_eq (writeCycleHeader_emitted _ _ _ _))
  dsimp only
  split
  · exact e1
  · exact e1.extendsThen ⟨[Emitted.padding _], rfl, fun _ => rfl⟩

theorem encodeBlocks_extends (fuel : Nat) (source : AudioSampleBuffer) (offset size : Nat)
    (s t : HlacEncoder) (ht : encodeBlocks h options fuel source offset size s = some t) :
    Extends s t := by
  unfold encodeBlocks at ht
  split at ht
  · split at ht
    · cases ht
    next l hl =>
      split at ht
      · cases ht
      next r hr =>
        cases ht
        exact (encodeBlock_extends h options _ _ _ _ hl).extendsThen
          (encodeBlock_extends h options _ _ _ _ hr)
  · split at ht
    · cases ht
    next b hb =>
      cases ht
      exact encodeBlock_extends h options _ _ _ _ hb

theorem encodeLastBlocks_extends (source : AudioSampleBuffer) (offset size : Nat)
    (s : HlacEncoder) : Extends s (encodeLastBlocks h source offset size s) := by
  unfold encodeLastBlocks
  split
  · exact (encodeLastBlock_extends h _ s).extendsThen (encodeLastBlock_extends h _ _)
  · exact encodeLastBlock_extends h _ s

theorem compressLoop_extends (blockFuel : Nat) (source : AudioSampleBuffer) (fuel : Nat) :
    ∀ (n : Int) (s t : HlacEncoder),
      compressLoop h options fuel blockFuel source n s = some t → Extends s t := by
  induction fuel with
  | zero =>
    intro n s t ht
    simp [compressLoop] at ht
  | succ fuel ih =>
    intro n s t ht
    unfold compressLoop at ht
    dsimp only at ht
    split at ht
    · split at ht
      · cases ht
      next s2 h2 =>
        have e0 : Extends s (storeBlockOffset s) := Extends.of_eq rfl
        have e1 := encodeBlocks_extends h options _ _ _ _ _ _ h2
        have e2 : Extends s2 (advanceBlockOffset
          (min h.COMPRESSION_BLOCK_SIZE source.numSamples) s2) := Extends.of_eq rfl
        exact ((e0.extendsThen e1).extendsThen e2).extendsThen (ih _ _ _ ht)
    · cases ht
      exact Extends.extendsStay s

theorem compress_extends (fuel blockFuel : Nat) (source : AudioSampleBuffer)
    (s t : HlacEncoder) (ht : compress h options fuel blockFuel source s = some t) :
    Extends s t := by
  unfold compress at ht
  split at ht
  · have e0 : Extends s (storeBlockOffset s) := Extends.of_eq rfl
    exact e0.extendsThen (encodeBlocks_extends h options _ _ _ _ _ _ ht)
  · split at ht
    · cases ht
    next s1 h1 =>
      have e0 : Extends s (clearBlockOffset s) := Extends.of_eq rfl
      have e1 := e0.extendsThen (compressLoop_extends h options blockFuel source fuel _ _ _ h1)
      split at ht
      · cases ht
        have e2 : Extends s1 (storeBlockOffset s1) := Extends.of_eq rfl
        exact (e1.extendsThen e2).extendsThen (encodeLastBlocks_extends h _ _ _ _)
      · cases ht
        exact e1

/-- The bytes and the record of a delta cycle on a stream whose writes all
succeed: a delta header, the sample count, and the packed differences to
`currentCycle`. -/
theorem encodeCycleDelta_data (cycle : List Int) (s : HlacEncoder) (hs : s.output.reliable)
    (hlen : 8 ≤ cycle.length) :
    (encodeCycleDelta h cycle s).1.output.data =
      s.output.data
        ++ cycleHeaderByte false (h.getSuitableCompressorForData
            (sub cycle s.currentCycle cycle.length)).allowedBitRange
          :: shortBytes cycle.length
        ++ memoryBlock ((h.getSuitableCompressorForData
            (sub cycle s.currentCycle cycle.length)).getByteAmount cycle.length)
          ((h.getSuitableCompressorForData
            (sub cycle s.currentCycle cycle.length)).compress
            (sub cycle s.currentCycle cycle.length)) ∧
    (encodeCycleDelta h cycle s).1.emitted
      = s.emitted ++ [Emitted.delta cycle s.currentCycle] := by
  have hlen2 : ¬ cycle.length < 8 := by omega
  have d1 := writeCycleHeader_data_reliable false
    (h.getSuitableCompressorForData (sub cycle s.currentCycle cycle.length)).allowedBitRange
    cycle.length (countDelta s) hs
  have r1 := writeCycleHeader_reliable false
    (h.getSuitableCompressorForData (sub cycle s.currentCycle cycle.length)).allowedBitRange
    cycle.length (countDelta s) hs
  have f1 := (writeCycleHeader_frame false
    (h.getSuitableCompressorForData (sub cycle s.currentCycle cycle.length)).allowedBitRange
    cycle.length (countDelta s)).reliable hs
  constructor
  · unfold encodeCycleDelta
    rw [if_neg hlen2]
    dsimp only
    rw [if_neg (by rw [r1]; simp)]
    show ((writeCycleHeader false _ _ (countDelta s)).1.output.write _).1.data = _
    rw [(write_reliable _ _ f1).2.2, d1]
    rfl
  · have e := (encodeCycleDelta_reliable h cycle s hs).2
    unfold deltaEntry at e
    rw [if_neg hlen2] at e
    exact e

/-! ### Failing writes -/

/-- C8, the code at a failing input (block size 8, eleven mono samples, a stream
whose first write fails): `encodeBlock` returns `false` after that one failed
write, and `compress` goes on all the same: it makes five more writes, which
put the last block and its padding entry into the stream. -/
theorem compress_continues_after_failed_write :
    (encodeBlock (specHelpers 8) plainOptions 12 cycleX
        (storeBlockOffset (clearBlockOffset
          (freshEncoder (specHelpers 8) (streamFailingAt 0))))).map
      (fun r => (r.2, r.1.output.attempts, r.1.output.data)) = some (false, 1, []) ∧
    (compress (specHelpers 8) plainOptions 3 12 (monoBuffer (cycleX ++ [5, 6, 7]))
        (freshEncoder (specHelpers 8) (streamFailingAt 0))).map
      (fun t => (t.output.attempts, t.output.data))
      = some (6, [7, 3, 0, 101, 7, 1, 5, 0]) := by
  constructor <;> decide

/-- The same defect inside `encodeBlock` (block size 32, cycles of 8 samples,
deltas): the payload write of the delta cycle fails (write number 5),
`encodeCycleDelta` returns `false`, and `encodeBlock` goes on writing and
returns `true`. -/
theorem encodeBlock_ignores_failed_delta :
    (encodeBlock (specHelpers 32) deltaOptions 40 blockA
        (freshEncoder (specHelpers 32) (streamFailingAt 5))).map
      (fun r => (r.2, r.1.output.attempts)) = some (true, 12) := by
  decide

/-! ### Round trip -/

/-- C1, the code at a failing input (block size 32, cycles of 8 samples,
deltas): the block whose second cycle repeats the first and the block whose
second cycle is silent are different and are compressed to the same bytes and
the same offset table, so that no decoder gives back both. The second cycle
is a delta of bit depth 0 in the one and a template of bit depth 0 in the
other, and `writeCycleHeader` writes the byte 1 for both. -/
theorem compress_not_injective :
    blockA ≠ blockB ∧
    ∃ t u,
      compress (specHelpers 32) deltaOptions 3 40 (monoBuffer blockA)
        (freshEncoder (specHelpers 32) reliableStream) = some t ∧
      compress (specHelpers 32) deltaOptions 3 40 (monoBuffer blockB)
        (freshEncoder (specHelpers 32) reliableStream) = some u ∧
      t.emitted = [Emitted.template cycleX, Emitted.delta cycleX cycleX,
        Emitted.template cycleY, Emitted.template cycleZ] ∧
      u.emitted = [Emitted.template cycleX, Emitted.template (List.replicate 8 0),
        Emitted.template cycleY, Emitted.template cycleZ] ∧
      t.output.data = u.output.data ∧
      t.blockOffsetData = u.blockOffsetData ∧
      ∀ decompress : List Nat → List Int,
        ¬ (decompress t.output.data = blockA ∧ decompress u.output.data = blockB) := by
  have hne : blockA ≠ blockB := by decide
  have hd : ((compress (specHelpers 32) deltaOptions 3 40 (monoBuffer blockA)
        (freshEncoder (specHelpers 32) reliableStream)).get (by decide)).output.data
      = ((compress (specHelpers 32) deltaOptions 3 40 (monoBuffer blockB)
        (freshEncoder (specHelpers 32) reliableStream)).get (by decide)).output.data := by
    decide
  refine ⟨hne, _, _, Option.eq_some_of_isSome (by decide), Option.eq_some_of_isSome (by decide),
    by decide, by decide, hd, by decide, ?_⟩
  intro decompress hboth
  apply hne
  rw [← hboth.1, ← hboth.2, hd]

/-! ### Termination -/

theorem getCycleLengthFromTemplate_ge (n : Nat) (block16 : List Int) (rest : Nat)
    (s : HlacEncoder) : n - 1 ≤ getCycleLengthFromTemplate h options n block16 rest s := by
  unfold getCycleLengthFromTemplate
  dsimp only
  split <;> omega

/-- With enough fuel the delta loop returns, when every delta cycle it may
emit holds at least one sample. -/
theorem deltaLoop_returns (block16 : List Int) (rest : Nat) (cycleLength : Nat)
    (hcl : options.useDeltaEncoding = true → 2 ≤ cycleLength) (fuel : Nat) :
    ∀ (numRemaining : Nat) (s : HlacEncoder),
      h.COMPRESSION_BLOCK_SIZE - s.indexInBlock + 1 ≤ fuel →
      ∃ t, deltaLoop h options fuel block16 rest cycleLength numRemaining s = some t ∧
        s.indexInBlock ≤ t.indexInBlock ∧ t.firstCycleLength = s.firstCycleLength := by
  induction fuel with
  | zero =>
    intro numRemaining s hf
    omega
  | succ fuel ih =>
    intro numRemaining s hf
    unfold deltaLoop
    dsimp only
    split
    next hc =>
      have hex : s.indexInBlock < h.COMPRESSION_BLOCK_SIZE := by
        have := hc.2
        simpa [isBlockExhausted] using this
      split
      · split
        · have hge := getCycleLengthFromTemplate_ge h options cycleLength block16 rest s
          have h2 := hcl hc.1
          have k := encodeCycleDelta_keeps h ((getPart block16 s.indexInBlock cycleLength).take
            (getCycleLengthFromTemplate h options cycleLength block16 rest s))
            (advance (getCycleLengthFromTemplate h options cycleLength block16 rest s) s)
          have hidx : (encodeCycleDelta h ((getPart block16 s.indexInBlock cycleLength).take
              (getCycleLengthFromTemplate h options cycleLength block16 rest s))
              (advance (getCycleLengthFromTemplate h options cycleLength block16 rest s) s)).1.indexInBlock
              = s.indexInBlock + getCycleLengthFromTemplate h options cycleLength block16 rest s :=
            k.indexInBlock
          obtain ⟨t, i1, i2, i3⟩ := ih
            (h.COMPRESSION_BLOCK_SIZE - (advance
              (getCycleLengthFromTemplate h options cycleLength block16 rest s) s).indexInBlock)
            (encodeCycleDelta h ((getPart block16 s.indexInBlock cycleLength).take
              (getCycleLengthFromTemplate h options cycleLength block16 rest s))
              (advance (getCycleLengthFromTemplate h options cycleLength block16 rest s) s)).1
            (by rw [hidx]; omega)
          refine ⟨t, i1, by rw [hidx] at i2; omega, ?_⟩
          rw [i3]
          exact k.firstCycleLength
        · exact ⟨s, rfl, le_rfl, rfl⟩
      · exact ⟨s, rfl, le_rfl, rfl⟩
    · exact ⟨s, rfl, le_rfl, rfl⟩

theorem idealCycleLength_pos_or (rest : List Int) (s : HlacEncoder) :
    0 ≤ idealCycleLength h options rest s := by
  unfold idealCycleLength getCycleLength
  split
  · split <;> omega
  · omega

theorem chosenCycleLength_pos (rest : List Int) (s : HlacEncoder)
    (hex : s.indexInBlock < h.COMPRESSION_BLOCK_SIZE) :
    1 ≤ chosenCycleLength h options rest s := by
  have h0 := idealCycleLength_pos_or h options rest s
  unfold chosenCycleLength cycleLengthOf
  split <;> omega

/-- With a fixed cycle length of 2 or more, the chosen cycle holds 2 or more
samples whenever more than 4 samples remain. -/
theorem chosenCycleLength_two (rest : List Int) (s : HlacEncoder)
    (hnr : ¬ h.COMPRESSION_BLOCK_SIZE - s.indexInBlock ≤ 4)
    (hfix : 2 ≤ options.fixedBlockWidth)
    (hfirst : s.firstCycleLength < 0 ∨ 2 ≤ s.firstCycleLength) :
    2 ≤ chosenCycleLength h options rest s := by
  have hi : 2 ≤ idealCycleLength h options rest s := by
    unfold idealCycleLength
    split
    · rw [if_pos (by omega)]
      exact hfix
    · omega
  unfold chosenCycleLength cycleLengthOf
  split <;> omega

theorem beginCycle_firstCycleLength (rest : List Int) (s : HlacEncoder)
    (hfix : 2 ≤ options.fixedBlockWidth)
    (hfirst : s.firstCycleLength < 0 ∨ 2 ≤ s.firstCycleLength) :
    (beginCycle h options rest s).firstCycleLength < 0 ∨
      2 ≤ (beginCycle h options rest s).firstCycleLength := by
  show (rememberFirstCycleLength h options rest s).firstCycleLength < 0 ∨
    2 ≤ (rememberFirstCycleLength h options rest s).firstCycleLength
  unfold rememberFirstCycleLength
  split
  next hc =>
    right
    show 2 ≤ idealCycleLength h options rest s
    unfold idealCycleLength
    rw [if_pos hc.1, if_pos (by omega)]
    exact hfix
  · exact hfirst

/-- With enough fuel the block loop returns, under options that make every
delta cycle hold at least one sample. -/
theorem blockLoop_returns (block16 : List Int) (fuel : Nat) :
    ∀ (s : HlacEncoder),
      (options.useDeltaEncoding = false ∨
        (2 ≤ options.fixedBlockWidth ∧ (s.firstCycleLength < 0 ∨ 2 ≤ s.firstCycleLength))) →
      h.COMPRESSION_BLOCK_SIZE - s.indexInBlock + 2 ≤ fuel →
      ∃ r, blockLoop h options fuel block16 s = some r := by
  induction fuel with
  | zero =>
    intro s _ hf
    omega
  | succ fuel ih =>
    intro s hinv hf
    unfold blockLoop
    dsimp only
    split
    · exact ⟨_, rfl⟩
    next hex =>
      have hex2 : s.indexInBlock < h.COMPRESSION_BLOCK_SIZE := by
        simpa [isBlockExhausted] using hex
      split
      next hnr =>
        split
        · exact ⟨_, rfl⟩
        · have k := encodeCycleDelta_keeps h (getPart block16 s.indexInBlock (h.COMPRESSION_BLOCK_SIZE - s.indexInBlock)) s
          apply ih
          · rcases hinv with hinv | hinv
            · exact Or.inl hinv
            · right
              refine ⟨hinv.1, ?_⟩
              show (encodeCycleDelta h _ s).1.firstCycleLength < 0 ∨
                2 ≤ (encodeCycleDelta h _ s).1.firstCycleLength
              rw [k.firstCycleLength]
              exact hinv.2
          · show h.COMPRESSION_BLOCK_SIZE - ((encodeCycleDelta h _ s).1.indexInBlock + _) + 2 ≤ fuel
            rw [k.indexInBlock]
            omega
      next hnr =>
        have hcl := chosenCycleLength_pos h options (getPart block16 s.indexInBlock (h.COMPRESSION_BLOCK_SIZE - s.indexInBlock)) s hex2
        have hbi := beginCycle_indexInBlock h options (getPart block16 s.indexInBlock (h.COMPRESSION_BLOCK_SIZE - s.indexInBlock)) s
        have hinv3 : options.useDeltaEncoding = false ∨
            (2 ≤ options.fixedBlockWidth ∧
              ((beginCycle h options (getPart block16 s.indexInBlock (h.COMPRESSION_BLOCK_SIZE - s.indexInBlock)) s).firstCycleLength < 0 ∨
              2 ≤ (beginCycle h options (getPart block16 s.indexInBlock (h.COMPRESSION_BLOCK_SIZE - s.indexInBlock)) s).firstCycleLength)) := by
          rcases hinv with hinv | hinv
          · exact Or.inl hinv
          · exact Or.inr ⟨hinv.1, beginCycle_firstCycleLength h options _ s hinv.1 hinv.2⟩
        split
        · split
          · have k := encodeCycle_keeps h (beginCycle h options (getPart block16 s.indexInBlock (h.COMPRESSION_BLOCK_SIZE - s.indexInBlock)) s).currentCycle
              (beginCycle h options (getPart block16 s.indexInBlock (h.COMPRESSION_BLOCK_SIZE - s.indexInBlock)) s)
            apply ih
            · rw [k.firstCycleLength]
              exact hinv3
            · rw [k.indexInBlock, hbi]
              omega
          · have k := encodeDiff_keeps h (beginCycle h options (getPart block16 s.indexInBlock (h.COMPRESSION_BLOCK_SIZE - s.indexInBlock)) s).currentCycle
              (beginCycle h options (getPart block16 s.indexInBlock (h.COMPRESSION_BLOCK_SIZE - s.indexInBlock)) s)
            apply ih
            · rw [k.firstCycleLength]
              exact hinv3
            · rw [k.indexInBlock, hbi]
              omega
        · have k := encodeCycle_keeps h (beginCycle h options (getPart block16 s.indexInBlock (h.COMPRESSION_BLOCK_SIZE - s.indexInBlock)) s).currentCycle
            (beginCycle h options (getPart block16 s.indexInBlock (h.COMPRESSION_BLOCK_SIZE - s.indexInBlock)) s)
          split
          · exact ⟨_, rfl⟩
          · have hcl2 : options.useDeltaEncoding = true →
                2 ≤ chosenCycleLength h options (getPart block16 s.indexInBlock (h.COMPRESSION_BLOCK_SIZE - s.indexInBlock)) s := by
              intro hu
              rcases hinv with hinv | hinv
              · rw [hu] at hinv
                cases hinv
              · exact chosenCycleLength_two h options _ s hnr hinv.1 hinv.2
            obtain ⟨s4, d1, d2, d3⟩ := deltaLoop_returns h options block16 s.indexInBlock
              (chosenCycleLength h options (getPart block16 s.indexInBlock (h.COMPRESSION_BLOCK_SIZE - s.indexInBlock)) s) hcl2 fuel
              (h.COMPRESSION_BLOCK_SIZE - s.indexInBlock)
              (encodeCycle h (beginCycle h options (getPart block16 s.indexInBlock (h.COMPRESSION_BLOCK_SIZE - s.indexInBlock)) s).currentCycle
                (beginCycle h options (getPart block16 s.indexInBlock (h.COMPRESSION_BLOCK_SIZE - s.indexInBlock)) s)).1
              (by rw [k.indexInBlock, hbi]; omega)
            rw [d1]
            dsimp only
            apply ih
            · rw [d3, k.firstCycleLength]
              exact hinv3
            · rw [k.indexInBlock, hbi] at d2
              omega

theorem encodeBlock_returns (hp : Progressing options) (fuel : Nat)
    (hf : h.COMPRESSION_BLOCK_SIZE + 2 ≤ fuel) (block16 : List Int) (s : HlacEncoder) :
    ∃ r, encodeBlock h options fuel block16 s = some r := by
  unfold encodeBlock
  dsimp only
  split
  · exact ⟨_, rfl⟩
  · apply blockLoop_returns h options block16 fuel (startBlock h s)
    · rcases hp with hp | hp
      · exact Or.inl hp
      · exact Or.inr ⟨hp, Or.inl (by show (-1 : Int) < 0; omega)⟩
    · show h.COMPRESSION_BLOCK_SIZE - 0 + 2 ≤ fuel
      omega

theorem encodeBlocks_returns (hp : Progressing options) (fuel : Nat)
    (hf : h.COMPRESSION_BLOCK_SIZE + 2 ≤ fuel) (source : AudioSampleBuffer) (offset size : Nat)
    (s : HlacEncoder) : ∃ t, encodeBlocks h options fuel source offset size s = some t := by
  unfold encodeBlocks
  split
  · obtain ⟨l, hl⟩ := encodeBlock_returns h options hp fuel hf
      (getPart (source.channel 0) offset size) s
    rw [hl]
    dsimp only
    obtain ⟨r, hr⟩ := encodeBlock_returns h options hp fuel hf
      (getPart (source.channel 1) offset size) l.1
    rw [hr]
    exact ⟨_, rfl⟩
  · obtain ⟨b, hb⟩ := encodeBlock_returns h options hp fuel hf
      (getPart (source.channel 0) offset size) s
    rw [hb]
    exact ⟨_, rfl⟩

theorem compressLoop_returns (hp : Progressing options) (hB : 0 < h.COMPRESSION_BLOCK_SIZE)
    (blockFuel : Nat) (hf : h.COMPRESSION_BLOCK_SIZE + 2 ≤ blockFuel)
    (source : AudioSampleBuffer) (fuel : Nat) :
    ∀ (n : Nat) (s : HlacEncoder), n ≤ source.numSamples →
      n / h.COMPRESSION_BLOCK_SIZE + 1 ≤ fuel →
      ∃ t, compressLoop h options fuel blockFuel source (n : Int) s = some t := by
  induction fuel with
  | zero =>
    intro n s _ hfu
    exact absurd hfu (Nat.not_succ_le_zero _)
  | succ fuel ih =>
    intro n s hn hfu
    unfold compressLoop
    dsimp only
    split
    next hle =>
      have hle2 : h.COMPRESSION_BLOCK_SIZE ≤ n := by exact_mod_cast hle
      have hmin : min h.COMPRESSION_BLOCK_SIZE source.numSamples = h.COMPRESSION_BLOCK_SIZE :=
        Nat.min_eq_left (le_trans hle2 hn)
      rw [hmin]
      obtain ⟨s2, h2⟩ := encodeBlocks_returns h options hp blockFuel hf source
        (storeBlockOffset s).blockOffset h.COMPRESSION_BLOCK_SIZE (storeBlockOffset s)
      rw [h2]
      dsimp only
      have hcast : ((n : Int) - (h.COMPRESSION_BLOCK_SIZE : Int))
          = ((n - h.COMPRESSION_BLOCK_SIZE : Nat) : Int) := by omega
      rw [hcast]
      apply ih
      · omega
      · have hdiv : n / h.COMPRESSION_BLOCK_SIZE
            = (n - h.COMPRESSION_BLOCK_SIZE) / h.COMPRESSION_BLOCK_SIZE + 1 := by
          rw [Nat.div_eq_sub_div hB hle2]
        omega
    · exact ⟨_, rfl⟩

/-- With enough fuel `compress` returns, under options that make every delta
cycle hold at least one sample. -/
theorem compress_returns (hp : Progressing options) (hB : 0 < h.COMPRESSION_BLOCK_SIZE)
    (fuel blockFuel : Nat) (source : AudioSampleBuffer) (s : HlacEncoder)
    (hfu : source.numSamples / h.COMPRESSION_BLOCK_SIZE + 1 ≤ fuel)
    (hf : h.COMPRESSION_BLOCK_SIZE + 2 ≤ blockFuel) :
    ∃ t, compress h options fuel blockFuel source s = some t := by
  unfold compress
  split
  · exact encodeBlocks_returns h options hp blockFuel hf source _ _ _
  · obtain ⟨s1, h1⟩ := compressLoop_returns h options hp hB blockFuel hf source fuel
      source.numSamples (clearBlockOffset s) le_rfl hfu
    rw [h1]
    dsimp only
    split
    · exact ⟨_, rfl⟩
    · exact ⟨_, rfl⟩

/-- On an empty buffer `compress` returns at once and only clears `blockOffset`. -/
theorem compress_empty (hB : 0 < h.COMPRESSION_BLOCK_SIZE) (fuel blockFuel : Nat)
    (source : AudioSampleBuffer) (s : HlacEncoder) (h0 : source.numSamples = 0) :
    compress h options (fuel + 1) blockFuel source s = some (clearBlockOffset s) := by
  have hL2 : ¬ source.numSamples = h.COMPRESSION_BLOCK_SIZE := by omega
  unfold compress
  rw [if_neg hL2]
  unfold compressLoop
  rw [h0]
  have hB2 : ¬ ((h.COMPRESSION_BLOCK_SIZE : Int) ≤ ((0 : Nat) : Int)) := by
    intro hc
    have : h.COMPRESSION_BLOCK_SIZE ≤ 0 := by exact_mod_cast hc
    omega
  simp only [hB2, if_false]
  have hbo0 : ¬ (clearBlockOffset s).blockOffset < 0 := by omega
  simp only [hbo0, if_false]

/-- C5: on a buffer of `L` samples, a `compress` call that returns has made
exactly `ceil(L / BLOCK)` stores into `blockOffsetData`, at the consecutive
indices that start at the encoder's `blockIndex`, and has advanced `blockIndex`
by that number, whatever the number of channels; for `L = 0` it has written no
entry and no byte, and it does return. For every `L`, `compress` returns,
given fuel for its loops, under options that make every delta cycle hold at
least one sample. -/
theorem compress_writes_one_entry_per_block (hB : 0 < h.COMPRESSION_BLOCK_SIZE)
    (fuel blockFuel : Nat) (source : AudioSampleBuffer) (s : HlacEncoder) :
    (∀ t, compress h options fuel blockFuel source s = some t →
      t.blockIndex = s.blockIndex
        + (source.numSamples + h.COMPRESSION_BLOCK_SIZE - 1) / h.COMPRESSION_BLOCK_SIZE ∧
      (∃ new, t.blockOffsetData = s.blockOffsetData ++ new ∧
        new.map Prod.fst =
          (List.range ((source.numSamples + h.COMPRESSION_BLOCK_SIZE - 1)
            / h.COMPRESSION_BLOCK_SIZE)).map (fun i => s.blockIndex + i)) ∧
      (source.numSamples = 0 →
        t.blockOffsetData = s.blockOffsetData ∧ t.output = s.output)) ∧
    (source.numSamples = 0 →
      compress h options (fuel + 1) blockFuel source s = some (clearBlockOffset s)) ∧
    (Progressing options →
      source.numSamples / h.COMPRESSION_BLOCK_SIZE + 1 ≤ fuel →
      h.COMPRESSION_BLOCK_SIZE + 2 ≤ blockFuel →
      ∃ t, compress h options fuel blockFuel source s = some t) := by
  refine ⟨?_, ?_, ?_⟩
  · intro t ht
    obtain ⟨i1, i2, i3⟩ := compress_table h options hB fuel blockFuel source s t ht
    exact ⟨i1, i2, fun h0 => ⟨(i3 h0).1, (i3 h0).2.1⟩⟩
  · intro h0
    exact compress_empty h options hB fuel blockFuel source s h0
  · intro hp hfu hf
    exact compress_returns h options hp hB fuel blockFuel source s hfu hf

/-- The statement of C5 for a block size of 8: two entries for eleven mono
samples, and none for an empty buffer. -/
theorem compress_writes_one_entry_per_block_witness :
    (∃ t, compress (specHelpers 8) plainOptions 3 12 (monoBuffer (cycleX ++ [5, 6, 7]))
        (freshEncoder (specHelpers 8) reliableStream) = some t ∧
      t.blockIndex = 2 ∧ t.blockOffsetData.map Prod.fst = [0, 1]) ∧
    compress (specHelpers 8) plainOptions (0 + 1) 12 (monoBuffer [])
        (freshEncoder (specHelpers 8) reliableStream)
      = some (clearBlockOffset (freshEncoder (specHelpers 8) reliableStream)) ∧
    ((clearBlockOffset (freshEncoder (specHelpers 8) reliableStream)).blockOffsetData
        = (freshEncoder (specHelpers 8) reliableStream).blockOffsetData ∧
      (clearBlockOffset (freshEncoder (specHelpers 8) reliableStream)).output
        = (freshEncoder (specHelpers 8) reliableStream).output) :=
  ⟨(fun ⟨t, ht⟩ => ⟨t, ht,
      ((compress_writes_one_entry_per_block (specHelpers 8) plainOptions (by decide) 3 12
        (monoBuffer (cycleX ++ [5, 6, 7])) (freshEncoder (specHelpers 8) reliableStream)).1
          t ht).1,
      by
        obtain ⟨new, h1, h2⟩ := ((compress_writes_one_entry_per_block (specHelpers 8)
          plainOptions (by decide) 3 12 (monoBuffer (cycleX ++ [5, 6, 7]))
          (freshEncoder (specHelpers 8) reliableStream)).1 t ht).2.1
        rw [h1, List.map_append, h2]
        rfl⟩)
      ((compress_writes_one_entry_per_block (specHelpers 8) plainOptions (by decide) 3 12
        (monoBuffer (cycleX ++ [5, 6, 7])) (freshEncoder (specHelpers 8) reliableStream)).2.2
          (Or.inl rfl) (by decide) (by decide)),
    (compress_writes_one_entry_per_block (specHelpers 8) plainOptions (by decide) 0 12
      (monoBuffer []) (freshEncoder (specHelpers 8) reliableStream)).2.1 rfl,
    ((compress_writes_one_entry_per_block (specHelpers 8) plainOptions (by decide) (0 + 1) 12
      (monoBuffer []) (freshEncoder (specHelpers 8) reliableStream)).1 _
        ((compress_writes_one_entry_per_block (specHelpers 8) plainOptions (by decide) 0 12
          (monoBuffer []) (freshEncoder (specHelpers 8) reliableStream)).2.1 rfl)).2.2 rfl⟩

/-! ### The layout of the headers -/

theorem cycleHeaderByte_generic (isTemplate : Bool) (bitDepth : Nat) (hd : 3 ≤ bitDepth)
    (hd2 : bitDepth ≤ 16) :
    cycleHeaderByte isTemplate bitDepth = (if isTemplate = true then 1 else 0) + 2 * (bitDepth - 1) := by
  interval_cases bitDepth <;> cases isTemplate <;> rfl

/-- C11: on a stream whose writes all succeed and for a block size within the
16-bit count, `writeCycleHeader` with a bit depth `d` in 3..16 and a sample
count `n` in 1..BLOCK writes exactly three bytes and adds 3 to
`numBytesWritten`: a byte whose bit 0 is the template flag, whose bits 1 to 4
hold `d - 1` and whose bits 5 to 7 are zero, then `n` in two bytes, low byte
first, with a clear sign bit. -/
theorem cycle_header_layout (isTemplate : Bool) (bitDepth numSamples : Nat)
    (s : HlacEncoder) (hs : s.output.reliable) (hB : h.COMPRESSION_BLOCK_SIZE ≤ 32767)
    (hd : 3 ≤ bitDepth) (hd2 : bitDepth ≤ 16) (hn : 1 ≤ numSamples)
    (hn2 : numSamples ≤ h.COMPRESSION_BLOCK_SIZE) :
    (writeCycleHeader isTemplate bitDepth numSamples s).2 = true ∧
    (writeCycleHeader isTemplate bitDepth numSamples s).1.output.data =
      s.output.data ++ [cycleHeaderByte isTemplate bitDepth, numSamples % 256, numSamples / 256] ∧
    cycleHeaderByte isTemplate bitDepth % 2 = (if isTemplate = true then 1 else 0) ∧
    cycleHeaderByte isTemplate bitDepth / 2 % 16 = bitDepth - 1 ∧
    cycleHeaderByte isTemplate bitDepth / 32 = 0 ∧
    numSamples % 256 + 256 * (numSamples / 256) = numSamples ∧
    numSamples / 256 < 128 ∧
    (writeCycleHeader isTemplate bitDepth numSamples s).1.numBytesWritten
      = s.numBytesWritten + 3 := by
  have hb := cycleHeaderByte_generic isTemplate bitDepth hd hd2
  have hflag : (if isTemplate = true then 1 else 0) ≤ 1 := by
    split <;> omega
  refine ⟨writeCycleHeader_reliable _ _ _ s hs, ?_, ?_, ?_, ?_, by omega, by omega,
    (writeCycleHeader_counts _ _ _ s hs).1⟩
  · rw [writeCycleHeader_data_reliable _ _ _ s hs, shortBytes_natCast _ (by omega)]
  · rw [hb]
    omega
  · rw [hb]
    omega
  · rw [hb]
    omega

/-- The statement of C11 for a template header of bit depth 8 and 8 samples: the bytes 15, 8, 0. -/
theorem cycle_header_layout_witness :
    (writeCycleHeader true 8 ((8 : Nat) : Int)
        (freshEncoder (specHelpers 32) reliableStream)).1.output.data
      = (freshEncoder (specHelpers 32) reliableStream).output.data ++ [15, 8 % 256, 8 / 256] ∧
    (writeCycleHeader true 8 ((8 : Nat) : Int)
        (freshEncoder (specHelpers 32) reliableStream)).1.numBytesWritten
      = (freshEncoder (specHelpers 32) reliableStream).numBytesWritten + 3 :=
  ⟨(cycle_header_layout (specHelpers 32) true 8 8 (freshEncoder (specHelpers 32) reliableStream)
      (fun _ => rfl) (by decide) (by decide) (by decide) (by decide) (by decide)).2.1,
    (cycle_header_layout (specHelpers 32) true 8 8 (freshEncoder (specHelpers 32) reliableStream)
      (fun _ => rfl) (by decide) (by decide) (by decide) (by decide) (by decide)).2.2.2.2.2.2.2⟩

theorem floorLog2Aux_two_pow (k : Nat) :
    ∀ fuel, k ≤ fuel → floorLog2Aux fuel (2 ^ k) = k := by
  induction k with
  | zero =>
    intro fuel _
    cases fuel with
    | zero => rfl
    | succ fuel => simp [floorLog2Aux]
  | succ k ih =>
    intro fuel hf
    cases fuel with
    | zero => omega
    | succ fuel =>
      have h2 : ¬ 2 ^ (k + 1) < 2 := by
        have := Nat.one_le_two_pow (n := k)
        rw [Nat.pow_succ]
        omega
      have hdiv : 2 ^ (k + 1) / 2 = 2 ^ k := by
        rw [Nat.pow_succ]
        exact Nat.mul_div_cancel _ (by omega)
      unfold floorLog2Aux
      rw [if_neg h2, hdiv, ih fuel (by omega)]

theorem floorLog2_two_pow (k : Nat) : floorLog2 (2 ^ k) = k :=
  floorLog2Aux_two_pow k _ (le_of_lt (Nat.lt_two_pow k))

/-- The value that `writeDiffHeader` packs, for bit rates in 1..16 and a block size `2^k`. -/
theorem diffShortPacked_value (fullBitRate errorBitRate k : Nat) (hf1 : 1 ≤ fullBitRate)
    (hf : fullBitRate ≤ 16) (he1 : 1 ≤ errorBitRate) (he : errorBitRate ≤ 16) (hk : k < 256) :
    diffShortPacked fullBitRate errorBitRate (2 ^ k)
      = 4096 * (fullBitRate - 1) + 256 * (errorBitRate - 1) + k := by
  unfold diffShortPacked
  have h1 : (((fullBitRate : Int) - 1) % 256).toNat = fullBitRate - 1 := by omega
  have h2 : (((errorBitRate : Int) - 1) % 256).toNat = errorBitRate - 1 := by omega
  have h3 : ((fullBitRate - 1) <<< 4) % 256 = 2 ^ 4 * (fullBitRate - 1) := by
    rw [Nat.shiftLeft_eq]
    omega
  have h4 : 2 ^ 4 * (fullBitRate - 1) ||| (errorBitRate - 1)
      = 2 ^ 4 * (fullBitRate - 1) + (errorBitRate - 1) :=
    (Nat.mul_add_lt_is_or (by omega) _).symm
  have h5 : ((2 ^ 4 * (fullBitRate - 1) + (errorBitRate - 1)) <<< 8) % 65536
      = 2 ^ 8 * (2 ^ 4 * (fullBitRate - 1) + (errorBitRate - 1)) := by
    rw [Nat.shiftLeft_eq]
    omega
  have h6 : 2 ^ 8 * (2 ^ 4 * (fullBitRate - 1) + (errorBitRate - 1)) ||| k
      = 2 ^ 8 * (2 ^ 4 * (fullBitRate - 1) + (errorBitRate - 1)) + k :=
    (Nat.mul_add_lt_is_or (by omega) _).symm
  simp only [h1, h2, h3, h4, h5, floorLog2_two_pow, Nat.mod_eq_of_lt hk, h6]
  omega

theorem two_pow_le_exponent (k : Nat) (hk : 2 ^ k ≤ 32767) : k < 15 := by
  by_contra hc
  have h15 : 2 ^ 15 ≤ 2 ^ k := Nat.pow_le_pow_right (by omega) (by omega)
  omega

/-- C12: on a stream whose writes all succeed and for a block size within the
16-bit count, `writeDiffHeader` with bit rates in 1..16 and a power of two
`2^k ≤ BLOCK` as the cycle length writes exactly three bytes and adds 3 to
`numBytesWritten`: the sentinel `0xE0`, then a 16-bit value, low byte first,
whose bits 12 to 15 hold `fullBitRate - 1`, whose bits 8 to 11 hold
`errorBitRate - 1` and whose low byte is `k`; the cycle length is stored
only as this logarithm. -/
theorem diff_header_layout (fullBitRate errorBitRate k : Nat) (s : HlacEncoder)
    (hs : s.output.reliable) (hB : h.COMPRESSION_BLOCK_SIZE ≤ 32767)
    (hf1 : 1 ≤ fullBitRate) (hf : fullBitRate ≤ 16) (he1 : 1 ≤ errorBitRate)
    (he : errorBitRate ≤ 16) (hk : 2 ^ k ≤ h.COMPRESSION_BLOCK_SIZE) :
    (writeDiffHeader fullBitRate errorBitRate (2 ^ k) s).2 = true ∧
    (writeDiffHeader fullBitRate errorBitRate (2 ^ k) s).1.output.data =
      s.output.data ++ [224, diffShortPacked fullBitRate errorBitRate (2 ^ k) % 256,
        diffShortPacked fullBitRate errorBitRate (2 ^ k) / 256] ∧
    diffShortPacked fullBitRate errorBitRate (2 ^ k) < 65536 ∧
    diffShortPacked fullBitRate errorBitRate (2 ^ k) / 4096 % 16 = fullBitRate - 1 ∧
    diffShortPacked fullBitRate errorBitRate (2 ^ k) / 256 % 16 = errorBitRate - 1 ∧
    diffShortPacked fullBitRate errorBitRate (2 ^ k) % 256 = k ∧
    (writeDiffHeader fullBitRate errorBitRate (2 ^ k) s).1.numBytesWritten
      = s.numBytesWritten + 3 := by
  have hk2 := two_pow_le_exponent k (le_trans hk hB)
  have hv := diffShortPacked_value fullBitRate errorBitRate k hf1 hf he1 he (by omega)
  refine ⟨writeDiffHeader_reliable _ _ _ s hs, ?_, by omega, by omega, by omega, by omega,
    (writeDiffHeader_counts _ _ _ s hs).1⟩
  rw [writeDiffHeader_data, if_pos (hs _), if_pos (hs _), shortBytes_natCast _ (by omega)]

/-- The statement of C12 for the bit rates 8 and 3 and a cycle of 16 samples:
the bytes 0xE0, 4 and 0x72. -/
theorem diff_header_layout_witness :
    (writeDiffHeader ((8 : Nat) : Int) ((3 : Nat) : Int) (2 ^ 4)
        (freshEncoder (specHelpers 32) reliableStream)).1.output.data
      = (freshEncoder (specHelpers 32) reliableStream).output.data
        ++ [224, diffShortPacked ((8 : Nat) : Int) ((3 : Nat) : Int) (2 ^ 4) % 256,
          diffShortPacked ((8 : Nat) : Int) ((3 : Nat) : Int) (2 ^ 4) / 256] ∧
    diffShortPacked ((8 : Nat) : Int) ((3 : Nat) : Int) (2 ^ 4) = 0x7204 :=
  ⟨(diff_header_layout (specHelpers 32) 8 3 4 (freshEncoder (specHelpers 32) reliableStream)
      (fun _ => rfl) (by decide) (by decide) (by decide) (by decide) (by decide) (by decide)).2.1,
    by decide⟩

/-! ### The counters of uncompressed bytes and of deltas -/

theorem writeCycleHeader_totals (isTemplate : Bool) (bitDepth : Nat) (numSamples : Int)
    (s : HlacEncoder) :
    (writeCycleHeader isTemplate bitDepth numSamples s).1.numBytesUncompressed
      = s.numBytesUncompressed ∧
    (writeCycleHeader isTemplate bitDepth numSamples s).1.numDeltas = s.numDeltas := by
  unfold writeCycleHeader
  dsimp only
  split <;> exact ⟨rfl, rfl⟩

theorem writeDiffHeader_totals (fullBitRate errorBitRate : Int) (blockSize : Nat)
    (s : HlacEncoder) :
    (writeDiffHeader fullBitRate errorBitRate blockSize s).1.numBytesUncompressed
      = s.numBytesUncompressed := by
  unfold writeDiffHeader
  dsimp only
  split <;> rfl

theorem writePayloadChecked_totals (n : Nat) (bytes : List Nat) (s : HlacEncoder) :
    (writePayloadChecked n bytes s).1.numBytesUncompressed = s.numBytesUncompressed := by
  unfold writePayloadChecked
  dsimp only
  split <;> rfl

/-- `encodeCycle` touches neither `numBytesUncompressed` nor `numDeltas`. -/
theorem encodeCycle_totals (cycle : List Int) (s : HlacEncoder) :
    (encodeCycle h cycle s).1.numBytesUncompressed = s.numBytesUncompressed ∧
    (encodeCycle h cycle s).1.numDeltas = s.numDeltas := by
  have t1 := writeCycleHeader_totals true
    (h.getSuitableCompressorForData cycle).allowedBitRange cycle.length (countTemplate s)
  unfold encodeCycle
  split
  · exact ⟨rfl, rfl⟩
  · dsimp only
    split
    · exact t1
    · split
      · exact t1
      · exact t1

theorem encodeCycleDelta_totals (cycle : List Int) (s : HlacEncoder) :
    (encodeCycleDelta h cycle s).1.numBytesUncompressed = s.numBytesUncompressed := by
  have t1 := (writeCycleHeader_totals false
    (h.getSuitableCompressorForData (sub cycle s.currentCycle cycle.length)).allowedBitRange
    cycle.length (countDelta s)).1
  unfold encodeCycleDelta
  split
  · exact (encodeCycle_totals h cycle s).1
  · dsimp only
    split
    · exact t1
    · exact t1

theorem encodeDiff_totals (cycle : List Int) (s : HlacEncoder) :
    (encodeDiff h cycle s).1.numBytesUncompressed = s.numBytesUncompressed := by
  have t1 := writeDiffHeader_totals
    (h.getSuitableCompressorForData (h.createBufferWithFullValues cycle)).allowedBitRange
    (h.getSuitableCompressorForData
      (h.createBufferWithErrorValues cycle (h.createBufferWithFullValues cycle))).allowedBitRange
    cycle.length s
  unfold encodeDiff
  dsimp only
  split
  · exact t1
  · split
    · rw [writePayloadChecked_totals]
      exact t1
    · rw [writePayloadChecked_totals, writePayloadChecked_totals]
      exact t1

/-! ### The whole-block shortcut and short cycles -/

/-- The whole-block shortcut of `encodeBlock`. -/
theorem encodeBlock_shortcut (fuel : Nat) (block16 : List Int) (s : HlacEncoder)
    (hs : s.output.reliable) (hB0 : 0 < h.COMPRESSION_BLOCK_SIZE)
    (hB : h.COMPRESSION_BLOCK_SIZE ≤ 32767)
    (hlen : block16.length = h.COMPRESSION_BLOCK_SIZE)
    (hdepth : (h.getPossibleBitReductionAmount block16 : Int) ≤ options.bitRateForWholeBlock) :
    encodeBlock h options fuel block16 s = some (encodeCycle h block16 (startBlock h s)) ∧
    (encodeCycle h block16 (startBlock h s)).2 = true ∧
    (encodeCycle h block16 (startBlock h s)).1.emitted
      = s.emitted ++ [Emitted.template block16] ∧
    (encodeCycle h block16 (startBlock h s)).1.output.data =
      s.output.data
        ++ [cycleHeaderByte true (h.getSuitableCompressorForData block16).allowedBitRange,
            h.COMPRESSION_BLOCK_SIZE % 256, h.COMPRESSION_BLOCK_SIZE / 256]
        ++ memoryBlock ((h.getSuitableCompressorForData block16).getByteAmount
            h.COMPRESSION_BLOCK_SIZE)
          ((h.getSuitableCompressorForData block16).compress block16) ∧
    (encodeCycle h block16 (startBlock h s)).1.numBytesUncompressed
      = s.numBytesUncompressed + 2 * h.COMPRESSION_BLOCK_SIZE ∧
    (encodeCycle h block16 (startBlock h s)).1.numDeltas = s.numDeltas := by
  have hne : block16 ≠ [] := by
    intro h0
    rw [h0] at hlen
    simp at hlen
    omega
  have hlen0 : block16.length ≠ 0 := by omega
  have hs2 : (startBlock h s).output.reliable := hs
  have e := encodeCycle_reliable h block16 (startBlock h s) hs2
  have d := encodeCycle_data h block16 (startBlock h s) hs2 hne
  have t := encodeCycle_totals h block16 (startBlock h s)
  refine ⟨?_, e.1, ?_, ?_, ?_, ?_⟩
  · unfold encodeBlock
    dsimp only
    rw [if_pos hdepth]
  · rw [e.2]
    unfold templateEntry
    rw [if_neg hlen0]
    rfl
  · rw [d, hlen, shortBytes_natCast _ (by omega)]
    rfl
  · rw [t.1]
    show s.numBytesUncompressed + h.COMPRESSION_BLOCK_SIZE * 2 = _
    omega
  · rw [t.2]
    rfl

/-- C13: for a block of `BLOCK` samples whose bit depth is at most
`bitRateForWholeBlock`, `encodeBlock` is one `encodeCycle` of the whole block,
whatever the fuel (no loop is entered, so no periodicity search, no delta and
no diff): on a stream whose writes all succeed it emits one template header
that declares `BLOCK` samples and then the packed samples of the whole block,
and it adds `2 * BLOCK` to `numBytesUncompressed`. -/
theorem whole_block_shortcut (fuel : Nat) (block16 : List Int) (s : HlacEncoder)
    (hs : s.output.reliable) (hB0 : 0 < h.COMPRESSION_BLOCK_SIZE)
    (hB : h.COMPRESSION_BLOCK_SIZE ≤ 32767)
    (hlen : block16.length = h.COMPRESSION_BLOCK_SIZE)
    (hdepth : (h.getPossibleBitReductionAmount block16 : Int) ≤ options.bitRateForWholeBlock) :
    encodeBlock h options fuel block16 s = some (encodeCycle h block16 (startBlock h s)) ∧
    (encodeCycle h block16 (startBlock h s)).2 = true ∧
    (encodeCycle h block16 (startBlock h s)).1.emitted
      = s.emitted ++ [Emitted.template block16] ∧
    (encodeCycle h block16 (startBlock h s)).1.output.data =
      s.output.data
        ++ [cycleHeaderByte true (h.getSuitableCompressorForData block16).allowedBitRange,
            h.COMPRESSION_BLOCK_SIZE % 256, h.COMPRESSION_BLOCK_SIZE / 256]
        ++ memoryBlock ((h.getSuitableCompressorForData block16).getByteAmount
            h.COMPRESSION_BLOCK_SIZE)
          ((h.getSuitableCompressorForData block16).compress block16) ∧
    (encodeCycle h block16 (startBlock h s)).1.numBytesUncompressed
      = s.numBytesUncompressed + 2 * h.COMPRESSION_BLOCK_SIZE ∧
    (encodeCycle h block16 (startBlock h s)).1.numDeltas = s.numDeltas :=
  encodeBlock_shortcut h options fuel block16 s hs hB0 hB hlen hdepth

/-- The statement of C13 for a block of 8 samples of bit depth 8, without fuel. -/
theorem whole_block_shortcut_witness :
    encodeBlock (specHelpers 8) wholeBlockOptions 0 cycleX
        (freshEncoder (specHelpers 8) reliableStream)
      = some (encodeCycle (specHelpers 8) cycleX
          (startBlock (specHelpers 8) (freshEncoder (specHelpers 8) reliableStream))) ∧
    (encodeCycle (specHelpers 8) cycleX
        (startBlock (specHelpers 8) (freshEncoder (specHelpers 8) reliableStream))).1.emitted
      = (freshEncoder (specHelpers 8) reliableStream).emitted ++ [Emitted.template cycleX] ∧
    (encodeCycle (specHelpers 8) cycleX
        (startBlock (specHelpers 8)
          (freshEncoder (specHelpers 8) reliableStream))).1.numBytesUncompressed
      = (freshEncoder (specHelpers 8) reliableStream).numBytesUncompressed + 2 * 8 :=
  ⟨(whole_block_shortcut (specHelpers 8) wholeBlockOptions 0 cycleX
      (freshEncoder (specHelpers 8) reliableStream) (fun _ => rfl) (by decide) (by decide)
      (by decide) (by decide)).1,
    (whole_block_shortcut (specHelpers 8) wholeBlockOptions 0 cycleX
      (freshEncoder (specHelpers 8) reliableStream) (fun _ => rfl) (by decide) (by decide)
      (by decide) (by decide)).2.2.1,
    (whole_block_shortcut (specHelpers 8) wholeBlockOptions 0 cycleX
      (freshEncoder (specHelpers 8) reliableStream) (fun _ => rfl) (by decide) (by decide)
      (by decide) (by decide)).2.2.2.2.1⟩

/-- C14: for a cycle of 7 or fewer samples `encodeCycleDelta` is `encodeCycle`:
it returns its result, leaves `numDeltas` unchanged, records nothing or the
cycle as a template, and on a stream whose writes all succeed it writes a
template header and the payload packed from the samples themselves. -/
theorem short_cycle_is_never_a_delta (cycle : List Int) (s : HlacEncoder)
    (hlen : cycle.length ≤ 7) :
    encodeCycleDelta h cycle s = encodeCycle h cycle s ∧
    (encodeCycleDelta h cycle s).1.numDeltas = s.numDeltas ∧
    ((encodeCycleDelta h cycle s).1.emitted = s.emitted ∨
      (encodeCycleDelta h cycle s).1.emitted = s.emitted ++ templateEntry cycle) ∧
    (s.output.reliable → cycle ≠ [] →
      (encodeCycleDelta h cycle s).1.emitted = s.emitted ++ [Emitted.template cycle] ∧
      (encodeCycleDelta h cycle s).1.output.data =
        s.output.data
          ++ cycleHeaderByte true (h.getSuitableCompressorForData cycle).allowedBitRange
            :: shortBytes cycle.length
          ++ memoryBlock ((h.getSuitableCompressorForData cycle).getByteAmount cycle.length)
            ((h.getSuitableCompressorForData cycle).compress cycle)) := by
  have heq : encodeCycleDelta h cycle s = encodeCycle h cycle s := by
    unfold encodeCycleDelta
    rw [if_pos (by omega)]
  rw [heq]
  refine ⟨rfl, (encodeCycle_totals h cycle s).2, encodeCycle_emitted h cycle s, ?_⟩
  intro hs hne
  have hlen0 : cycle.length ≠ 0 := by
    intro h0
    exact hne (List.length_eq_zero.mp h0)
  refine ⟨?_, encodeCycle_data h cycle s hs hne⟩
  rw [(encodeCycle_reliable h cycle s hs).2]
  unfold templateEntry
  rw [if_neg hlen0]

/-- The statement of C14 for a cycle of 3 samples. -/
theorem short_cycle_is_never_a_delta_witness :
    encodeCycleDelta (specHelpers 8) [5, 6, 7] (freshEncoder (specHelpers 8) reliableStream)
      = encodeCycle (specHelpers 8) [5, 6, 7] (freshEncoder (specHelpers 8) reliableStream) ∧
    (encodeCycleDelta (specHelpers 8) [5, 6, 7]
        (freshEncoder (specHelpers 8) reliableStream)).1.emitted
      = (freshEncoder (specHelpers 8) reliableStream).emitted ++ [Emitted.template [5, 6, 7]] :=
  ⟨(short_cycle_is_never_a_delta (specHelpers 8) [5, 6, 7]
      (freshEncoder (specHelpers 8) reliableStream) (by decide)).1,
    ((short_cycle_is_never_a_delta (specHelpers 8) [5, 6, 7]
      (freshEncoder (specHelpers 8) reliableStream) (by decide)).2.2.2
        (fun _ => rfl) (by decide)).1⟩

/-! ### What `writeCycleHeader` checks -/

theorem writeCycleHeader_result (isTemplate : Bool) (bitDepth : Nat) (numSamples : Int)
    (s : HlacEncoder) :
    (writeCycleHeader isTemplate bitDepth numSamples s).2
      = (s.output.ok s.output.attempts && s.output.ok (s.output.attempts + 1)) := by
  unfold writeCycleHeader OutputStream.writeByte OutputStream.writeShort
  simp only [write_result]
  by_cases h1 : s.output.ok s.output.attempts = true
  · simp only [h1, Bool.true_eq_false, if_false, write_ok, write_attempts, Bool.true_and]
  · simp only [Bool.not_eq_true] at h1
    simp [h1]

/-- C20, the claim at an explicit input (block size 8, a stream whose writes
succeed): called with a sample count of 9, greater than `BLOCK`,
`writeCycleHeader` returns `true` and writes the three header bytes. -/
theorem writeCycleHeader_accepts_long_count :
    ((specHelpers 8).COMPRESSION_BLOCK_SIZE : Int) < 9 ∧
    (writeCycleHeader true 8 9 (freshEncoder (specHelpers 8) reliableStream)).2 = true ∧
    (writeCycleHeader true 8 9 (freshEncoder (specHelpers 8) reliableStream)).1.output.data
      = [15, 9, 0] := by
  decide

/-- C20 as amended: `writeCycleHeader` validates nothing itself. Its result
is `false` exactly when one of its two writes fails, whatever the bit depth and
the sample count (a count greater than `BLOCK` included); it writes the header
byte when the first write succeeds and the low 16 bits of the count when the
second does; and the header byte it computes is never the diff sentinel. -/
theorem writeCycleHeader_fails_only_on_failed_write (isTemplate : Bool) (bitDepth : Nat)
    (numSamples : Int) (s : HlacEncoder) :
    (writeCycleHeader isTemplate bitDepth numSamples s).2
      = (s.output.ok s.output.attempts && s.output.ok (s.output.attempts + 1)) ∧
    (writeCycleHeader isTemplate bitDepth numSamples s).1.output.data =
      s.output.data ++
        (if s.output.ok s.output.attempts = true then
          cycleHeaderByte isTemplate bitDepth % 256 ::
            (if s.output.ok (s.output.attempts + 1) = true then shortBytes numSamples else [])
        else []) ∧
    cycleHeaderByte isTemplate bitDepth ≠ 0xE0 := by
  have hlt := cycleHeaderByte_lt isTemplate bitDepth
  exact ⟨writeCycleHeader_result _ _ _ s, writeCycleHeader_data _ _ _ s, by omega⟩

/-! ### A silent block -/

theorem getPart_all (b : List Int) (n : Nat) (hn : b.length = n) : getPart b 0 n = b := by
  unfold getPart
  rw [List.drop_zero, ← hn, List.take_length]

theorem bitDepthOf_replicate_zero (n : Nat) : bitDepthOf (List.replicate n 0) = 0 := by
  induction n with
  | zero => rfl
  | succ n ih =>
    rw [List.replicate_succ]
    unfold bitDepthOf at ih ⊢
    rw [List.foldr_cons, ih]
    rfl

/-- One silent block, for helpers that report bit depth 0 and an empty payload for it. -/
theorem compress_silent_block (fuel blockFuel : Nat) (out : OutputStream)
    (hr : out.reliable) (hopt : 0 ≤ options.bitRateForWholeBlock)
    (hB0 : 0 < h.COMPRESSION_BLOCK_SIZE) (hB : h.COMPRESSION_BLOCK_SIZE ≤ 32767)
    (hdepth : h.getPossibleBitReductionAmount (List.replicate h.COMPRESSION_BLOCK_SIZE 0) = 0)
    (hrange : (h.getSuitableCompressorForData
      (List.replicate h.COMPRESSION_BLOCK_SIZE 0)).allowedBitRange = 0)
    (hbytes : (h.getSuitableCompressorForData
      (List.replicate h.COMPRESSION_BLOCK_SIZE 0)).getByteAmount h.COMPRESSION_BLOCK_SIZE = 0) :
    SilentBlockOutcome h options fuel blockFuel out := by
  have hlen : (List.replicate h.COMPRESSION_BLOCK_SIZE (0 : Int)).length
      = h.COMPRESSION_BLOCK_SIZE := List.length_replicate _ _
  have hs : (storeBlockOffset (freshEncoder h out)).output.reliable := hr
  obtain ⟨e1, e2, e3, e4, e5, _⟩ := encodeBlock_shortcut h options blockFuel
    (List.replicate h.COMPRESSION_BLOCK_SIZE 0) (storeBlockOffset (freshEncoder h out)) hs hB0 hB
    hlen (by rw [hdepth]; exact hopt)
  have f := encodeBlock_frame h options _ _ _ _ e1
  refine ⟨(encodeCycle h (List.replicate h.COMPRESSION_BLOCK_SIZE 0)
    (startBlock h (storeBlockOffset (freshEncoder h out)))).1, ?_, ?_, e3, ?_, ?_, ?_⟩
  · unfold compress
    rw [if_pos rfl]
    unfold encodeBlocks
    have hch : ¬ ([List.replicate h.COMPRESSION_BLOCK_SIZE (0 : Int)]).length = 2 := by simp
    rw [if_neg hch]
    have hpart : getPart (AudioSampleBuffer.channel
        { numSamples := h.COMPRESSION_BLOCK_SIZE,
          channels := [List.replicate h.COMPRESSION_BLOCK_SIZE 0] } 0) 0
        h.COMPRESSION_BLOCK_SIZE = List.replicate h.COMPRESSION_BLOCK_SIZE 0 :=
      getPart_all _ _ hlen
    rw [hpart, e1]
  · rw [e4, hrange, hbytes]
    simp only [memoryBlock, List.take_zero, List.append_nil]
    rfl
  · rw [f.blockOffsetData]
    rfl
  · have hb := f.bytes hs
    rw [e4, hrange, hbytes] at hb
    simp only [memoryBlock, List.take_zero, List.append_nil, List.length_append,
      List.length_cons, List.length_nil] at hb
    have h0 : (storeBlockOffset (freshEncoder h out)).numBytesWritten = 0 := rfl
    rw [h0] at hb
    omega
  · rw [e5]
    show 0 + 2 * h.COMPRESSION_BLOCK_SIZE = _
    omega

/-- C16: an all-zero mono buffer of exactly `BLOCK` samples, compressed on a
freshly reset encoder with `bitRateForWholeBlock ≥ 0` to a stream whose
writes succeed, gives one template cycle with the shorthand header of bit
depth 0 and no payload: the three bytes 1 and `BLOCK` (low byte first), the
table entry 0, `numBytesWritten = 3` and `numBytesUncompressed = 2 * BLOCK`.
This holds for all helpers that report bit depth 0 and an empty payload for
the silent block, and so for the helpers modelled from the specification. -/
theorem silent_block_is_three_bytes (fuel blockFuel : Nat) (out : OutputStream)
    (hr : out.reliable) (hopt : 0 ≤ options.bitRateForWholeBlock) :
    (0 < h.COMPRESSION_BLOCK_SIZE → h.COMPRESSION_BLOCK_SIZE ≤ 32767 →
      h.getPossibleBitReductionAmount (List.replicate h.COMPRESSION_BLOCK_SIZE 0) = 0 →
      (h.getSuitableCompressorForData
        (List.replicate h.COMPRESSION_BLOCK_SIZE 0)).allowedBitRange = 0 →
      (h.getSuitableCompressorForData
        (List.replicate h.COMPRESSION_BLOCK_SIZE 0)).getByteAmount h.COMPRESSION_BLOCK_SIZE = 0 →
      SilentBlockOutcome h options fuel blockFuel out) ∧
    (∀ block, 0 < block → block ≤ 32767 →
      SilentBlockOutcome (specHelpers block) options fuel blockFuel out) := by
  constructor
  · intro hB0 hB hdepth hrange hbytes
    exact compress_silent_block h options fuel blockFuel out hr hopt hB0 hB hdepth hrange hbytes
  · intro block hB0 hB
    apply compress_silent_block (specHelpers block) options fuel blockFuel out hr hopt hB0 hB
    · exact bitDepthOf_replicate_zero block
    · exact bitDepthOf_replicate_zero block
    · show packedByteCount (bitDepthOf (List.replicate block 0)) block = 0
      rw [bitDepthOf_replicate_zero]
      unfold packedByteCount
      omega

/-- The statement of C16 for a block size of 8, without fuel. -/
theorem silent_block_is_three_bytes_witness :
    SilentBlockOutcome (specHelpers 8) plainOptions 0 0 reliableStream ∧
    SilentBlockOutcome (specHelpers 32) plainOptions 0 0 reliableStream :=
  ⟨(silent_block_is_three_bytes (specHelpers 8) plainOptions 0 0 reliableStream
      (fun _ => rfl) (by decide)).1 (by decide) (by decide) (by decide) (by decide) (by decide),
    (silent_block_is_three_bytes (specHelpers 8) plainOptions 0 0 reliableStream
      (fun _ => rfl) (by decide)).2 32 (by decide) (by decide)⟩

/-! ### The counter of uncompressed bytes along `compress` -/

theorem deltaLoop_totals (fuel : Nat) (block16 : List Int) (rest : Nat) (cycleLength : Nat) :
    ∀ (numRemaining : Nat) (s t : HlacEncoder),
      deltaLoop h options fuel block16 rest cycleLength numRemaining s = some t →
      t.numBytesUncompressed = s.numBytesUncompressed := by
  induction fuel with
  | zero =>
    intro numRemaining s t ht
    simp [deltaLoop] at ht
  | succ fuel ih =>
    intro numRemaining s t ht
    unfold deltaLoop at ht
    dsimp only at ht
    split at ht
    · split at ht
      · split at ht
        · rw [ih _ _ _ ht, encodeCycleDelta_totals]
          rfl
        · cases ht
          rfl
      · cases ht
        rfl
    · cases ht
      rfl

theorem beginCycle_totals (rest : List Int) (s : HlacEncoder) :
    (beginCycle h options rest s).numBytesUncompressed = s.numBytesUncompressed := by
  show (rememberFirstCycleLength h options rest s).numBytesUncompressed = _
  unfold rememberFirstCycleLength
  split <;> rfl

theorem blockLoop_totals (fuel : Nat) (block16 : List Int) :
    ∀ (s : HlacEncoder) (r : HlacEncoder × Bool),
      blockLoop h options fuel block16 s = some r →
      r.1.numBytesUncompressed = s.numBytesUncompressed := by
  induction fuel with
  | zero =>
    intro s r hr
    simp [blockLoop] at hr
  | succ fuel ih =>
    intro s r hr
    unfold blockLoop at hr
    dsimp only at hr
    split at hr
    · cases hr
      rfl
    · split at hr
      · split at hr
        · cases hr
          exact encodeCycleDelta_totals h _ _
        · rw [ih _ _ hr]
          exact encodeCycleDelta_totals h _ _
      · have hb := beginCycle_totals h options
          (getPart block16 s.indexInBlock (h.COMPRESSION_BLOCK_SIZE - s.indexInBlock)) s
        split at hr
        · split at hr
          · rw [ih _ _ hr, (encodeCycle_totals h _ _).1, hb]
          · rw [ih _ _ hr, encodeDiff_totals, hb]
        · split at hr
          · cases hr
            rw [(encodeCycle_totals h _ _).1, hb]
          · split at hr
            · cases hr
            next s4 hd =>
              rw [ih _ _ hr, deltaLoop_totals h options _ _ _ _ _ _ _ hd,
                (encodeCycle_totals h _ _).1, hb]

/-- Every `encodeBlock` adds `2 * BLOCK` to `numBytesUncompressed`. -/
theorem encodeBlock_totals (fuel : Nat) (block16 : List Int) (s : HlacEncoder)
    (r : HlacEncoder × Bool) (hr : encodeBlock h options fuel block16 s = some r) :
    r.1.numBytesUncompressed = s.numBytesUncompressed + 2 * h.COMPRESSION_BLOCK_SIZE := by
  have h0 : (startBlock h s).numBytesUncompressed
      = s.numBytesUncompressed + 2 * h.COMPRESSION_BLOCK_SIZE := by
    show s.numBytesUncompressed + h.COMPRESSION_BLOCK_SIZE * 2 = _
    omega
  unfold encodeBlock at hr
  dsimp only at hr
  split at hr
  · cases hr
    rw [(encodeCycle_totals h _ _).1, h0]
  · rw [blockLoop_totals h options _ _ _ _ hr, h0]

/-- `encodeLastBlock` leaves `numBytesUncompressed` as it is. -/
theorem encodeLastBlock_totals (a : List Int) (s : HlacEncoder) :
    (encodeLastBlock h a s).numBytesUncompressed = s.numBytesUncompressed := by
  unfold encodeLastBlock
  dsimp only
  split
  · rw [(writeCycleHeader_totals _ _ _ _).1, (encodeCycle_totals h a s).1]
  · show (writeCycleHeader true 0 _ (encodeCycle h a s).1).1.numBytesUncompressed = _
    rw [(writeCycleHeader_totals _ _ _ _).1, (encodeCycle_totals h a s).1]

theorem encodeBlocks_totals (fuel : Nat) (source : AudioSampleBuffer) (offset size : Nat)
    (s t : HlacEncoder) (ht : encodeBlocks h options fuel source offset size s = some t) :
    t.numBytesUncompressed
      = s.numBytesUncompressed + 2 * h.COMPRESSION_BLOCK_SIZE * encodedChannels source := by
  unfold encodeBlocks at ht
  unfold encodedChannels
  split at ht
  next hc =>
    rw [if_pos hc]
    split at ht
    · cases ht
    next l hl =>
      split at ht
      · cases ht
      next r hr =>
        cases ht
        rw [encodeBlock_totals h options _ _ _ _ hr, encodeBlock_totals h options _ _ _ _ hl]
        omega
  next hc =>
    rw [if_neg hc]
    split at ht
    · cases ht
    next b hb =>
      cases ht
      rw [encodeBlock_totals h options _ _ _ _ hb]
      omega

theorem encodeLastBlocks_totals (source : AudioSampleBuffer) (offset size : Nat)
    (s : HlacEncoder) :
    (encodeLastBlocks h source offset size s).numBytesUncompressed = s.numBytesUncompressed := by
  unfold encodeLastBlocks
  split
  · rw [encodeLastBlock_totals, encodeLastBlock_totals]
  · rw [encodeLastBlock_totals]

theorem compressLoop_totals (hB : 0 < h.COMPRESSION_BLOCK_SIZE) (blockFuel : Nat)
    (source : AudioSampleBuffer) (fuel : Nat) :
    ∀ (n : Nat) (s t : HlacEncoder), n ≤ source.numSamples →
      compressLoop h options fuel blockFuel source (n : Int) s = some t →
      t.numBytesUncompressed = s.numBytesUncompressed
        + 2 * h.COMPRESSION_BLOCK_SIZE * encodedChannels source
          * (n / h.COMPRESSION_BLOCK_SIZE) := by
  induction fuel with
  | zero =>
    intro n s t _ ht
    simp [compressLoop] at ht
  | succ fuel ih =>
    intro n s t hn ht
    unfold compressLoop at ht
    dsimp only at ht
    split at ht
    next hle =>
      have hle2 : h.COMPRESSION_BLOCK_SIZE ≤ n := by exact_mod_cast hle
      split at ht
      · cases ht
      next s2 h2 =>
        have e2 := encodeBlocks_totals h options _ _ _ _ _ _ h2
        have hmin : min h.COMPRESSION_BLOCK_SIZE source.numSamples = h.COMPRESSION_BLOCK_SIZE :=
          Nat.min_eq_left (le_trans hle2 hn)
        rw [hmin] at ht
        have hcast : ((n : Int) - (h.COMPRESSION_BLOCK_SIZE : Int))
            = ((n - h.COMPRESSION_BLOCK_SIZE : Nat) : Int) := by omega
        rw [hcast] at ht
        have i := ih (n - h.COMPRESSION_BLOCK_SIZE) _ t (by omega) ht
        have hdiv : n / h.COMPRESSION_BLOCK_SIZE
            = (n - h.COMPRESSION_BLOCK_SIZE) / h.COMPRESSION_BLOCK_SIZE + 1 := by
          rw [Nat.div_eq_sub_div hB hle2]
        have hs2 : (advanceBlockOffset h.COMPRESSION_BLOCK_SIZE s2).numBytesUncompressed
            = s2.numBytesUncompressed := rfl
        have hs1 : (storeBlockOffset s).numBytesUncompressed = s.numBytesUncompressed := rfl
        rw [i, hs2, e2, hs1, hdiv, Nat.mul_add, Nat.mul_one]
        omega
    next hlt =>
      have hlt2 : n < h.COMPRESSION_BLOCK_SIZE := by
        have : ¬ (h.COMPRESSION_BLOCK_SIZE ≤ n) := by
          intro hc
          exact hlt (by exact_mod_cast hc)
        omega
      cases ht
      rw [Nat.div_eq_of_lt hlt2]
      omega

/-- What `compress` adds to `numBytesUncompressed`: `2 * BLOCK` for every whole
block of every encoded channel, and nothing for a final shorter block. -/
theorem compress_totals (hB : 0 < h.COMPRESSION_BLOCK_SIZE) (fuel blockFuel : Nat)
    (source : AudioSampleBuffer) (s t : HlacEncoder)
    (ht : compress h options fuel blockFuel source s = some t) :
    t.numBytesUncompressed = s.numBytesUncompressed
      + 2 * h.COMPRESSION_BLOCK_SIZE * encodedChannels source
        * (source.numSamples / h.COMPRESSION_BLOCK_SIZE) := by
  unfold compress at ht
  split at ht
  next hL =>
    rw [encodeBlocks_totals h options _ _ _ _ _ _ ht, hL, Nat.div_self hB, Nat.mul_one]
    rfl
  next hL =>
    split at ht
    · cases ht
    next s1 h1 =>
      have e1 := compressLoop_totals h options hB blockFuel source fuel source.numSamples _ s1
        le_rfl h1
      have h0 : (clearBlockOffset s).numBytesUncompressed = s.numBytesUncompressed := rfl
      rw [h0] at e1
      split at ht
      · cases ht
        rw [encodeLastBlocks_totals]
        exact e1
      · cases ht
        exact e1

/-- C17, the code at a failing input (block size 8, eleven mono samples on a
freshly reset encoder): 11 samples are processed, 22 bytes uncompressed, and
`numBytesUncompressed` is 16: the three samples of the final block, which
`encodeLastBlock` encodes, are not counted. -/
theorem last_block_is_not_counted :
    (monoBuffer (cycleX ++ [5, 6, 7])).numSamples = 11 ∧
    (compress (specHelpers 8) plainOptions 3 12 (monoBuffer (cycleX ++ [5, 6, 7]))
        (freshEncoder (specHelpers 8) reliableStream)).map
      (fun t => (t.numBytesUncompressed, t.emitted))
      = some (16, [Emitted.template [100, -50, 3, 7], Emitted.template [0, -1, 25, 60],
          Emitted.template [5, 6, 7], Emitted.padding 5]) ∧
    (16 : Nat) ≠ 2 * 11 := by
  decide

/-! ### The cost test of the diff mode -/

theorem beginCycle_bitRate (rest : List Int) (s : HlacEncoder) :
    (beginCycle h options rest s).bitRateForCurrentCycle
      = h.getPossibleBitReductionAmount (getPart rest 0 (chosenCycleLength h options rest s)) :=
  rfl

theorem write_alike (p p' : List Nat) (o o' : OutputStream) (bytes : List Nat)
    (hf : SameFuture o o') (hw : ∃ x, o.data = p ++ x ∧ o'.data = p' ++ x) :
    (o'.write bytes).2 = (o.write bytes).2 ∧
    SameFuture (o.write bytes).1 (o'.write bytes).1 ∧
    ∃ y, (o.write bytes).1.data = p ++ y ∧ (o'.write bytes).1.data = p' ++ y := by
  obtain ⟨x, hx, hx'⟩ := hw
  have h0 : o.ok o.attempts = o'.ok o'.attempts := by
    have := hf 0
    simpa using this
  refine ⟨by rw [write_result, write_result, h0], ?_, ?_⟩
  · intro i
    rw [write_ok, write_ok, write_attempts, write_attempts]
    have := hf (i + 1)
    have e1 : o.attempts + 1 + i = o.attempts + (i + 1) := by omega
    have e2 : o'.attempts + 1 + i = o'.attempts + (i + 1) := by omega
    rw [e1, e2]
    exact this
  · rw [write_data, write_data, ← h0]
    split
    · exact ⟨x ++ bytes, by rw [hx, List.append_assoc], by rw [hx', List.append_assoc]⟩
    · exact ⟨x, hx, hx'⟩

/-- A step that touches neither the stream nor the byte counter. -/
theorem Alike.of_untouched {p p' : List Nat} {d : Int} {s s' t t' : HlacEncoder}
    (a : Alike p p' d s s') (ho : t.output = s.output) (ho' : t'.output = s'.output)
    (hn : t.numBytesWritten = s.numBytesWritten)
    (hn' : t'.numBytesWritten = s'.numBytesWritten) : Alike p p' d t t' where
  future := by
    rw [ho, ho']
    exact a.future
  written := by
    rw [ho, ho']
    exact a.written
  counter := by
    rw [hn, hn']
    exact a.counter

theorem writeCycleHeader_alike {p p' : List Nat} {d : Int} {s s' : HlacEncoder}
    (a : Alike p p' d s s') (isTemplate : Bool) (bitDepth : Nat) (numSamples : Int) :
    Alike p p' d (writeCycleHeader isTemplate bitDepth numSamples s).1
      (writeCycleHeader isTemplate bitDepth numSamples s').1 ∧
    (writeCycleHeader isTemplate bitDepth numSamples s').2
      = (writeCycleHeader isTemplate bitDepth numSamples s).2 := by
  obtain ⟨w1, w2, w3⟩ := write_alike p p' s.output s'.output
    [cycleHeaderByte isTemplate bitDepth % 256] a.future a.written
  obtain ⟨v1, v2, v3⟩ := write_alike p p' _ _ (shortBytes numSamples) w2 w3
  have hc := a.counter
  unfold writeCycleHeader OutputStream.writeByte OutputStream.writeShort
  dsimp only
  rw [w1]
  split
  · exact ⟨⟨w2, w3, hc⟩, rfl⟩
  · refine ⟨⟨v2, v3, ?_⟩, v1⟩
    show ((s'.numBytesWritten + 3 : Nat) : Int) = ((s.numBytesWritten + 3 : Nat) : Int) + d
    push_cast
    omega

theorem writeDiffHeader_alike {p p' : List Nat} {d : Int} {s s' : HlacEncoder}
    (a : Alike p p' d s s') (fullBitRate errorBitRate : Int) (blockSize : Nat) :
    Alike p p' d (writeDiffHeader fullBitRate errorBitRate blockSize s).1
      (writeDiffHeader fullBitRate errorBitRate blockSize s').1 ∧
    (writeDiffHeader fullBitRate errorBitRate blockSize s').2
      = (writeDiffHeader fullBitRate errorBitRate blockSize s).2 := by
  obtain ⟨w1, w2, w3⟩ := write_alike p p' s.output s'.output [224 % 256] a.future a.written
  obtain ⟨_, v2, v3⟩ := write_alike p p' _ _
    (shortBytes (diffShortPacked fullBitRate errorBitRate blockSize : Nat)) w2 w3
  have hc := a.counter
  unfold writeDiffHeader OutputStream.writeByte OutputStream.writeShort
  dsimp only
  rw [w1]
  split
  · exact ⟨⟨w2, w3, hc⟩, rfl⟩
  · refine ⟨⟨v2, v3, ?_⟩, rfl⟩
    show ((s'.numBytesWritten + 3 : Nat) : Int) = ((s.numBytesWritten + 3 : Nat) : Int) + d
    push_cast
    omega

theorem writePayload_alike {p p' : List Nat} {d : Int} {s s' : HlacEncoder}
    (a : Alike p p' d s s') (n : Nat) (bytes : List Nat) :
    Alike p p' d (writePayload n bytes s).1 (writePayload n bytes s').1 ∧
    (writePayload n bytes s').2 = (writePayload n bytes s).2 := by
  obtain ⟨w1, w2, w3⟩ := write_alike p p' s.output s'.output (memoryBlock n bytes)
    a.future a.written
  have hc := a.counter
  refine ⟨⟨w2, w3, ?_⟩, w1⟩
  show ((s'.numBytesWritten + n : Nat) : Int) = ((s.numBytesWritten + n : Nat) : Int) + d
  push_cast
  omega

theorem writePayloadChecked_alike {p p' : List Nat} {d : Int} {s s' : HlacEncoder}
    (a : Alike p p' d s s') (n : Nat) (bytes : List Nat) :
    Alike p p' d (writePayloadChecked n bytes s).1 (writePayloadChecked n bytes s').1 ∧
    (writePayloadChecked n bytes s').2 = (writePayloadChecked n bytes s).2 := by
  obtain ⟨w1, w2, w3⟩ := write_alike p p' s.output s'.output (memoryBlock n bytes)
    a.future a.written
  have hc := a.counter
  unfold writePayloadChecked
  dsimp only
  rw [w1]
  split
  · exact ⟨⟨w2, w3, hc⟩, rfl⟩
  · refine ⟨⟨w2, w3, ?_⟩, rfl⟩
    show ((s'.numBytesWritten + n : Nat) : Int) = ((s.numBytesWritten + n : Nat) : Int) + d
    push_cast
    omega

theorem Alike.noted {p p' : List Nat} {d : Int} {s s' : HlacEncoder}
    (a : Alike p p' d s s') (e e' : Emitted) :
    Alike p p' d (noteEmitted e s) (noteEmitted e' s') :=
  a.of_untouched rfl rfl rfl rfl

theorem encodeCycle_alike {p p' : List Nat} {d : Int} {s s' : HlacEncoder}
    (a : Alike p p' d s s') (cycle : List Int) :
    AlikeOut p p' d (encodeCycle h cycle s) (encodeCycle h cycle s') := by
  unfold encodeCycle
  split
  · exact ⟨a, rfl⟩
  · dsimp only
    obtain ⟨a1, e1⟩ := writeCycleHeader_alike
      (a.of_untouched rfl rfl rfl rfl : Alike p p' d (countTemplate s) (countTemplate s'))
      true (h.getSuitableCompressorForData cycle).allowedBitRange cycle.length
    rw [e1]
    split
    · exact ⟨a1, e1⟩
    · split
      · exact writePayload_alike (a1.noted _ _) _ _
      · exact ⟨a1.noted _ _, rfl⟩

theorem encodeCycleDelta_alike {p p' : List Nat} {d : Int} {s s' : HlacEncoder}
    (a : Alike p p' d s s') (nextCycle : List Int)
    (hc : 8 ≤ nextCycle.length → s'.currentCycle = s.currentCycle) :
    AlikeOut p p' d (encodeCycleDelta h nextCycle s) (encodeCycleDelta h nextCycle s') := by
  unfold encodeCycleDelta
  split
  · exact encodeCycle_alike h a nextCycle
  · dsimp only
    rw [hc (by omega)]
    obtain ⟨a1, e1⟩ := writeCycleHeader_alike
      (a.of_untouched rfl rfl rfl rfl : Alike p p' d (countDelta s) (countDelta s'))
      false (h.getSuitableCompressorForData
        (sub nextCycle s.currentCycle nextCycle.length)).allowedBitRange nextCycle.length
    rw [e1]
    split
    · exact ⟨a1, e1⟩
    · exact writePayload_alike (a1.noted _ _) _ _

theorem encodeDiff_alike {p p' : List Nat} {d : Int} {s s' : HlacEncoder}
    (a : Alike p p' d s s') (cycle : List Int) :
    AlikeOut p p' d (encodeDiff h cycle s) (encodeDiff h cycle s') := by
  unfold encodeDiff
  dsimp only
  obtain ⟨a1, e1⟩ := writeDiffHeader_alike a
    (h.getSuitableCompressorForData (h.createBufferWithFullValues cycle)).allowedBitRange
    (h.getSuitableCompressorForData
      (h.createBufferWithErrorValues cycle (h.createBufferWithFullValues cycle))).allowedBitRange
    cycle.length
  rw [e1]
  split
  · exact ⟨a1, e1⟩
  · obtain ⟨a2, e2⟩ := writePayloadChecked_alike
      (a1.noted (Emitted.diff cycle) (Emitted.diff cycle))
      ((h.getSuitableCompressorForData (h.createBufferWithFullValues cycle)).getByteAmount
        (h.getNumFullValues cycle.length))
      ((h.getSuitableCompressorForData (h.createBufferWithFullValues cycle)).compress
        (h.createBufferWithFullValues cycle))
    rw [e2]
    split
    · exact ⟨a2, e2⟩
    · exact writePayloadChecked_alike a2 _ _

theorem Alike.moved {p p' : List Nat} {d : Int} {s s' : HlacEncoder}
    (a : Alike p p' d s s') (n n' : Nat) : Alike p p' d (advance n s) (advance n' s') :=
  a.of_untouched rfl rfl rfl rfl

theorem SamePlace.placeMoved {s s' : HlacEncoder} (e : SamePlace s s') (n : Nat) :
    SamePlace (advance n s) (advance n s') := by
  refine ⟨?_, e.2⟩
  show s'.indexInBlock + n = s.indexInBlock + n
  rw [e.1]

theorem SameTemplate.templateMoved {s s' : HlacEncoder} (e : SameTemplate s s') (n n' : Nat) :
    SameTemplate (advance n s) (advance n' s') := e

theorem SamePlace.placeKept {s s' t t' : HlacEncoder} (e : SamePlace s s')
    (k : Keeps s t) (k' : Keeps s' t') : SamePlace t t' :=
  ⟨by rw [k'.indexInBlock, k.indexInBlock, e.1],
    by rw [k'.firstCycleLength, k.firstCycleLength, e.2]⟩

theorem SameTemplate.templateKept {s s' t t' : HlacEncoder} (e : SameTemplate s s')
    (k : Keeps s t) (k' : Keeps s' t') : SameTemplate t t' :=
  ⟨by rw [k'.currentCycle, k.currentCycle, e.1],
    by rw [k'.bitRateForCurrentCycle, k.bitRateForCurrentCycle, e.2]⟩

theorem isBlockExhausted_congr {s s' : HlacEncoder} (e : s'.indexInBlock = s.indexInBlock) :
    isBlockExhausted h s' = isBlockExhausted h s := by
  unfold isBlockExhausted
  rw [e]

theorem chosenCycleLength_congr (rest : List Int) {s s' : HlacEncoder} (e : SamePlace s s') :
    chosenCycleLength h options rest s' = chosenCycleLength h options rest s := by
  unfold chosenCycleLength idealCycleLength
  rw [e.1, e.2]

theorem rememberFirstCycleLength_untouched (rest : List Int) (s : HlacEncoder) :
    (rememberFirstCycleLength h options rest s).output = s.output ∧
    (rememberFirstCycleLength h options rest s).numBytesWritten = s.numBytesWritten := by
  unfold rememberFirstCycleLength
  split <;> exact ⟨rfl, rfl⟩

theorem rememberFirstCycleLength_congr (rest : List Int) {s s' : HlacEncoder}
    (e : SamePlace s s') :
    (rememberFirstCycleLength h options rest s').firstCycleLength
      = (rememberFirstCycleLength h options rest s).firstCycleLength := by
  unfold rememberFirstCycleLength idealCycleLength
  rw [e.2]
  by_cases hc : s.firstCycleLength < 0 ∧ options.reuseFirstCycleLengthForBlock = true
  · rw [if_pos hc, if_pos hc]
  · rw [if_neg hc, if_neg hc]
    exact e.2

theorem beginCycle_alike {p p' : List Nat} {d : Int} {s s' : HlacEncoder}
    (a : Alike p p' d s s') (e : SamePlace s s') (rest : List Int) :
    Alike p p' d (beginCycle h options rest s) (beginCycle h options rest s') ∧
    SamePlace (beginCycle h options rest s) (beginCycle h options rest s') ∧
    SameTemplate (beginCycle h options rest s) (beginCycle h options rest s') := by
  have hc := chosenCycleLength_congr h options rest e
  refine ⟨?_, ⟨?_, ?_⟩, ?_, ?_⟩
  · exact a.of_untouched (rememberFirstCycleLength_untouched h options rest s).1
      (rememberFirstCycleLength_untouched h options rest s').1
      (rememberFirstCycleLength_untouched h options rest s).2
      (rememberFirstCycleLength_untouched h options rest s').2
  · rw [beginCycle_indexInBlock, beginCycle_indexInBlock, hc, e.1]
  · exact rememberFirstCycleLength_congr h options rest e
  · rw [beginCycle_currentCycle, beginCycle_currentCycle, hc]
  · rw [beginCycle_bitRate, beginCycle_bitRate, hc]

theorem deltaLoop_alike {p p' : List Nat} {d : Int} (fuel : Nat) (block16 : List Int) (rest : Nat)
    (cycleLength : Nat) :
    ∀ (numRemaining : Nat) (s s' : HlacEncoder),
      Alike p p' d s s' → SamePlace s s' → SameTemplate s s' →
      BothOr (fun t t' => Alike p p' d t t' ∧ SamePlace t t')
        (deltaLoop h options fuel block16 rest cycleLength numRemaining s)
        (deltaLoop h options fuel block16 rest cycleLength numRemaining s') := by
  induction fuel with
  | zero =>
    intro numRemaining s s' _ _ _
    simp only [deltaLoop]
    exact True.intro
  | succ fuel ih =>
    intro numRemaining s s' a hp ht
    have e1 := isBlockExhausted_congr h hp.1
    have e5 := getCycleLengthFromTemplate_congr h options cycleLength block16 rest s s' ht.1
    have hi : (advance (getCycleLengthFromTemplate h options cycleLength block16 rest s) s').indexInBlock
        = (advance (getCycleLengthFromTemplate h options cycleLength block16 rest s) s).indexInBlock :=
      (hp.placeMoved _).1
    unfold deltaLoop
    dsimp only
    rw [e1, hp.1, ht.1, ht.2, e5, hi]
    split
    · split
      · split
        · apply ih
          · exact (encodeCycleDelta_alike h (a.moved _ _) _ (fun _ => ht.1)).1
          · exact (hp.placeMoved _).placeKept (encodeCycleDelta_keeps h _ _)
              (encodeCycleDelta_keeps h _ _)
          · exact (ht.templateMoved _ _).templateKept (encodeCycleDelta_keeps h _ _)
              (encodeCycleDelta_keeps h _ _)
        · exact ⟨a, hp⟩
      · exact ⟨a, hp⟩
    · exact ⟨a, hp⟩

theorem blockLoop_alike {p p' : List Nat} {d : Int} (fuel : Nat) (block16 : List Int) :
    ∀ (s s' : HlacEncoder), Alike p p' d s s' → SamePlace s s' →
      BothOr (AlikeOut p p' d) (blockLoop h options fuel block16 s)
        (blockLoop h options fuel block16 s') := by
  induction fuel with
  | zero =>
    intro s s' _ _
    simp only [blockLoop]
    exact True.intro
  | succ fuel ih =>
    intro s s' a hp
    obtain ⟨ab, pb, tb⟩ := beginCycle_alike h options a hp
      (getPart block16 s.indexInBlock (h.COMPRESSION_BLOCK_SIZE - s.indexInBlock))
    have e1 := isBlockExhausted_congr h hp.1
    have e2 := chosenCycleLength_congr h options
      (getPart block16 s.indexInBlock (h.COMPRESSION_BLOCK_SIZE - s.indexInBlock)) hp
    unfold blockLoop
    dsimp only
    rw [e1, hp.1, e2, tb.1, tb.2]
    split
    · exact ⟨a, rfl⟩
    · split
      · rename_i hsmall
        have hlen := (getPart_length_le block16 s.indexInBlock
          (h.COMPRESSION_BLOCK_SIZE - s.indexInBlock)).1
        obtain ⟨ad, ed⟩ := encodeCycleDelta_alike h a
          (getPart block16 s.indexInBlock (h.COMPRESSION_BLOCK_SIZE - s.indexInBlock))
          (fun h8 => absurd h8 (by omega))
        rw [ed]
        split
        · exact ⟨ad, rfl⟩
        · exact ih _ _ (ad.moved _ _)
            ((hp.placeKept (encodeCycleDelta_keeps h _ _) (encodeCycleDelta_keeps h _ _)).placeMoved _)
      · split
        · split
          · exact ih _ _ (encodeCycle_alike h ab _).1
              (pb.placeKept (encodeCycle_keeps h _ _) (encodeCycle_keeps h _ _))
          · exact ih _ _ (encodeDiff_alike h ab _).1
              (pb.placeKept (encodeDiff_keeps h _ _) (encodeDiff_keeps h _ _))
        · obtain ⟨ac, ec⟩ := encodeCycle_alike h ab
            (beginCycle h options
              (getPart block16 s.indexInBlock (h.COMPRESSION_BLOCK_SIZE - s.indexInBlock))
              s).currentCycle
          rw [ec]
          split
          · exact ⟨ac, rfl⟩
          · have dl := deltaLoop_alike h options fuel block16 s.indexInBlock
              (chosenCycleLength h options
                (getPart block16 s.indexInBlock (h.COMPRESSION_BLOCK_SIZE - s.indexInBlock)) s)
              (h.COMPRESSION_BLOCK_SIZE - s.indexInBlock) _ _ ac
              (pb.placeKept (encodeCycle_keeps h _ _) (encodeCycle_keeps h _ _))
              (tb.templateKept (encodeCycle_keeps h _ _) (encodeCycle_keeps h _ _))
            revert dl
            cases deltaLoop h options fuel block16 s.indexInBlock
              (chosenCycleLength h options
                (getPart block16 s.indexInBlock (h.COMPRESSION_BLOCK_SIZE - s.indexInBlock)) s)
              (h.COMPRESSION_BLOCK_SIZE - s.indexInBlock)
              (encodeCycle h (beginCycle h options
                (getPart block16 s.indexInBlock (h.COMPRESSION_BLOCK_SIZE - s.indexInBlock))
                s).currentCycle (beginCycle h options
                (getPart block16 s.indexInBlock (h.COMPRESSION_BLOCK_SIZE - s.indexInBlock))
                s)).1 <;>
            cases deltaLoop h options fuel block16 s.indexInBlock
              (chosenCycleLength h options
                (getPart block16 s.indexInBlock (h.COMPRESSION_BLOCK_SIZE - s.indexInBlock)) s)
              (h.COMPRESSION_BLOCK_SIZE - s.indexInBlock)
              (encodeCycle h (beginCycle h options
                (getPart block16 s.indexInBlock (h.COMPRESSION_BLOCK_SIZE - s.indexInBlock))
                s).currentCycle (beginCycle h options
                (getPart block16 s.indexInBlock (h.COMPRESSION_BLOCK_SIZE - s.indexInBlock))
                s')).1 <;>
            intro dl
            · exact True.intro
            · exact dl.elim
            · exact dl.elim
            · exact ih _ _ dl.1 dl.2

theorem BothOr.cases {α : Type} {R : α → α → Prop} {x y : Option α} (b : BothOr R x y) :
    (x = none ∧ y = none) ∨ ∃ u v, x = some u ∧ y = some v ∧ R u v := by
  cases x <;> cases y
  · exact Or.inl ⟨rfl, rfl⟩
  · exact b.elim
  · exact b.elim
  · exact Or.inr ⟨_, _, rfl, rfl, b⟩

theorem encodeBlock_alike {p p' : List Nat} {d : Int} {s s' : HlacEncoder}
    (a : Alike p p' d s s') (fuel : Nat) (block16 : List Int) :
    BothOr (AlikeOut p p' d) (encodeBlock h options fuel block16 s)
      (encodeBlock h options fuel block16 s') := by
  have a0 : Alike p p' d (startBlock h s) (startBlock h s') := a.of_untouched rfl rfl rfl rfl
  unfold encodeBlock
  dsimp only
  split
  · exact encodeCycle_alike h a0 block16
  · exact blockLoop_alike h options fuel block16 _ _ a0 ⟨rfl, rfl⟩

theorem encodeLastBlock_alike {p p' : List Nat} {d : Int} {s s' : HlacEncoder}
    (a : Alike p p' d s s') (cycle : List Int) :
    Alike p p' d (encodeLastBlock h cycle s) (encodeLastBlock h cycle s') := by
  obtain ⟨aw, ew⟩ := writeCycleHeader_alike (encodeCycle_alike h a cycle).1 true 0
    ((h.COMPRESSION_BLOCK_SIZE : Int) - cycle.length)
  unfold encodeLastBlock
  dsimp only
  rw [ew]
  split
  · exact aw
  · exact aw.noted _ _

theorem encodeBlocks_alike {p p' : List Nat} {d : Int} {s s' : HlacEncoder}
    (a : Alike p p' d s s') (fuel : Nat) (source : AudioSampleBuffer) (offset size : Nat) :
    BothOr (Alike p p' d) (encodeBlocks h options fuel source offset size s)
      (encodeBlocks h options fuel source offset size s') := by
  unfold encodeBlocks
  split
  · rcases (encodeBlock_alike h options a fuel (getPart (source.channel 0) offset size)).cases
      with ⟨e, e'⟩ | ⟨u, v, e, e', al⟩
    · rw [e, e']
      exact True.intro
    · rw [e, e']
      dsimp only
      rcases (encodeBlock_alike h options al.1 fuel
        (getPart (source.channel 1) offset size)).cases with ⟨f, f'⟩ | ⟨w, z, f, f', ar⟩
      · rw [f, f']
        exact True.intro
      · rw [f, f']
        exact ar.1
  · rcases (encodeBlock_alike h options a fuel (getPart (source.channel 0) offset size)).cases
      with ⟨e, e'⟩ | ⟨u, v, e, e', al⟩
    · rw [e, e']
      exact True.intro
    · rw [e, e']
      exact al.1

theorem encodeLastBlocks_alike {p p' : List Nat} {d : Int} {s s' : HlacEncoder}
    (a : Alike p p' d s s') (source : AudioSampleBuffer) (offset size : Nat) :
    Alike p p' d (encodeLastBlocks h source offset size s)
      (encodeLastBlocks h source offset size s') := by
  unfold encodeLastBlocks
  split
  · exact encodeLastBlock_alike h (encodeLastBlock_alike h a _) _
  · exact encodeLastBlock_alike h a _

theorem AlikeRun.of_frame {p p' : List Nat} {q q' : List (Nat × Nat)}
    {s s' t t' : HlacEncoder} (r : AlikeRun p p' q q' s s') (f : Frame s t) (f' : Frame s' t')
    (a : Alike p p' 0 t t') : AlikeRun p p' q q' t t' where
  alike := a
  blockIndex := by rw [f'.blockIndex, f.blockIndex, r.blockIndex]
  blockOffset := by rw [f'.blockOffset, f.blockOffset, r.blockOffset]
  table := by
    rw [f'.blockOffsetData, f.blockOffsetData]
    exact r.table

theorem storeBlockOffset_alikeRun {p p' : List Nat} {q q' : List (Nat × Nat)}
    {s s' : HlacEncoder} (r : AlikeRun p p' q q' s s') :
    AlikeRun p p' q q' (storeBlockOffset s) (storeBlockOffset s') where
  alike := r.alike.of_untouched rfl rfl rfl rfl
  blockIndex := by
    show s'.blockIndex + 1 = s.blockIndex + 1
    rw [r.blockIndex]
  blockOffset := r.blockOffset
  table := by
    obtain ⟨y, hy, hy'⟩ := r.table
    have hc : s'.numBytesWritten = s.numBytesWritten := by
      have := r.alike.counter
      omega
    refine ⟨y ++ [(s.blockIndex, s.numBytesWritten % 4294967296)], ?_, ?_⟩
    · show s.blockOffsetData ++ _ = _
      rw [hy, List.append_assoc]
    · show s'.blockOffsetData ++ [(s'.blockIndex, s'.numBytesWritten % 4294967296)] = _
      rw [hy', List.append_assoc, r.blockIndex, hc]

theorem advanceBlockOffset_alikeRun {p p' : List Nat} {q q' : List (Nat × Nat)}
    {s s' : HlacEncoder} (r : AlikeRun p p' q q' s s') (n : Nat) :
    AlikeRun p p' q q' (advanceBlockOffset n s) (advanceBlockOffset n s') where
  alike := r.alike.of_untouched rfl rfl rfl rfl
  blockIndex := r.blockIndex
  blockOffset := by
    show s'.blockOffset + n = s.blockOffset + n
    rw [r.blockOffset]
  table := r.table

theorem clearBlockOffset_alikeRun {p p' : List Nat} {q q' : List (Nat × Nat)}
    {s s' : HlacEncoder} (r : AlikeRun p p' q q' s s') :
    AlikeRun p p' q q' (clearBlockOffset s) (clearBlockOffset s') where
  alike := r.alike.of_untouched rfl rfl rfl rfl
  blockIndex := r.blockIndex
  blockOffset := rfl
  table := r.table

theorem encodeBlocks_alikeRun {p p' : List Nat} {q q' : List (Nat × Nat)}
    {s s' : HlacEncoder} (r : AlikeRun p p' q q' s s') (fuel : Nat)
    (source : AudioSampleBuffer) (offset size : Nat) :
    BothOr (AlikeRun p p' q q') (encodeBlocks h options fuel source offset size s)
      (encodeBlocks h options fuel source offset size s') := by
  rcases (encodeBlocks_alike h options r.alike fuel source offset size).cases
    with ⟨e, e'⟩ | ⟨u, v, e, e', a⟩
  · rw [e, e']
    exact True.intro
  · rw [e, e']
    exact r.of_frame (encodeBlocks_frame h options fuel source offset size s u e)
      (encodeBlocks_frame h options fuel source offset size s' v e') a

theorem encodeLastBlocks_alikeRun {p p' : List Nat} {q q' : List (Nat × Nat)}
    {s s' : HlacEncoder} (r : AlikeRun p p' q q' s s')
    (source : AudioSampleBuffer) (offset size : Nat) :
    AlikeRun p p' q q' (encodeLastBlocks h source offset size s)
      (encodeLastBlocks h source offset size s') :=
  r.of_frame (encodeLastBlocks_frame h source offset size s)
    (encodeLastBlocks_frame h source offset size s')
    (encodeLastBlocks_alike h r.alike source offset size)

theorem compressLoop_alikeRun {p p' : List Nat} {q q' : List (Nat × Nat)}
    (fuel blockFuel : Nat) (source : AudioSampleBuffer) :
    ∀ (numSamplesRemaining : Int) (s s' : HlacEncoder), AlikeRun p p' q q' s s' →
      BothOr (AlikeRun p p' q q')
        (compressLoop h options fuel blockFuel source numSamplesRemaining s)
        (compressLoop h options fuel blockFuel source numSamplesRemaining s') := by
  induction fuel with
  | zero =>
    intro _ s s' _
    simp only [compressLoop]
    exact True.intro
  | succ fuel ih =>
    intro numSamplesRemaining s s' r
    have r1 := storeBlockOffset_alikeRun r
    unfold compressLoop
    dsimp only
    split
    · rw [r1.blockOffset]
      rcases (encodeBlocks_alikeRun h options r1 blockFuel source (storeBlockOffset s).blockOffset
        (min h.COMPRESSION_BLOCK_SIZE source.numSamples)).cases with ⟨e, e'⟩ | ⟨u, v, e, e', a⟩
      · rw [e, e']
        exact True.intro
      · rw [e, e']
        exact ih _ _ _ (advanceBlockOffset_alikeRun a _)
    · exact r

theorem compress_alikeRun {p p' : List Nat} {q q' : List (Nat × Nat)}
    {s s' : HlacEncoder} (r : AlikeRun p p' q q' s s') (fuel blockFuel : Nat)
    (source : AudioSampleBuffer) :
    BothOr (AlikeRun p p' q q') (compress h options fuel blockFuel source s)
      (compress h options fuel blockFuel source s') := by
  unfold compress
  split
  · exact encodeBlocks_alikeRun h options (storeBlockOffset_alikeRun r) _ _ _ _
  · rcases (compressLoop_alikeRun h options fuel blockFuel source (source.numSamples : Int) _ _
      (clearBlockOffset_alikeRun r)).cases with ⟨e, e'⟩ | ⟨u, v, e, e', a⟩
    · rw [e, e']
      exact True.intro
    · rw [e, e']
      dsimp only
      rw [a.blockOffset]
      split
      · exact encodeLastBlocks_alikeRun h (storeBlockOffset_alikeRun a) _ _ _
      · exact a

theorem reset_alikeRun (s s' : HlacEncoder) (hf : SameFuture s.output s'.output) :
    AlikeRun s.output.data s'.output.data s.blockOffsetData s'.blockOffsetData
      (reset h s) (reset h s') where
  alike := ⟨hf, ⟨[], (List.append_nil _).symm, (List.append_nil _).symm⟩, rfl⟩
  blockIndex := rfl
  blockOffset := rfl
  table := ⟨[], (List.append_nil _).symm, (List.append_nil _).symm⟩

/-- C19: `compress` on an encoder that was `reset()` first does not depend on
what the encoder did before. For two encoders in arbitrary states whose
streams behave alike from now on, the two runs on the same buffer with the
same options both return or both do not, they append the same bytes to their
streams and the same entries to `blockOffsetData`, and they leave the same
byte counter; streams that held the same bytes hold the same bytes after. -/
theorem compress_after_reset_is_repeatable (fuel blockFuel : Nat) (source : AudioSampleBuffer)
    (s1 s2 t1 : HlacEncoder) (hf : SameFuture s1.output s2.output)
    (h1 : compress h options fuel blockFuel source (reset h s1) = some t1) :
    ∃ t2, compress h options fuel blockFuel source (reset h s2) = some t2 ∧
      t2.output.data.drop s2.output.data.length = t1.output.data.drop s1.output.data.length ∧
      t2.blockOffsetData.drop s2.blockOffsetData.length
        = t1.blockOffsetData.drop s1.blockOffsetData.length ∧
      t2.numBytesWritten = t1.numBytesWritten ∧
      (s2.output.data = s1.output.data → t2.output.data = t1.output.data) := by
  rcases (compress_alikeRun h options (reset_alikeRun h s1 s2 hf) fuel blockFuel source).cases
    with ⟨e, _⟩ | ⟨u, v, e, e', r⟩
  · rw [h1] at e
    cases e
  · rw [h1] at e
    cases e
    obtain ⟨x, hx, hx'⟩ := r.alike.written
    obtain ⟨y, hy, hy'⟩ := r.table
    have hc := r.alike.counter
    refine ⟨v, e', ?_, ?_, by omega, ?_⟩
    · rw [hx, hx', List.drop_left, List.drop_left]
    · rw [hy, hy', List.drop_left, List.drop_left]
    · intro hd
      rw [hx, hx', hd]

theorem compress_after_reset_is_repeatable_witness :
    ∃ t1, compress (specHelpers 8) plainOptions 4 40 (monoBuffer (cycleX ++ [1, 2, 3]))
        (reset (specHelpers 8) usedEncoder) = some t1 ∧
      ∃ t2, compress (specHelpers 8) plainOptions 4 40 (monoBuffer (cycleX ++ [1, 2, 3]))
          (reset (specHelpers 8) (freshEncoder (specHelpers 8) reliableStream)) = some t2 ∧
        t2.output.data.drop (freshEncoder (specHelpers 8) reliableStream).output.data.length
          = t1.output.data.drop usedEncoder.output.data.length ∧
        t2.blockOffsetData.drop
            (freshEncoder (specHelpers 8) reliableStream).blockOffsetData.length
          = t1.blockOffsetData.drop usedEncoder.blockOffsetData.length ∧
        t2.numBytesWritten = t1.numBytesWritten ∧
        ((freshEncoder (specHelpers 8) reliableStream).output.data = usedEncoder.output.data →
          t2.output.data = t1.output.data) :=
  ⟨_, Option.eq_some_of_isSome (by decide),
    compress_after_reset_is_repeatable (specHelpers 8) plainOptions 4 40
      (monoBuffer (cycleX ++ [1, 2, 3])) usedEncoder
      (freshEncoder (specHelpers 8) reliableStream) _ (fun _ => rfl)
      (Option.eq_some_of_isSome (by decide))⟩

/-! ### The diff header -/

theorem writeDiffHeader_result (fullBitRate errorBitRate : Int) (blockSize : Nat)
    (s : HlacEncoder) :
    (writeDiffHeader fullBitRate errorBitRate blockSize s).2 = s.output.ok s.output.attempts := by
  unfold writeDiffHeader OutputStream.writeByte
  simp only [write_result]
  by_cases h1 : s.output.ok s.output.attempts = true
  · simp [h1]
  · simp only [Bool.not_eq_true] at h1
    simp [h1]

theorem writeDiffHeader_stream (fullBitRate errorBitRate : Int) (blockSize : Nat)
    (s : HlacEncoder) (h1 : s.output.ok s.output.attempts = true) :
    (writeDiffHeader fullBitRate errorBitRate blockSize s).1.output.attempts
      = s.output.attempts + 2 ∧
    (writeDiffHeader fullBitRate errorBitRate blockSize s).1.output.ok = s.output.ok := by
  unfold writeDiffHeader OutputStream.writeByte OutputStream.writeShort
  simp only [write_result, h1, Bool.true_eq_false, if_false, write_attempts, write_ok, and_self]

/-- C21: the second write of `writeDiffHeader`, the two bytes after the
sentinel, is not checked. When the sentinel is written and the write of the
two bytes fails, `encodeDiff` goes on: on a stream whose next two writes
succeed it returns `true` and the stream holds the sentinel followed directly
by the two payloads. -/
theorem encodeDiff_ignores_failed_short_write (cycle : List Int) (s : HlacEncoder)
    (h1 : s.output.ok s.output.attempts = true)
    (h2 : s.output.ok (s.output.attempts + 1) = false)
    (h3 : s.output.ok (s.output.attempts + 2) = true)
    (h4 : s.output.ok (s.output.attempts + 3) = true) :
    (encodeDiff h cycle s).2 = true ∧
    (encodeDiff h cycle s).1.output.data = s.output.data ++ [224]
      ++ memoryBlock
          ((h.getSuitableCompressorForData (h.createBufferWithFullValues cycle)).getByteAmount
            (h.getNumFullValues cycle.length))
          ((h.getSuitableCompressorForData (h.createBufferWithFullValues cycle)).compress
            (h.createBufferWithFullValues cycle))
      ++ memoryBlock
          ((h.getSuitableCompressorForData
            (h.createBufferWithErrorValues cycle (h.createBufferWithFullValues cycle))).getByteAmount
            (h.getNumErrorValues cycle.length))
          ((h.getSuitableCompressorForData
            (h.createBufferWithErrorValues cycle (h.createBufferWithFullValues cycle))).compress
            (h.createBufferWithErrorValues cycle (h.createBufferWithFullValues cycle))) := by
  have hd := writeDiffHeader_data
    (h.getSuitableCompressorForData (h.createBufferWithFullValues cycle)).allowedBitRange
    (h.getSuitableCompressorForData
      (h.createBufferWithErrorValues cycle (h.createBufferWithFullValues cycle))).allowedBitRange
    cycle.length s
  have hr := writeDiffHeader_result
    (h.getSuitableCompressorForData (h.createBufferWithFullValues cycle)).allowedBitRange
    (h.getSuitableCompressorForData
      (h.createBufferWithErrorValues cycle (h.createBufferWithFullValues cycle))).allowedBitRange
    cycle.length s
  obtain ⟨ha, hk⟩ := writeDiffHeader_stream
    (h.getSuitableCompressorForData (h.createBufferWithFullValues cycle)).allowedBitRange
    (h.getSuitableCompressorForData
      (h.createBufferWithErrorValues cycle (h.createBufferWithFullValues cycle))).allowedBitRange
    cycle.length s h1
  rw [if_pos h1, h2] at hd
  rw [h1] at hr
  unfold encodeDiff writePayloadChecked noteEmitted
  simp only [hr, write_result, write_data, write_ok, write_attempts, ha, hk, hd, h3, h4,
    Bool.true_eq_false, Bool.false_eq_true, if_false, if_true, and_self, true_and]

theorem encodeDiff_ignores_failed_short_write_witness :
    (streamFailingAt 1).ok 1 = false ∧
    (encodeDiff (specHelpers 8) cycleW (freshEncoder (specHelpers 8) (streamFailingAt 1))).2
      = true ∧
    (encodeDiff (specHelpers 8) cycleW
        (freshEncoder (specHelpers 8) (streamFailingAt 1))).1.output.data
      = (freshEncoder (specHelpers 8) (streamFailingAt 1)).output.data ++ [224]
        ++ memoryBlock
          (((specHelpers 8).getSuitableCompressorForData
            ((specHelpers 8).createBufferWithFullValues cycleW)).getByteAmount
            ((specHelpers 8).getNumFullValues cycleW.length))
          (((specHelpers 8).getSuitableCompressorForData
            ((specHelpers 8).createBufferWithFullValues cycleW)).compress
            ((specHelpers 8).createBufferWithFullValues cycleW))
        ++ memoryBlock
          (((specHelpers 8).getSuitableCompressorForData
            ((specHelpers 8).createBufferWithErrorValues cycleW
              ((specHelpers 8).createBufferWithFullValues cycleW))).getByteAmount
            ((specHelpers 8).getNumErrorValues cycleW.length))
          (((specHelpers 8).getSuitableCompressorForData
            ((specHelpers 8).createBufferWithErrorValues cycleW
              ((specHelpers 8).createBufferWithFullValues cycleW))).compress
            ((specHelpers 8).createBufferWithErrorValues cycleW
              ((specHelpers 8).createBufferWithFullValues cycleW))) :=
  ⟨by decide, encodeDiff_ignores_failed_short_write (specHelpers 8) cycleW
    (freshEncoder (specHelpers 8) (streamFailingAt 1)) (by decide) (by decide) (by decide)
    (by decide)⟩

/-! ### What a header byte tells -/

theorem cycleHeaderByte_injective_generic (f1 f2 : Bool) (d1 d2 : Nat) (h1 : 3 ≤ d1)
    (h1' : d1 ≤ 16) (h2 : 3 ≤ d2) (h2' : d2 ≤ 16)
    (he : cycleHeaderByte f1 d1 = cycleHeaderByte f2 d2) : f1 = f2 ∧ d1 = d2 := by
  rw [cycleHeaderByte_generic f1 d1 h1 h1', cycleHeaderByte_generic f2 d2 h2 h2'] at he
  cases f1 <;> cases f2 <;> simp at he ⊢ <;> omega

/-- C28: the first byte of a cycle header does not determine the pair of the
template flag and the bit depth. For the bit depths 0, 1 and 2 a delta and a
template get the same byte (1, 3 and 5), and a template of bit depth 2 gets the
byte 5 of a template of bit depth 3; `writeCycleHeader` writes the same three
bytes in each of these cases. Only among the bit depths 3 to 16 does the byte
determine the pair. -/
theorem cycle_header_byte_collides :
    cycleHeaderByte false 0 = cycleHeaderByte true 0 ∧
    cycleHeaderByte false 1 = cycleHeaderByte true 1 ∧
    cycleHeaderByte false 2 = cycleHeaderByte true 2 ∧
    cycleHeaderByte true 2 = cycleHeaderByte true 3 ∧
    (writeCycleHeader false 0 8 (freshEncoder (specHelpers 8) reliableStream)).1.output.data
      = [1, 8, 0] ∧
    (writeCycleHeader true 0 8 (freshEncoder (specHelpers 8) reliableStream)).1.output.data
      = [1, 8, 0] ∧
    (writeCycleHeader true 2 8 (freshEncoder (specHelpers 8) reliableStream)).1.output.data
      = [5, 8, 0] ∧
    (writeCycleHeader true 3 8 (freshEncoder (specHelpers 8) reliableStream)).1.output.data
      = [5, 8, 0] ∧
    (∀ (f1 f2 : Bool) (d1 d2 : Nat), 3 ≤ d1 → d1 ≤ 16 → 3 ≤ d2 → d2 ≤ 16 →
      cycleHeaderByte f1 d1 = cycleHeaderByte f2 d2 → f1 = f2 ∧ d1 = d2) :=
  ⟨by decide, by decide, by decide, by decide, by decide, by decide, by decide, by decide,
    cycleHeaderByte_injective_generic⟩

theorem or_full_byte (y : Nat) (hy : y < 256) : y ||| 255 = 255 := by
  interval_cases y <;> rfl

theorem diffShortPacked_zero_error (fullBitRate : Int) (blockSize : Nat) :
    diffShortPacked fullBitRate 0 blockSize = 65280 ||| (floorLog2 blockSize % 256) := by
  unfold diffShortPacked
  have e : (((0 : Int) - 1) % 256).toNat = 255 := by decide
  have hlt : (((fullBitRate - 1) % 256).toNat <<< 4) % 256 < 256 := Nat.mod_lt _ (by decide)
  simp only [e, or_full_byte _ hlt]
  rfl

/-- C30: `writeDiffHeader` does not keep the two bit-rate fields apart when
`errorBitRate` is 0. Then `(uint8)(errorBitRate - 1)` is `0xFF`, the byte
`bitRates` is `0xFF` whatever `fullBitRate` is, and the 16-bit value written is
`0xFF00` with the logarithm of the cycle length in its low byte: two calls with
different `fullBitRate` write the same value. `encodeDiff` reaches this for a
cycle of equal samples, whose error values are all zero: the cycles of eight
7s (full values of bit depth 4) and of eight 100s (bit depth 8) both get the
header bytes `E0 03 FF`. -/
theorem diff_header_rates_collide (f1 f2 : Int) (blockSize : Nat) :
    diffShortPacked f1 0 blockSize = diffShortPacked f2 0 blockSize ∧
    (writeDiffHeader f1 0 blockSize (freshEncoder (specHelpers 8) reliableStream)).1.output.data
      = (writeDiffHeader f2 0 blockSize
          (freshEncoder (specHelpers 8) reliableStream)).1.output.data ∧
    diffShortPacked 3 0 8 / 4096 % 16 = 15 ∧
    diffShortPacked 9 0 8 / 4096 % 16 = 15 ∧
    ((specHelpers 8).getSuitableCompressorForData
      ((specHelpers 8).createBufferWithFullValues (List.replicate 8 7))).allowedBitRange = 4 ∧
    ((specHelpers 8).getSuitableCompressorForData
      ((specHelpers 8).createBufferWithFullValues (List.replicate 8 100))).allowedBitRange = 8 ∧
    (encodeDiff (specHelpers 8) (List.replicate 8 7)
        (freshEncoder (specHelpers 8) reliableStream)).1.output.data = [224, 3, 255, 119] ∧
    (encodeDiff (specHelpers 8) (List.replicate 8 100)
        (freshEncoder (specHelpers 8) reliableStream)).1.output.data
      = [224, 3, 255, 100, 100] := by
  have e : diffShortPacked f1 0 blockSize = diffShortPacked f2 0 blockSize := by
    rw [diffShortPacked_zero_error, diffShortPacked_zero_error]
  refine ⟨e, ?_, by decide, by decide, by decide, by decide, by decide, by decide⟩
  rw [writeDiffHeader_data, writeDiffHeader_data, e]

/-! ### The refined length of a delta cycle -/

/-- C27, the claim at an explicit input (a delta candidate of 2 samples, the
template `[10, 20]` at the start of the block `[10, 20, 50, ...]`, the helpers
modelled from the specification): the second candidate has the larger bit
reduction, and the result is 2, the candidate's own length, not 0. -/
theorem getCycleLengthFromTemplate_keeps_length :
    (specHelpers 8).getBitReductionWithTemplate [10, 20]
        (getPartAt [10, 20, 50, 0, 0, 0, 0, 0] 0 1 2) false
      < (specHelpers 8).getBitReductionWithTemplate [10, 20]
        (getPartAt [10, 20, 50, 0, 0, 0, 0, 0] 0 0 2) false ∧
    getCycleLengthFromTemplate (specHelpers 8) plainOptions 2 [10, 20, 50, 0, 0, 0, 0, 0] 0
        (setCurrentCycle (specHelpers 8) [10, 20]
          (freshEncoder (specHelpers 8) reliableStream)) = 2 ∧
    (2 : Nat) ≠ 2 - 2 := by
  decide

/-- C27 as amended: for a delta candidate of length `n`,
`getCycleLengthFromTemplate` compares two windows of `n` samples each, which
start `n - 1` and `n - 2` samples into `rest`, against the current template.
It returns `n - 1` when the bit reduction of the first window is strictly
larger than that of the second, and `n` otherwise; it never returns `n - 2`
for `n ≥ 2`. Both windows hold `n` samples when they lie inside the block. -/
theorem getCycleLengthFromTemplate_result (n : Nat) (block16 : List Int) (rest : Nat)
    (s : HlacEncoder) :
    (h.getBitReductionWithTemplate s.currentCycle
          (getPartAt block16 rest ((n : Int) - 2) n) options.removeDcOffset
        < h.getBitReductionWithTemplate s.currentCycle
          (getPartAt block16 rest ((n : Int) - 1) n) options.removeDcOffset →
      getCycleLengthFromTemplate h options n block16 rest s = n - 1) ∧
    (¬ h.getBitReductionWithTemplate s.currentCycle
          (getPartAt block16 rest ((n : Int) - 2) n) options.removeDcOffset
        < h.getBitReductionWithTemplate s.currentCycle
          (getPartAt block16 rest ((n : Int) - 1) n) options.removeDcOffset →
      getCycleLengthFromTemplate h options n block16 rest s = n) ∧
    (2 ≤ n → getCycleLengthFromTemplate h options n block16 rest s ≠ n - 2) ∧
    (2 ≤ n → rest + 2 * n - 1 ≤ block16.length →
      (getPartAt block16 rest ((n : Int) - 1) n).length = n ∧
      (getPartAt block16 rest ((n : Int) - 2) n).length = n ∧
      getPartAt block16 rest ((n : Int) - 1) n = getPart block16 (rest + n - 1) n ∧
      getPartAt block16 rest ((n : Int) - 2) n = getPart block16 (rest + n - 2) n) := by
  refine ⟨?_, ?_, ?_, ?_⟩
  · intro hlt
    unfold getCycleLengthFromTemplate
    dsimp only
    rw [if_pos hlt]
  · intro hlt
    unfold getCycleLengthFromTemplate
    dsimp only
    rw [if_neg hlt]
  · intro hn
    have := getCycleLengthFromTemplate_ge h options n block16 rest s
    omega
  · intro hn hb
    have e1 : getPartAt block16 rest ((n : Int) - 1) n = getPart block16 (rest + n - 1) n := by
      unfold getPartAt
      rw [if_pos (by omega)]
      congr 1
      omega
    have e2 : getPartAt block16 rest ((n : Int) - 2) n = getPart block16 (rest + n - 2) n := by
      unfold getPartAt
      rw [if_pos (by omega)]
      congr 1
      omega
    refine ⟨?_, ?_, e1, e2⟩
    · rw [e1]
      exact getPart_length _ _ _ (by omega)
    · rw [e2]
      exact getPart_length _ _ _ (by omega)

theorem getCycleLengthFromTemplate_result_witness :
    getCycleLengthFromTemplate (specHelpers 8) plainOptions 2 [10, 20, 50, 0, 0, 0, 0, 0] 0
        (setCurrentCycle (specHelpers 8) [10, 20]
          (freshEncoder (specHelpers 8) reliableStream)) = 2 :=
  (getCycleLengthFromTemplate_result (specHelpers 8) plainOptions 2 [10, 20, 50, 0, 0, 0, 0, 0] 0
    (setCurrentCycle (specHelpers 8) [10, 20]
      (freshEncoder (specHelpers 8) reliableStream))).2.1 (by decide)

/-! ### The remainder of a block -/

theorem blockLoop_exhausted (fuel : Nat) (block16 : List Int) (s : HlacEncoder)
    (hex : h.COMPRESSION_BLOCK_SIZE ≤ s.indexInBlock) :
    blockLoop h options (fuel + 1) block16 s = some (s, true) := by
  unfold blockLoop
  rw [if_pos (by simpa [isBlockExhausted] using hex)]

/-- C25: when between 1 and 4 samples of the block remain at the top of the
loop of `encodeBlock`, the loop hands exactly these samples to
`encodeCycleDelta`, which for fewer than 8 samples is `encodeCycle`: no cycle
length is searched, no delta is counted. When that call fails the loop returns
`false`; otherwise `indexInBlock` moves to `BLOCK` and the loop returns `true`
(two units of fuel suffice). On a stream whose writes all succeed the call
succeeds and records the remainder as one template. -/
theorem remainder_is_one_template (fuel : Nat) (block16 : List Int) (s : HlacEncoder)
    (hb : block16.length = h.COMPRESSION_BLOCK_SIZE)
    (h1 : s.indexInBlock < h.COMPRESSION_BLOCK_SIZE)
    (h4 : h.COMPRESSION_BLOCK_SIZE - s.indexInBlock ≤ 4) :
    (getPart block16 s.indexInBlock (h.COMPRESSION_BLOCK_SIZE - s.indexInBlock)).length
      = h.COMPRESSION_BLOCK_SIZE - s.indexInBlock ∧
    getPart block16 s.indexInBlock (h.COMPRESSION_BLOCK_SIZE - s.indexInBlock)
      = block16.drop s.indexInBlock ∧
    encodeCycleDelta h
        (getPart block16 s.indexInBlock (h.COMPRESSION_BLOCK_SIZE - s.indexInBlock)) s
      = encodeCycle h
        (getPart block16 s.indexInBlock (h.COMPRESSION_BLOCK_SIZE - s.indexInBlock)) s ∧
    blockLoop h options (fuel + 2) block16 s
      = some (if (encodeCycle h (getPart block16 s.indexInBlock
            (h.COMPRESSION_BLOCK_SIZE - s.indexInBlock)) s).2 = false then
          ((encodeCycle h (getPart block16 s.indexInBlock
            (h.COMPRESSION_BLOCK_SIZE - s.indexInBlock)) s).1, false)
        else
          (advance (h.COMPRESSION_BLOCK_SIZE - s.indexInBlock)
            (encodeCycle h (getPart block16 s.indexInBlock
              (h.COMPRESSION_BLOCK_SIZE - s.indexInBlock)) s).1, true)) ∧
    (advance (h.COMPRESSION_BLOCK_SIZE - s.indexInBlock)
      (encodeCycle h (getPart block16 s.indexInBlock
        (h.COMPRESSION_BLOCK_SIZE - s.indexInBlock)) s).1).indexInBlock
      = h.COMPRESSION_BLOCK_SIZE ∧
    (encodeCycle h (getPart block16 s.indexInBlock
      (h.COMPRESSION_BLOCK_SIZE - s.indexInBlock)) s).1.numDeltas = s.numDeltas ∧
    (s.output.reliable →
      (encodeCycle h (getPart block16 s.indexInBlock
        (h.COMPRESSION_BLOCK_SIZE - s.indexInBlock)) s).2 = true ∧
      (encodeCycle h (getPart block16 s.indexInBlock
        (h.COMPRESSION_BLOCK_SIZE - s.indexInBlock)) s).1.emitted
        = s.emitted ++ [Emitted.template
          (getPart block16 s.indexInBlock (h.COMPRESSION_BLOCK_SIZE - s.indexInBlock))]) := by
  have hlen : (getPart block16 s.indexInBlock (h.COMPRESSION_BLOCK_SIZE - s.indexInBlock)).length
      = h.COMPRESSION_BLOCK_SIZE - s.indexInBlock := getPart_length _ _ _ (by omega)
  have hdelta : encodeCycleDelta h
        (getPart block16 s.indexInBlock (h.COMPRESSION_BLOCK_SIZE - s.indexInBlock)) s
      = encodeCycle h
        (getPart block16 s.indexInBlock (h.COMPRESSION_BLOCK_SIZE - s.indexInBlock)) s := by
    unfold encodeCycleDelta
    rw [if_pos (by omega)]
  have hidx : (advance (h.COMPRESSION_BLOCK_SIZE - s.indexInBlock)
      (encodeCycle h (getPart block16 s.indexInBlock
        (h.COMPRESSION_BLOCK_SIZE - s.indexInBlock)) s).1).indexInBlock
      = h.COMPRESSION_BLOCK_SIZE := by
    show (encodeCycle h _ s).1.indexInBlock + _ = _
    rw [(encodeCycle_keeps h _ s).indexInBlock]
    omega
  refine ⟨hlen, ?_, hdelta, ?_, hidx, (encodeCycle_totals h _ s).2, ?_⟩
  · unfold getPart
    apply List.take_of_length_le
    rw [List.length_drop]
    omega
  · have hex : ¬ isBlockExhausted h s = true := by
      simp [isBlockExhausted]
      omega
    rw [blockLoop]
    dsimp only
    rw [if_neg hex, if_pos h4, hdelta]
    split
    · rfl
    · exact blockLoop_exhausted h options fuel block16 _ (le_of_eq hidx.symm)
  · intro hs
    have hr := encodeCycle_reliable h
      (getPart block16 s.indexInBlock (h.COMPRESSION_BLOCK_SIZE - s.indexInBlock)) s hs
    refine ⟨hr.1, ?_⟩
    rw [hr.2]
    unfold templateEntry
    rw [if_neg (by omega)]

theorem remainder_is_one_template_witness :
    blockLoop (specHelpers 8) plainOptions 2 cycleX
        (advance 5 (freshEncoder (specHelpers 8) reliableStream))
      = some (advance 3 (encodeCycle (specHelpers 8) [-1, 25, 60]
          (advance 5 (freshEncoder (specHelpers 8) reliableStream))).1, true) :=
  (remainder_is_one_template (specHelpers 8) plainOptions 0 cycleX
    (advance 5 (freshEncoder (specHelpers 8) reliableStream)) (by decide) (by decide)
    (by decide)).2.2.2.1

/-! ### The position in the block -/

theorem deltaLoop_index (block16 : List Int) (rest : Nat) (cycleLength : Nat) (fuel : Nat) :
    ∀ (numRemaining : Nat) (s t : HlacEncoder),
      numRemaining ≤ h.COMPRESSION_BLOCK_SIZE - s.indexInBlock + cycleLength →
      s.indexInBlock ≤ h.COMPRESSION_BLOCK_SIZE →
      deltaLoop h options fuel block16 rest cycleLength numRemaining s = some t →
      s.indexInBlock ≤ t.indexInBlock ∧ t.indexInBlock ≤ h.COMPRESSION_BLOCK_SIZE := by
  induction fuel with
  | zero =>
    intro numRemaining s t _ _ ht
    simp [deltaLoop] at ht
  | succ fuel ih =>
    intro numRemaining s t hnr hi ht
    unfold deltaLoop at ht
    dsimp only at ht
    split at ht
    · split at ht
      · split at ht
        · have hle := getCycleLengthFromTemplate_le h options cycleLength block16 rest s
          have k := encodeCycleDelta_keeps h ((getPart block16 s.indexInBlock cycleLength).take
            (getCycleLengthFromTemplate h options cycleLength block16 rest s))
            (advance (getCycleLengthFromTemplate h options cycleLength block16 rest s) s)
          have hidx : (encodeCycleDelta h ((getPart block16 s.indexInBlock cycleLength).take
              (getCycleLengthFromTemplate h options cycleLength block16 rest s))
              (advance (getCycleLengthFromTemplate h options cycleLength block16 rest s)
                s)).1.indexInBlock
              = s.indexInBlock + getCycleLengthFromTemplate h options cycleLength block16 rest s :=
            k.indexInBlock
          have hadv : (advance (getCycleLengthFromTemplate h options cycleLength block16 rest s)
              s).indexInBlock
              = s.indexInBlock + getCycleLengthFromTemplate h options cycleLength block16 rest s :=
            rfl
          have := ih _ _ t (by rw [hidx, hadv]; omega) (by rw [hidx]; omega) ht
          rw [hidx] at this
          omega
        · cases ht
          exact ⟨le_rfl, hi⟩
      · cases ht
        exact ⟨le_rfl, hi⟩
    · cases ht
      exact ⟨le_rfl, hi⟩

theorem blockLoop_index (block16 : List Int) (fuel : Nat) :
    ∀ (s : HlacEncoder) (r : HlacEncoder × Bool),
      s.indexInBlock ≤ h.COMPRESSION_BLOCK_SIZE →
      blockLoop h options fuel block16 s = some r →
      s.indexInBlock ≤ r.1.indexInBlock ∧ r.1.indexInBlock ≤ h.COMPRESSION_BLOCK_SIZE ∧
      (r.2 = true → r.1.indexInBlock = h.COMPRESSION_BLOCK_SIZE) := by
  induction fuel with
  | zero =>
    intro s r _ hr
    simp [blockLoop] at hr
  | succ fuel ih =>
    intro s r hi hr
    unfold blockLoop at hr
    dsimp only at hr
    split at hr
    next hex =>
      cases hr
      have : h.COMPRESSION_BLOCK_SIZE ≤ s.indexInBlock := by
        simpa [isBlockExhausted] using hex
      exact ⟨le_rfl, hi, fun _ => le_antisymm hi this⟩
    next hex =>
      have hex2 : s.indexInBlock < h.COMPRESSION_BLOCK_SIZE := by
        simpa [isBlockExhausted] using hex
      split at hr
      · have k := encodeCycleDelta_keeps h (getPart block16 s.indexInBlock
          (h.COMPRESSION_BLOCK_SIZE - s.indexInBlock)) s
        split at hr
        · cases hr
          refine ⟨by rw [k.indexInBlock], by rw [k.indexInBlock]; exact hi, ?_⟩
          intro ht
          cases ht
        · have hadv : (advance (h.COMPRESSION_BLOCK_SIZE - s.indexInBlock)
              (encodeCycleDelta h (getPart block16 s.indexInBlock
                (h.COMPRESSION_BLOCK_SIZE - s.indexInBlock)) s).1).indexInBlock
              = h.COMPRESSION_BLOCK_SIZE := by
            show (encodeCycleDelta h _ s).1.indexInBlock + _ = _
            rw [k.indexInBlock]
            omega
          have := ih _ r (by rw [hadv]) hr
          rw [hadv] at this
          exact ⟨by omega, this.2⟩
      · have hcl : chosenCycleLength h options (getPart block16 s.indexInBlock
            (h.COMPRESSION_BLOCK_SIZE - s.indexInBlock)) s
            ≤ h.COMPRESSION_BLOCK_SIZE - s.indexInBlock := cycleLengthOf_le _ _
        have hbi := beginCycle_indexInBlock h options (getPart block16 s.indexInBlock
          (h.COMPRESSION_BLOCK_SIZE - s.indexInBlock)) s
        split at hr
        · split at hr
          · have k := encodeCycle_keeps h (beginCycle h options (getPart block16 s.indexInBlock
              (h.COMPRESSION_BLOCK_SIZE - s.indexInBlock)) s).currentCycle
              (beginCycle h options (getPart block16 s.indexInBlock
                (h.COMPRESSION_BLOCK_SIZE - s.indexInBlock)) s)
            have := ih _ r (by rw [k.indexInBlock, hbi]; omega) hr
            rw [k.indexInBlock, hbi] at this
            exact ⟨by omega, this.2⟩
          · have k := encodeDiff_keeps h (beginCycle h options (getPart block16 s.indexInBlock
              (h.COMPRESSION_BLOCK_SIZE - s.indexInBlock)) s).currentCycle
              (beginCycle h options (getPart block16 s.indexInBlock
                (h.COMPRESSION_BLOCK_SIZE - s.indexInBlock)) s)
            have := ih _ r (by rw [k.indexInBlock, hbi]; omega) hr
            rw [k.indexInBlock, hbi] at this
            exact ⟨by omega, this.2⟩
        · have k := encodeCycle_keeps h (beginCycle h options (getPart block16 s.indexInBlock
            (h.COMPRESSION_BLOCK_SIZE - s.indexInBlock)) s).currentCycle
            (beginCycle h options (getPart block16 s.indexInBlock
              (h.COMPRESSION_BLOCK_SIZE - s.indexInBlock)) s)
          split at hr
          · cases hr
            refine ⟨by rw [k.indexInBlock, hbi]; omega, by rw [k.indexInBlock, hbi]; omega, ?_⟩
            intro ht
            cases ht
          · split at hr
            · cases hr
            next s4 hd =>
              have d := deltaLoop_index h options block16 _ _ fuel _ _ s4
                (by rw [k.indexInBlock, hbi]; omega) (by rw [k.indexInBlock, hbi]; omega) hd
              rw [k.indexInBlock, hbi] at d
              have := ih _ r d.2 hr
              exact ⟨by omega, this.2⟩

/-- C23, the claim at explicit inputs (block size 8): on the whole-block
shortcut `encodeBlock` returns `true` with `indexInBlock = 0`, all 8 samples
being encoded; and when the header write of the second cycle fails it returns
`false` with `indexInBlock = 4`. -/
theorem encodeBlock_returns_below_block :
    (specHelpers 8).COMPRESSION_BLOCK_SIZE = 8 ∧
    (encodeBlock (specHelpers 8) wholeBlockOptions 12 cycleX
        (freshEncoder (specHelpers 8) reliableStream)).map
      (fun r => (r.2, r.1.indexInBlock, r.1.emitted))
      = some (true, 0, [Emitted.template cycleX]) ∧
    (encodeBlock (specHelpers 8) plainOptions 12 cycleX
        (freshEncoder (specHelpers 8) (streamFailingAfter 3))).map
      (fun r => (r.2, r.1.indexInBlock, r.1.emitted))
      = some (false, 4, [Emitted.template [100, -50, 3, 7]]) := by
  decide

/-- C23 as amended: `encodeBlock` sets `indexInBlock` to 0; on the whole-block
shortcut it returns with `indexInBlock = 0`; otherwise `indexInBlock` never
decreases and never exceeds `BLOCK` along the block loop and the delta loop,
and it equals `BLOCK` when `encodeBlock` returns `true` (after a failed write
it returns `false`, with `indexInBlock` possibly below `BLOCK`). -/
theorem indexInBlock_stays_in_block (fuel : Nat) (block16 : List Int) (s : HlacEncoder)
    (r : HlacEncoder × Bool) (hr : encodeBlock h options fuel block16 s = some r) :
    (startBlock h s).indexInBlock = 0 ∧
    ((h.getPossibleBitReductionAmount block16 : Int) ≤ options.bitRateForWholeBlock →
      r.1.indexInBlock = 0) ∧
    (¬ (h.getPossibleBitReductionAmount block16 : Int) ≤ options.bitRateForWholeBlock →
      r.1.indexInBlock ≤ h.COMPRESSION_BLOCK_SIZE ∧
      (r.2 = true → r.1.indexInBlock = h.COMPRESSION_BLOCK_SIZE)) ∧
    (∀ (f : Nat) (u : HlacEncoder) (v : HlacEncoder × Bool),
      u.indexInBlock ≤ h.COMPRESSION_BLOCK_SIZE →
      blockLoop h options f block16 u = some v →
      u.indexInBlock ≤ v.1.indexInBlock ∧ v.1.indexInBlock ≤ h.COMPRESSION_BLOCK_SIZE) ∧
    (∀ (f rest cycleLength numRemaining : Nat) (u v : HlacEncoder),
      numRemaining ≤ h.COMPRESSION_BLOCK_SIZE - u.indexInBlock + cycleLength →
      u.indexInBlock ≤ h.COMPRESSION_BLOCK_SIZE →
      deltaLoop h options f block16 rest cycleLength numRemaining u = some v →
      u.indexInBlock ≤ v.indexInBlock ∧ v.indexInBlock ≤ h.COMPRESSION_BLOCK_SIZE) := by
  refine ⟨rfl, ?_, ?_, ?_, ?_⟩
  · intro hw
    unfold encodeBlock at hr
    dsimp only at hr
    rw [if_pos hw] at hr
    cases hr
    exact (encodeCycle_keeps h block16 (startBlock h s)).indexInBlock
  · intro hw
    unfold encodeBlock at hr
    dsimp only at hr
    rw [if_neg hw] at hr
    exact (blockLoop_index h options block16 fuel (startBlock h s) r (Nat.zero_le _) hr).2
  · intro f u v hu hv
    have := blockLoop_index h options block16 f u v hu hv
    exact ⟨this.1, this.2.1⟩
  · intro f rest cycleLength numRemaining u v hn hu hv
    exact deltaLoop_index h options block16 rest cycleLength f numRemaining u v hn hu hv

theorem indexInBlock_stays_in_block_witness :
    ∃ r, encodeBlock (specHelpers 8) plainOptions 12 cycleX
        (freshEncoder (specHelpers 8) reliableStream) = some r ∧
      r.2 = true ∧ r.1.indexInBlock = (specHelpers 8).COMPRESSION_BLOCK_SIZE :=
  ⟨_, Option.eq_some_of_isSome (by decide), by decide,
    ((indexInBlock_stays_in_block (specHelpers 8) plainOptions 12 cycleX
      (freshEncoder (specHelpers 8) reliableStream) _
      (Option.eq_some_of_isSome (by decide))).2.2.1 (by decide)).2 (by decide)⟩

/-! ### What every emitted cycle satisfies -/

theorem Emits.emitsStay (P : Emitted → Prop) (s : HlacEncoder) : Emits P s s :=
  ⟨[], by simp, fun e he => by cases he⟩

theorem Emits.emitsThen {P : Emitted → Prop} {s t u : HlacEncoder} (a : Emits P s t)
    (b : Emits P t u) : Emits P s u := by
  obtain ⟨n1, e1, d1⟩ := a
  obtain ⟨n2, e2, d2⟩ := b
  refine ⟨n1 ++ n2, by rw [e2, e1, List.append_assoc], ?_⟩
  intro e he
  rcases List.mem_append.mp he with he | he
  · exact d1 e he
  · exact d2 e he

theorem Emits.of_same {P : Emitted → Prop} {s t : HlacEncoder} (e : t.emitted = s.emitted) :
    Emits P s t :=
  ⟨[], by simp [e], fun e he => by cases he⟩

theorem Emits.of_one {P : Emitted → Prop} {s t : HlacEncoder} {x : Emitted}
    (e : t.emitted = s.emitted ++ [x]) (hx : P x) : Emits P s t :=
  ⟨[x], e, fun y hy => by
    simp only [List.mem_singleton] at hy
    rw [hy]
    exact hx⟩

theorem encodeCycle_emits (P : Emitted → Prop) (cycle : List Int) (s : HlacEncoder)
    (hp : cycle.length ≠ 0 → P (Emitted.template cycle)) :
    Emits P s (encodeCycle h cycle s).1 := by
  rcases encodeCycle_emitted h cycle s with e | e
  · exact Emits.of_same e
  · unfold templateEntry at e
    split at e
    · exact Emits.of_same (by simpa using e)
    next hne => exact Emits.of_one e (hp hne)

theorem encodeCycleDelta_emits (P : Emitted → Prop) (cycle : List Int) (s : HlacEncoder)
    (hp : cycle.length ≠ 0 → cycle.length < 8 → P (Emitted.template cycle))
    (hd : 8 ≤ cycle.length → P (Emitted.delta cycle s.currentCycle)) :
    Emits P s (encodeCycleDelta h cycle s).1 := by
  rcases encodeCycleDelta_emitted h cycle s with e | e
  · exact Emits.of_same e
  · unfold deltaEntry at e
    split at e
    next hlt =>
      unfold templateEntry at e
      split at e
      · exact Emits.of_same (by simpa using e)
      next hne => exact Emits.of_one e (hp hne hlt)
    next hge => exact Emits.of_one e (hd (by omega))

theorem encodeDiff_emits (P : Emitted → Prop) (cycle : List Int) (s : HlacEncoder)
    (hp : P (Emitted.diff cycle)) : Emits P s (encodeDiff h cycle s).1 := by
  rcases encodeDiff_emitted h cycle s with e | e
  · exact Emits.of_same e
  · exact Emits.of_one e hp

theorem deltaLoop_positive (block16 : List Int) (rest : Nat) (cycleLength : Nat) (fuel : Nat) :
    ∀ (numRemaining : Nat) (s t : HlacEncoder),
      deltaLoop h options fuel block16 rest cycleLength numRemaining s = some t →
      Emits (fun e => 1 ≤ e.count) s t := by
  induction fuel with
  | zero =>
    intro numRemaining s t ht
    simp [deltaLoop] at ht
  | succ fuel ih =>
    intro numRemaining s t ht
    unfold deltaLoop at ht
    dsimp only at ht
    split at ht
    · split at ht
      · split at ht
        · have ea : Emits (fun e => 1 ≤ e.count) s
              (advance (getCycleLengthFromTemplate h options cycleLength block16 rest s) s) :=
            Emits.of_same rfl
          refine (ea.emitsThen ?_).emitsThen (ih _ _ t ht)
          apply encodeCycleDelta_emits
          · intro hne _
            show 1 ≤ List.length _
            omega
          · intro h8
            show 1 ≤ List.length _
            omega
        · cases ht
          exact Emits.emitsStay _ s
      · cases ht
        exact Emits.emitsStay _ s
    · cases ht
      exact Emits.emitsStay _ s

theorem blockLoop_positive (block16 : List Int)
    (hb : block16.length = h.COMPRESSION_BLOCK_SIZE) (fuel : Nat) :
    ∀ (s : HlacEncoder) (r : HlacEncoder × Bool),
      blockLoop h options fuel block16 s = some r → Emits (fun e => 1 ≤ e.count) s r.1 := by
  induction fuel with
  | zero =>
    intro s r hr
    simp [blockLoop] at hr
  | succ fuel ih =>
    intro s r hr
    unfold blockLoop at hr
    dsimp only at hr
    split at hr
    · cases hr
      exact Emits.emitsStay _ s
    next hex =>
      have hex2 : s.indexInBlock < h.COMPRESSION_BLOCK_SIZE := by
        simpa [isBlockExhausted] using hex
      split at hr
      · have e1 : Emits (fun e => 1 ≤ e.count) s (encodeCycleDelta h (getPart block16
            s.indexInBlock (h.COMPRESSION_BLOCK_SIZE - s.indexInBlock)) s).1 := by
          apply encodeCycleDelta_emits
          · intro hne _
            show 1 ≤ List.length _
            omega
          · intro h8
            show 1 ≤ List.length _
            omega
        split at hr
        · cases hr
          exact e1
        · have ea : Emits (fun e => 1 ≤ e.count)
              (encodeCycleDelta h (getPart block16
                s.indexInBlock (h.COMPRESSION_BLOCK_SIZE - s.indexInBlock)) s).1
              (advance (h.COMPRESSION_BLOCK_SIZE - s.indexInBlock)
                (encodeCycleDelta h (getPart block16
                  s.indexInBlock (h.COMPRESSION_BLOCK_SIZE - s.indexInBlock)) s).1) :=
            Emits.of_same rfl
          exact (e1.emitsThen ea).emitsThen (ih _ r hr)
      · have hcl : chosenCycleLength h options (getPart block16 s.indexInBlock
            (h.COMPRESSION_BLOCK_SIZE - s.indexInBlock)) s
            ≤ h.COMPRESSION_BLOCK_SIZE - s.indexInBlock := cycleLengthOf_le _ _
        have hpos := chosenCycleLength_pos h options (getPart block16 s.indexInBlock
            (h.COMPRESSION_BLOCK_SIZE - s.indexInBlock)) s hex2
        have hrest : (getPart block16 s.indexInBlock
            (h.COMPRESSION_BLOCK_SIZE - s.indexInBlock)).length
            = h.COMPRESSION_BLOCK_SIZE - s.indexInBlock := getPart_length _ _ _ (by omega)
        have hcyc : ((beginCycle h options (getPart block16 s.indexInBlock
            (h.COMPRESSION_BLOCK_SIZE - s.indexInBlock)) s).currentCycle).length
            = chosenCycleLength h options (getPart block16 s.indexInBlock
              (h.COMPRESSION_BLOCK_SIZE - s.indexInBlock)) s := by
          rw [beginCycle_currentCycle]
          exact getPart_length _ _ _ (by omega)
        have eb : Emits (fun e => 1 ≤ e.count) s (beginCycle h options (getPart block16
            s.indexInBlock (h.COMPRESSION_BLOCK_SIZE - s.indexInBlock)) s) :=
          Emits.of_same (beginCycle_emitted h options _ s)
        have ec : Emits (fun e => 1 ≤ e.count)
            (beginCycle h options (getPart block16
              s.indexInBlock (h.COMPRESSION_BLOCK_SIZE - s.indexInBlock)) s)
            (encodeCycle h (beginCycle h options (getPart block16 s.indexInBlock
              (h.COMPRESSION_BLOCK_SIZE - s.indexInBlock)) s).currentCycle
              (beginCycle h options (getPart block16
                s.indexInBlock (h.COMPRESSION_BLOCK_SIZE - s.indexInBlock)) s)).1 := by
          apply encodeCycle_emits
          intro hne
          show 1 ≤ List.length _
          omega
        split at hr
        · split at hr
          · exact (eb.emitsThen ec).emitsThen (ih _ r hr)
          · refine (eb.emitsThen ?_).emitsThen (ih _ r hr)
            apply encodeDiff_emits
            show 1 ≤ List.length _
            omega
        · split at hr
          · cases hr
            exact eb.emitsThen ec
          · split at hr
            · cases hr
            next s4 hd =>
              exact ((eb.emitsThen ec).emitsThen
                (deltaLoop_positive h options block16 _ _ fuel _ _ s4 hd)).emitsThen (ih _ r hr)

theorem encodeBlock_positive (block16 : List Int)
    (hb : block16.length = h.COMPRESSION_BLOCK_SIZE) (fuel : Nat) (s : HlacEncoder)
    (r : HlacEncoder × Bool) (hr : encodeBlock h options fuel block16 s = some r) :
    Emits (fun e => 1 ≤ e.count) s r.1 := by
  unfold encodeBlock at hr
  dsimp only at hr
  split at hr
  · cases hr
    refine (Emits.of_same rfl : Emits _ s (startBlock h s)).emitsThen ?_
    apply encodeCycle_emits
    intro hne
    show 1 ≤ List.length _
    omega
  · exact (Emits.of_same rfl : Emits _ s (startBlock h s)).emitsThen
      (blockLoop_positive h options block16 hb fuel _ r hr)

/-! ### The length of a diff cycle -/

theorem idealCycleLength_fixed (W : Nat) (hW : 0 < W) (hfix : options.fixedBlockWidth = (W : Int))
    (rest : List Int) (s : HlacEncoder)
    (hf : s.firstCycleLength < 0 ∨ s.firstCycleLength = (W : Int)) :
    idealCycleLength h options rest s = (W : Int) := by
  unfold idealCycleLength
  split
  · rw [if_pos (by omega)]
    exact hfix
  · omega

theorem chosenCycleLength_fixed (W : Nat) (hW : 0 < W) (hfix : options.fixedBlockWidth = (W : Int))
    (rest : List Int) (s : HlacEncoder)
    (hf : s.firstCycleLength < 0 ∨ s.firstCycleLength = (W : Int))
    (hnr : W ≤ h.COMPRESSION_BLOCK_SIZE - s.indexInBlock) :
    chosenCycleLength h options rest s = W := by
  unfold chosenCycleLength cycleLengthOf
  rw [idealCycleLength_fixed h options W hW hfix rest s hf]
  rw [if_neg (by omega)]
  omega

theorem beginCycle_firstCycleLength_fixed (W : Nat) (hW : 0 < W)
    (hfix : options.fixedBlockWidth = (W : Int)) (rest : List Int) (s : HlacEncoder)
    (hf : s.firstCycleLength < 0 ∨ s.firstCycleLength = (W : Int)) :
    (beginCycle h options rest s).firstCycleLength < 0 ∨
      (beginCycle h options rest s).firstCycleLength = (W : Int) := by
  show (rememberFirstCycleLength h options rest s).firstCycleLength < 0 ∨
    (rememberFirstCycleLength h options rest s).firstCycleLength = (W : Int)
  unfold rememberFirstCycleLength
  split
  · right
    exact idealCycleLength_fixed h options W hW hfix rest s hf
  · exact hf

/-- In the diff mode with a fixed cycle length `2 ^ k` that divides `BLOCK`,
every cycle that the block loop hands to `encodeDiff` holds `2 ^ k` samples. -/
theorem blockLoop_diffLength (k : Nat)
    (hdiff : options.useDiffEncodingWithFixedBlocks = true)
    (hfix : options.fixedBlockWidth = ((2 ^ k : Nat) : Int))
    (hdvd : 2 ^ k ∣ h.COMPRESSION_BLOCK_SIZE)
    (block16 : List Int) (hb : block16.length = h.COMPRESSION_BLOCK_SIZE) (fuel : Nat) :
    ∀ (s : HlacEncoder) (r : HlacEncoder × Bool),
      2 ^ k ∣ s.indexInBlock →
      (s.firstCycleLength < 0 ∨ s.firstCycleLength = ((2 ^ k : Nat) : Int)) →
      blockLoop h options fuel block16 s = some r → Emits (DiffLength k) s r.1 := by
  have hW : 0 < 2 ^ k := Nat.two_pow_pos k
  induction fuel with
  | zero =>
    intro s r _ _ hr
    simp [blockLoop] at hr
  | succ fuel ih =>
    intro s r hi hf hr
    unfold blockLoop at hr
    dsimp only at hr
    split at hr
    · cases hr
      exact Emits.emitsStay _ s
    next hex =>
      have hex2 : s.indexInBlock < h.COMPRESSION_BLOCK_SIZE := by
        simpa [isBlockExhausted] using hex
      split at hr
      · have k1 := encodeCycleDelta_keeps h (getPart block16 s.indexInBlock
          (h.COMPRESSION_BLOCK_SIZE - s.indexInBlock)) s
        have e1 : Emits (DiffLength k) s (encodeCycleDelta h (getPart block16
            s.indexInBlock (h.COMPRESSION_BLOCK_SIZE - s.indexInBlock)) s).1 :=
          encodeCycleDelta_emits h _ _ s (fun _ _ => True.intro) (fun _ => True.intro)
        split at hr
        · cases hr
          exact e1
        · have ea : Emits (DiffLength k)
              (encodeCycleDelta h (getPart block16
                s.indexInBlock (h.COMPRESSION_BLOCK_SIZE - s.indexInBlock)) s).1
              (advance (h.COMPRESSION_BLOCK_SIZE - s.indexInBlock)
                (encodeCycleDelta h (getPart block16
                  s.indexInBlock (h.COMPRESSION_BLOCK_SIZE - s.indexInBlock)) s).1) :=
            Emits.of_same rfl
          refine (e1.emitsThen ea).emitsThen (ih _ r ?_ ?_ hr)
          · show 2 ^ k ∣ (encodeCycleDelta h _ s).1.indexInBlock + _
            rw [k1.indexInBlock]
            have : s.indexInBlock + (h.COMPRESSION_BLOCK_SIZE - s.indexInBlock)
                = h.COMPRESSION_BLOCK_SIZE := by omega
            rw [this]
            exact hdvd
          · show (encodeCycleDelta h _ s).1.firstCycleLength < 0 ∨
              (encodeCycleDelta h _ s).1.firstCycleLength = _
            rw [k1.firstCycleLength]
            exact hf
      · have hnr : 2 ^ k ≤ h.COMPRESSION_BLOCK_SIZE - s.indexInBlock :=
          Nat.le_of_dvd (by omega) (Nat.dvd_sub' hdvd hi)
        have hch := chosenCycleLength_fixed h options (2 ^ k) hW hfix (getPart block16
          s.indexInBlock (h.COMPRESSION_BLOCK_SIZE - s.indexInBlock)) s hf hnr
        have hbi := beginCycle_indexInBlock h options (getPart block16 s.indexInBlock
          (h.COMPRESSION_BLOCK_SIZE - s.indexInBlock)) s
        have hbf := beginCycle_firstCycleLength_fixed h options (2 ^ k) hW hfix (getPart block16
          s.indexInBlock (h.COMPRESSION_BLOCK_SIZE - s.indexInBlock)) s hf
        have hrest : (getPart block16 s.indexInBlock
            (h.COMPRESSION_BLOCK_SIZE - s.indexInBlock)).length
            = h.COMPRESSION_BLOCK_SIZE - s.indexInBlock := getPart_length _ _ _ (by omega)
        have hcyc : ((beginCycle h options (getPart block16 s.indexInBlock
            (h.COMPRESSION_BLOCK_SIZE - s.indexInBlock)) s).currentCycle).length = 2 ^ k := by
          rw [beginCycle_currentCycle, hch]
          exact getPart_length _ _ _ (by omega)
        have eb : Emits (DiffLength k) s (beginCycle h options (getPart block16
            s.indexInBlock (h.COMPRESSION_BLOCK_SIZE - s.indexInBlock)) s) :=
          Emits.of_same (beginCycle_emitted h options _ s)
        try rw [if_pos hdiff] at hr
        split at hr
        · have k2 := encodeCycle_keeps h (beginCycle h options (getPart block16 s.indexInBlock
            (h.COMPRESSION_BLOCK_SIZE - s.indexInBlock)) s).currentCycle
            (beginCycle h options (getPart block16 s.indexInBlock
              (h.COMPRESSION_BLOCK_SIZE - s.indexInBlock)) s)
          refine (eb.emitsThen (encodeCycle_emits h _ _ _ (fun _ => True.intro))).emitsThen
            (ih _ r ?_ ?_ hr)
          · rw [k2.indexInBlock, hbi, hch]
            exact Nat.dvd_add hi (dvd_refl _)
          · rw [k2.firstCycleLength]
            exact hbf
        · have k2 := encodeDiff_keeps h (beginCycle h options (getPart block16 s.indexInBlock
            (h.COMPRESSION_BLOCK_SIZE - s.indexInBlock)) s).currentCycle
            (beginCycle h options (getPart block16 s.indexInBlock
              (h.COMPRESSION_BLOCK_SIZE - s.indexInBlock)) s)
          refine (eb.emitsThen (encodeDiff_emits h _ _ _ hcyc)).emitsThen (ih _ r ?_ ?_ hr)
          · rw [k2.indexInBlock, hbi, hch]
            exact Nat.dvd_add hi (dvd_refl _)
          · rw [k2.firstCycleLength]
            exact hbf

theorem packed_low_byte (x k : Nat) (hk : k < 256) :
    ((x <<< 8) % 65536 ||| k % 256) % 256 = k := by
  have h1 : (x <<< 8) % 65536 = 2 ^ 8 * (x % 256) := by
    rw [Nat.shiftLeft_eq]
    omega
  have h2 : k % 256 = k := Nat.mod_eq_of_lt hk
  rw [h1, h2, ← Nat.mul_add_lt_is_or (by omega) _]
  omega

/-! ### A delta loop that does not advance -/

theorem encodeCycleDelta_nil (s : HlacEncoder) : encodeCycleDelta h [] s = (s, true) := rfl

/-- When the refined length of the delta cycle is 0, an iteration of the delta
loop leaves the encoder as it was, and the loop goes on for ever: no amount
of fuel makes it return. -/
theorem deltaLoop_stuck (block16 : List Int) (rest cycleLength : Nat) (s : HlacEncoder)
    (hd : options.useDeltaEncoding = true) (hex : isBlockExhausted h s = false)
    (hnr : 2 * cycleLength < h.COMPRESSION_BLOCK_SIZE - s.indexInBlock)
    (hf : factorExceeds
      (h.getBitReductionWithTemplate s.currentCycle (getPart block16 s.indexInBlock cycleLength)
        options.removeDcOffset) s.bitRateForCurrentCycle options.deltaCycleThreshhold = true)
    (h0 : getCycleLengthFromTemplate h options cycleLength block16 rest s = 0) (fuel : Nat) :
    ∀ numRemaining, 2 * cycleLength < numRemaining →
      deltaLoop h options fuel block16 rest cycleLength numRemaining s = none := by
  induction fuel with
  | zero =>
    intro _ _
    rfl
  | succ fuel ih =>
    intro numRemaining hn
    unfold deltaLoop
    dsimp only
    rw [if_pos ⟨hd, hex⟩, if_pos hn, if_pos hf, h0, List.take_zero, encodeCycleDelta_nil]
    exact ih _ hnr

theorem blockLoop_single_sample_stuck (fuel : Nat) (block16 : List Int) (s : HlacEncoder)
    (hdiff : options.useDiffEncodingWithFixedBlocks = false)
    (hex : isBlockExhausted h s = false)
    (hnr : ¬ h.COMPRESSION_BLOCK_SIZE - s.indexInBlock ≤ 4)
    (hstuck : ∀ f, deltaLoop h options f block16 s.indexInBlock
      (chosenCycleLength h options
        (getPart block16 s.indexInBlock (h.COMPRESSION_BLOCK_SIZE - s.indexInBlock)) s)
      (h.COMPRESSION_BLOCK_SIZE - s.indexInBlock)
      (encodeCycle h (beginCycle h options
        (getPart block16 s.indexInBlock (h.COMPRESSION_BLOCK_SIZE - s.indexInBlock))
        s).currentCycle (beginCycle h options
        (getPart block16 s.indexInBlock (h.COMPRESSION_BLOCK_SIZE - s.indexInBlock)) s)).1
      = none) :
    (encodeCycle h (beginCycle h options
        (getPart block16 s.indexInBlock (h.COMPRESSION_BLOCK_SIZE - s.indexInBlock))
        s).currentCycle (beginCycle h options
        (getPart block16 s.indexInBlock (h.COMPRESSION_BLOCK_SIZE - s.indexInBlock)) s)).2 = true →
    blockLoop h options fuel block16 s = none := by
  intro htrue
  cases fuel with
  | zero => rfl
  | succ f =>
    unfold blockLoop
    dsimp only
    rw [if_neg (by rw [hex]; decide), if_neg hnr, if_neg (by rw [hdiff]; decide),
      if_neg (by rw [htrue]; decide), hstuck f]

theorem deltaLoop_break (fuel : Nat) (block16 : List Int) (rest cycleLength numRemaining : Nat)
    (s : HlacEncoder)
    (hf : factorExceeds
      (h.getBitReductionWithTemplate s.currentCycle (getPart block16 s.indexInBlock cycleLength)
        options.removeDcOffset) s.bitRateForCurrentCycle options.deltaCycleThreshhold = false) :
    deltaLoop h options (fuel + 1) block16 rest cycleLength numRemaining s = some s := by
  unfold deltaLoop
  dsimp only
  split
  · split
    · rw [if_neg (by rw [hf]; decide)]
    · rfl
  · rfl

theorem blockLoop_none_of_next (fuel : Nat) (block16 : List Int) (s u : HlacEncoder)
    (hdiff : options.useDiffEncodingWithFixedBlocks = false)
    (hex : isBlockExhausted h s = false)
    (hnr : ¬ h.COMPRESSION_BLOCK_SIZE - s.indexInBlock ≤ 4)
    (htrue : (encodeCycle h (beginCycle h options
        (getPart block16 s.indexInBlock (h.COMPRESSION_BLOCK_SIZE - s.indexInBlock))
        s).currentCycle (beginCycle h options
        (getPart block16 s.indexInBlock (h.COMPRESSION_BLOCK_SIZE - s.indexInBlock)) s)).2 = true)
    (hbreak : ∀ f, deltaLoop h options (f + 1) block16 s.indexInBlock
      (chosenCycleLength h options
        (getPart block16 s.indexInBlock (h.COMPRESSION_BLOCK_SIZE - s.indexInBlock)) s)
      (h.COMPRESSION_BLOCK_SIZE - s.indexInBlock)
      (encodeCycle h (beginCycle h options
        (getPart block16 s.indexInBlock (h.COMPRESSION_BLOCK_SIZE - s.indexInBlock))
        s).currentCycle (beginCycle h options
        (getPart block16 s.indexInBlock (h.COMPRESSION_BLOCK_SIZE - s.indexInBlock)) s)).1
      = some u)
    (hnext : ∀ f, blockLoop h options f block16 u = none) :
    blockLoop h options fuel block16 s = none := by
  cases fuel with
  | zero => rfl
  | succ f =>
    unfold blockLoop
    dsimp only
    rw [if_neg (by rw [hex]; decide), if_neg hnr, if_neg (by rw [hdiff]; decide),
      if_neg (by rw [htrue]; decide)]
    cases f with
    | zero => rfl
    | succ g =>
      rw [hbreak g]
      exact hnext _

/-- C29: `encodeBlock` does not return for the block `[5, 9, 9, 9, 9, 9, 9, 9]`
(block size 8, the helpers modelled from the specification) with a fixed
cycle length of 1 and delta encoding: whatever the fuel, the result is `none`.
After the template `[9]` at position 1 the delta test passes, and
`getCycleLengthFromTemplate` returns `newCycle.size - 1 = 0`, since the window
that starts one sample before `rest` (the sample 5) reduces fewer bits than the
window that is the template itself. The delta cycle is empty, `indexInBlock`
stays at 2, and the delta loop repeats the same iteration for ever. -/
theorem encodeBlock_single_sample_never_returns :
    (∀ fuel, encodeBlock (specHelpers 8) singleSampleOptions fuel blockS
      (freshEncoder (specHelpers 8) reliableStream) = none) ∧
    getPartAt blockS 1 ((1 : Nat) - 1 : Int) 1 = [9] ∧
    getPartAt blockS 1 ((1 : Nat) - 2 : Int) 1 = [5] ∧
    (specHelpers 8).getBitReductionWithTemplate [9] [9] false = 5 ∧
    (specHelpers 8).getBitReductionWithTemplate [9] [5] false = 2 ∧
    getCycleLengthFromTemplate (specHelpers 8) singleSampleOptions 1 blockS 1
      (setCurrentCycle (specHelpers 8) [9] (freshEncoder (specHelpers 8) reliableStream)) = 0 := by
  refine ⟨?_, by decide, by decide, by decide, by decide, by decide⟩
  intro fuel
  unfold encodeBlock
  dsimp only
  split
  · rename_i hc
    exact absurd hc (by decide)
  · exact blockLoop_none_of_next (specHelpers 8) singleSampleOptions fuel blockS _ _ rfl
      (by decide) (by decide) (by decide)
      (fun f => deltaLoop_break (specHelpers 8) singleSampleOptions f blockS _ _ _ _ (by decide))
      (fun f => blockLoop_single_sample_stuck (specHelpers 8) singleSampleOptions f blockS _ rfl
        (by decide) (by decide)
        (fun f' => deltaLoop_stuck (specHelpers 8) singleSampleOptions blockS _ _ _ rfl
          (by decide) (by decide) (by decide) (by decide) f' _ (by decide))
        (by decide))

/-! ### The first delta after a template -/

/-- C26: the first test of the delta loop uses the `numRemaining` that was
computed before the template was encoded. For the block of 20 samples
`cycleX ++ cycleX ++ [1, 2, 3, 4]` with a fixed cycle length of 8 (the helpers
modelled from the specification), 12 samples remain after the template, fewer
than `2 * 8`, and `encodeBlock` emits the second cycle as a delta all the
same: the test is `20 > 2 * 8`. After that delta `numRemaining` is
recomputed, and the last 4 samples are emitted as a template. -/
theorem first_delta_ignores_template :
    (encodeBlock (specHelpers 20) deltaOptions 30 blockT
        (freshEncoder (specHelpers 20) reliableStream)).map (fun r => r.1.emitted)
      = some [Emitted.template cycleX, Emitted.delta cycleX cycleX,
          Emitted.template [1, 2, 3, 4]] ∧
    deltaOptions.fixedBlockWidth = 8 ∧
    (specHelpers 20).COMPRESSION_BLOCK_SIZE - coverage [Emitted.template cycleX] = 12 ∧
    12 < 2 * 8 := by
  decide

/-! ### The bytes of the emitted cycles -/

theorem renderAll_append (a b : List Emitted) :
    renderAll h (a ++ b) = renderAll h a ++ renderAll h b := by
  induction a with
  | nil => rfl
  | cons e es ih =>
    show cycleBytes h e ++ renderAll h (es ++ b) = (cycleBytes h e ++ renderAll h es) ++ _
    rw [ih, List.append_assoc]

theorem Renders.rendersStay (s : HlacEncoder) : Renders h s s :=
  ⟨[], (List.append_nil _).symm, (List.append_nil _).symm⟩

theorem Renders.rendersThen {h : Helpers} {s t u : HlacEncoder} (a : Renders h s t)
    (b : Renders h t u) : Renders h s u := by
  obtain ⟨n1, e1, d1⟩ := a
  obtain ⟨n2, e2, d2⟩ := b
  exact ⟨n1 ++ n2, by rw [e2, e1, List.append_assoc],
    by rw [d2, d1, renderAll_append, List.append_assoc]⟩

theorem Renders.of_unwritten {s t : HlacEncoder} (e : t.emitted = s.emitted)
    (d : t.output = s.output) : Renders h s t :=
  ⟨[], by rw [e, List.append_nil], by rw [d]; exact (List.append_nil _).symm⟩

theorem Renders.of_entry {s t : HlacEncoder} (x : Emitted) (e : t.emitted = s.emitted ++ [x])
    (d : t.output.data = s.output.data ++ cycleBytes h x) : Renders h s t :=
  ⟨[x], e, by
    rw [d]
    show _ = _ ++ (cycleBytes h x ++ [])
    rw [List.append_nil]⟩

theorem encodeCycle_renders (cycle : List Int) (s : HlacEncoder) (hs : s.output.reliable) :
    Renders h s (encodeCycle h cycle s).1 := by
  by_cases hne : cycle = []
  · rw [hne]
    exact Renders.rendersStay h s
  · have hlen : cycle.length ≠ 0 := fun h0 => hne (List.length_eq_zero.mp h0)
    refine Renders.of_entry h (Emitted.template cycle) ?_ ?_
    · rw [(encodeCycle_reliable h cycle s hs).2]
      unfold templateEntry
      rw [if_neg hlen]
    · rw [encodeCycle_data h cycle s hs hne]
      simp only [cycleBytes, List.append_assoc, List.cons_append]

theorem encodeCycleDelta_renders (cycle : List Int) (s : HlacEncoder)
    (hs : s.output.reliable) : Renders h s (encodeCycleDelta h cycle s).1 := by
  by_cases hlen : cycle.length < 8
  · have e : encodeCycleDelta h cycle s = encodeCycle h cycle s := by
      unfold encodeCycleDelta
      rw [if_pos hlen]
    rw [e]
    exact encodeCycle_renders h cycle s hs
  · obtain ⟨d, e⟩ := encodeCycleDelta_data h cycle s hs (by omega)
    refine Renders.of_entry h (Emitted.delta cycle s.currentCycle) e ?_
    rw [d]
    simp only [cycleBytes, List.append_assoc, List.cons_append]

/-- The bytes of a diff cycle on a stream whose writes all succeed: the
sentinel, the packed bit rates and logarithm, the two payloads. -/
theorem encodeDiff_data (cycle : List Int) (s : HlacEncoder) (hs : s.output.reliable) :
    (encodeDiff h cycle s).1.output.data = s.output.data ++ cycleBytes h (Emitted.diff cycle) := by
  have hd := writeDiffHeader_data
    (h.getSuitableCompressorForData (h.createBufferWithFullValues cycle)).allowedBitRange
    (h.getSuitableCompressorForData
      (h.createBufferWithErrorValues cycle (h.createBufferWithFullValues cycle))).allowedBitRange
    cycle.length s
  have hr := writeDiffHeader_result
    (h.getSuitableCompressorForData (h.createBufferWithFullValues cycle)).allowedBitRange
    (h.getSuitableCompressorForData
      (h.createBufferWithErrorValues cycle (h.createBufferWithFullValues cycle))).allowedBitRange
    cycle.length s
  obtain ⟨ha, hk⟩ := writeDiffHeader_stream
    (h.getSuitableCompressorForData (h.createBufferWithFullValues cycle)).allowedBitRange
    (h.getSuitableCompressorForData
      (h.createBufferWithErrorValues cycle (h.createBufferWithFullValues cycle))).allowedBitRange
    cycle.length s (hs _)
  rw [if_pos (hs _), if_pos (hs _)] at hd
  rw [hs] at hr
  unfold encodeDiff writePayloadChecked noteEmitted
  simp only [hr, write_result, write_data, write_ok, write_attempts, ha, hk, hd, hs _,
    Bool.true_eq_false, if_false, if_true, cycleBytes, List.append_assoc, List.cons_append]

theorem encodeDiff_renders (cycle : List Int) (s : HlacEncoder) (hs : s.output.reliable) :
    Renders h s (encodeDiff h cycle s).1 :=
  Renders.of_entry h (Emitted.diff cycle) (encodeDiff_reliable h cycle s hs).2
    (encodeDiff_data h cycle s hs)

theorem beginCycle_renders (rest : List Int) (s : HlacEncoder) :
    Renders h s (beginCycle h options rest s) :=
  Renders.of_unwritten h (beginCycle_emitted h options rest s)
    (rememberFirstCycleLength_untouched h options rest s).1

theorem deltaLoop_renders (block16 : List Int) (rest : Nat) (cycleLength : Nat) (fuel : Nat) :
    ∀ (numRemaining : Nat) (s t : HlacEncoder), s.output.reliable →
      deltaLoop h options fuel block16 rest cycleLength numRemaining s = some t →
      Renders h s t := by
  induction fuel with
  | zero =>
    intro numRemaining s t _ ht
    simp [deltaLoop] at ht
  | succ fuel ih =>
    intro numRemaining s t hs ht
    unfold deltaLoop at ht
    dsimp only at ht
    split at ht
    · split at ht
      · split at ht
        · have ea : Renders h s
              (advance (getCycleLengthFromTemplate h options cycleLength block16 rest s) s) :=
            Renders.of_unwritten h rfl rfl
          have hs1 : (advance (getCycleLengthFromTemplate h options cycleLength block16 rest s)
              s).output.reliable := hs
          have ed := encodeCycleDelta_renders h ((getPart block16 s.indexInBlock cycleLength).take
            (getCycleLengthFromTemplate h options cycleLength block16 rest s))
            (advance (getCycleLengthFromTemplate h options cycleLength block16 rest s) s) hs1
          exact (ea.rendersThen ed).rendersThen
            (ih _ _ t ((encodeCycleDelta_frame h _ _).reliable hs1) ht)
        · cases ht
          exact Renders.rendersStay h s
      · cases ht
        exact Renders.rendersStay h s
    · cases ht
      exact Renders.rendersStay h s

theorem blockLoop_renders (block16 : List Int) (fuel : Nat) :
    ∀ (s : HlacEncoder) (r : HlacEncoder × Bool), s.output.reliable →
      blockLoop h options fuel block16 s = some r → Renders h s r.1 := by
  induction fuel with
  | zero =>
    intro s r _ hr
    simp [blockLoop] at hr
  | succ fuel ih =>
    intro s r hs hr
    unfold blockLoop at hr
    dsimp only at hr
    split at hr
    · cases hr
      exact Renders.rendersStay h s
    · split at hr
      · have e1 := encodeCycleDelta_renders h (getPart block16 s.indexInBlock
          (h.COMPRESSION_BLOCK_SIZE - s.indexInBlock)) s hs
        have f1 := (encodeCycleDelta_frame h (getPart block16 s.indexInBlock
          (h.COMPRESSION_BLOCK_SIZE - s.indexInBlock)) s).reliable hs
        split at hr
        · cases hr
          exact e1
        · have ea : Renders h
              (encodeCycleDelta h (getPart block16 s.indexInBlock
                (h.COMPRESSION_BLOCK_SIZE - s.indexInBlock)) s).1
              (advance (h.COMPRESSION_BLOCK_SIZE - s.indexInBlock)
                (encodeCycleDelta h (getPart block16 s.indexInBlock
                  (h.COMPRESSION_BLOCK_SIZE - s.indexInBlock)) s).1) :=
            Renders.of_unwritten h rfl rfl
          exact (e1.rendersThen ea).rendersThen (ih _ r f1 hr)
      · have eb := beginCycle_renders h options (getPart block16 s.indexInBlock
          (h.COMPRESSION_BLOCK_SIZE - s.indexInBlock)) s
        have fb := (beginCycle_frame h options (getPart block16 s.indexInBlock
          (h.COMPRESSION_BLOCK_SIZE - s.indexInBlock)) s).reliable hs
        have ec := encodeCycle_renders h (beginCycle h options (getPart block16 s.indexInBlock
            (h.COMPRESSION_BLOCK_SIZE - s.indexInBlock)) s).currentCycle
          (beginCycle h options (getPart block16 s.indexInBlock
            (h.COMPRESSION_BLOCK_SIZE - s.indexInBlock)) s) fb
        have fc := (encodeCycle_frame h (beginCycle h options (getPart block16 s.indexInBlock
            (h.COMPRESSION_BLOCK_SIZE - s.indexInBlock)) s).currentCycle
          (beginCycle h options (getPart block16 s.indexInBlock
            (h.COMPRESSION_BLOCK_SIZE - s.indexInBlock)) s)).reliable fb
        split at hr
        · split at hr
          · exact (eb.rendersThen ec).rendersThen (ih _ r fc hr)
          · exact (eb.rendersThen (encodeDiff_renders h _ _ fb)).rendersThen
              (ih _ r ((encodeDiff_frame h _ _).reliable fb) hr)
        · split at hr
          · cases hr
            exact eb.rendersThen ec
          · split at hr
            · cases hr
            next s4 hd =>
              exact ((eb.rendersThen ec).rendersThen
                (deltaLoop_renders h options block16 _ _ fuel _ _ s4 fc hd)).rendersThen
                (ih _ r ((deltaLoop_frame h options _ _ _ _ _ _ _ hd).reliable fc) hr)

theorem encodeBlock_renders (block16 : List Int) (fuel : Nat) (s : HlacEncoder)
    (r : HlacEncoder × Bool) (hs : s.output.reliable)
    (hr : encodeBlock h options fuel block16 s = some r) : Renders h s r.1 := by
  have e0 : Renders h s (startBlock h s) := Renders.of_unwritten h rfl rfl
  have hs0 : (startBlock h s).output.reliable := hs
  unfold encodeBlock at hr
  dsimp only at hr
  split at hr
  · cases hr
    exact e0.rendersThen (encodeCycle_renders h block16 _ hs0)
  · exact e0.rendersThen (blockLoop_renders h options block16 fuel _ r hs0 hr)

theorem encodeLastBlock_renders (a : List Int) (s : HlacEncoder) (hs : s.output.reliable)
    (hle : a.length ≤ h.COMPRESSION_BLOCK_SIZE) :
    (encodeLastBlock h a s).emitted = s.emitted ++ (templateEntry a
      ++ [Emitted.padding (h.COMPRESSION_BLOCK_SIZE - a.length)]) ∧
    (encodeLastBlock h a s).output.data = s.output.data ++ renderAll h (templateEntry a
      ++ [Emitted.padding (h.COMPRESSION_BLOCK_SIZE - a.length)]) := by
  have hpad : ((h.COMPRESSION_BLOCK_SIZE : Int) - a.length).toNat
      = h.COMPRESSION_BLOCK_SIZE - a.length := by omega
  have hcast : ((h.COMPRESSION_BLOCK_SIZE - a.length : Nat) : Int)
      = (h.COMPRESSION_BLOCK_SIZE : Int) - a.length := by omega
  have he := encodeLastBlock_emitted h a s hs
  rw [hpad, List.append_assoc] at he
  refine ⟨he, ?_⟩
  obtain ⟨n1, e1, d1⟩ := encodeCycle_renders h a s hs
  have en : n1 = templateEntry a :=
    List.append_cancel_left (e1.symm.trans (encodeCycle_reliable h a s hs).2)
  have f := (encodeCycle_frame h a s).reliable hs
  have r1 := writeCycleHeader_reliable true 0 ((h.COMPRESSION_BLOCK_SIZE : Int) - a.length)
    (encodeCycle h a s).1 f
  have dh := writeCycleHeader_data_reliable true 0 ((h.COMPRESSION_BLOCK_SIZE : Int) - a.length)
    (encodeCycle h a s).1 f
  have hdata : (encodeLastBlock h a s).output.data
      = (writeCycleHeader true 0 ((h.COMPRESSION_BLOCK_SIZE : Int) - a.length)
        (encodeCycle h a s).1).1.output.data := by
    unfold encodeLastBlock
    dsimp only
    rw [if_neg (by rw [r1]; simp)]
    rfl
  rw [hdata, dh, d1, en, renderAll_append, List.append_assoc]
  show _ = _ ++ (_ ++ (cycleBytes h (Emitted.padding _) ++ []))
  rw [List.append_nil]
  show _ = _ ++ (_ ++ 1 :: shortBytes ((h.COMPRESSION_BLOCK_SIZE - a.length : Nat) : Int))
  rw [hcast]
  rfl

theorem declaredCount_header (b : Nat) (n : Nat) (rest : List Nat) (hn : n ≤ 32767) :
    declaredCount (b :: shortBytes (n : Int) ++ rest) = n := by
  rw [shortBytes_natCast n (by omega)]
  show toInt16 ((n % 256 : Nat) + 256 * ((n / 256 : Nat) : Int)) = n
  unfold toInt16
  omega

/-! ### The counts that the headers declare -/

theorem count_le_coverage (new : List Emitted) (e : Emitted) (he : e ∈ new) :
    e.count ≤ coverage new := by
  induction new with
  | nil => cases he
  | cons x xs ih =>
    have hc : coverage (x :: xs) = x.count + coverage xs := by simp [coverage]
    rw [hc]
    rcases List.mem_cons.mp he with e1 | e1
    · rw [e1]
      omega
    · have := ih e1
      omega

/-- The header of a template, a delta or a padding entry declares the number
of samples of the entry. -/
theorem declaredCount_cycleBytes (e : Emitted) (hd : ∀ c, e ≠ Emitted.diff c)
    (hc : e.count ≤ 32767) : declaredCount (cycleBytes h e) = e.count := by
  cases e with
  | template c => exact declaredCount_header _ c.length _ hc
  | delta c r => exact declaredCount_header _ c.length _ hc
  | diff c => exact absurd rfl (hd c)
  | padding n =>
    have := declaredCount_header 1 n [] hc
    rw [List.append_nil] at this
    exact this

/-- C6: on a stream whose writes all succeed (block size within the 16-bit
count), the bytes that `encodeBlock` writes for a block of `BLOCK` samples are
the bytes of the cycles it emitted, one after the other; the header of every
template and delta cycle declares the number of samples of that cycle, and
the sample counts of all emitted cycles (templates, deltas and diffs, for
every option set) sum to `BLOCK`. For a final block of `n ≤ BLOCK` samples
`encodeLastBlock` writes the `n` samples as a template whose header declares
`n`, and a padding header whose declared count added to `n` gives `BLOCK`. -/
theorem emitted_cycles_cover_block (s : HlacEncoder) (hs : s.output.reliable)
    (hB : h.COMPRESSION_BLOCK_SIZE ≤ 32767) :
    (∀ (fuel : Nat) (block16 : List Int) (r : HlacEncoder × Bool),
      block16.length = h.COMPRESSION_BLOCK_SIZE →
      encodeBlock h options fuel block16 s = some r →
      ∃ new, r.1.emitted = s.emitted ++ new ∧
        r.1.output.data = s.output.data ++ renderAll h new ∧
        coverage new = h.COMPRESSION_BLOCK_SIZE ∧
        ∀ e ∈ new, (∀ c, e ≠ Emitted.diff c) →
          declaredCount (cycleBytes h e) = e.count) ∧
    (∀ (a : List Int), a.length ≤ h.COMPRESSION_BLOCK_SIZE →
      ∃ pad, (encodeLastBlock h a s).emitted
          = s.emitted ++ (templateEntry a ++ [Emitted.padding pad]) ∧
        (encodeLastBlock h a s).output.data
          = s.output.data ++ renderAll h (templateEntry a ++ [Emitted.padding pad]) ∧
        (a ≠ [] → templateEntry a = [Emitted.template a] ∧
          declaredCount (cycleBytes h (Emitted.template a)) = a.length) ∧
        declaredCount (cycleBytes h (Emitted.padding pad)) = pad ∧
        a.length + pad = h.COMPRESSION_BLOCK_SIZE ∧
        coverage (templateEntry a ++ [Emitted.padding pad]) = h.COMPRESSION_BLOCK_SIZE) := by
  constructor
  · intro fuel block16 r hb hr
    obtain ⟨new, e1, d1⟩ := encodeBlock_renders h options block16 fuel s r hs hr
    obtain ⟨_, new', e2, c2⟩ := encodeBlock_coverage h options block16 hb fuel s r hs hr
    have hnew : new' = new := List.append_cancel_left (e2.symm.trans e1)
    subst hnew
    refine ⟨new', e1, d1, c2, ?_⟩
    intro e he hd
    have hle := count_le_coverage new' e he
    exact declaredCount_cycleBytes h e hd (by omega)
  · intro a ha
    obtain ⟨he, hd⟩ := encodeLastBlock_renders h a s hs ha
    have hcov : coverage (templateEntry a) = a.length := coverage_templateEntry a
    refine ⟨h.COMPRESSION_BLOCK_SIZE - a.length, he, hd, ?_, ?_, by omega, ?_⟩
    · intro hne
      have hlen : a.length ≠ 0 := fun h0 => hne (List.length_eq_zero.mp h0)
      refine ⟨by unfold templateEntry; rw [if_neg hlen], ?_⟩
      exact declaredCount_cycleBytes h (Emitted.template a) (fun c hc => by cases hc)
        (by show a.length ≤ 32767; omega)
    · exact declaredCount_cycleBytes h (Emitted.padding _) (fun c hc => by cases hc)
        (by show h.COMPRESSION_BLOCK_SIZE - a.length ≤ 32767; omega)
    · rw [coverage_append, hcov]
      simp [coverage, Emitted.count]
      omega

/-- The statement of C6 for a block of 32 samples encoded with deltas and for
a last block of 3 samples. -/
theorem emitted_cycles_cover_block_witness :
    (∃ r, encodeBlock (specHelpers 32) deltaOptions 40 blockA
        (freshEncoder (specHelpers 32) reliableStream) = some r ∧
      ∃ new, r.1.emitted = (freshEncoder (specHelpers 32) reliableStream).emitted ++ new ∧
        r.1.output.data = (freshEncoder (specHelpers 32) reliableStream).output.data
          ++ renderAll (specHelpers 32) new ∧
        coverage new = (specHelpers 32).COMPRESSION_BLOCK_SIZE ∧
        ∀ e ∈ new, (∀ c, e ≠ Emitted.diff c) →
          declaredCount (cycleBytes (specHelpers 32) e) = e.count) ∧
    (∃ pad, (encodeLastBlock (specHelpers 32) [5, 6, 7]
        (freshEncoder (specHelpers 32) reliableStream)).emitted
          = (freshEncoder (specHelpers 32) reliableStream).emitted
            ++ (templateEntry [5, 6, 7] ++ [Emitted.padding pad]) ∧
        (encodeLastBlock (specHelpers 32) [5, 6, 7]
          (freshEncoder (specHelpers 32) reliableStream)).output.data
          = (freshEncoder (specHelpers 32) reliableStream).output.data
            ++ renderAll (specHelpers 32) (templateEntry [5, 6, 7] ++ [Emitted.padding pad]) ∧
        (([5, 6, 7] : List Int) ≠ [] → templateEntry [5, 6, 7] = [Emitted.template [5, 6, 7]] ∧
          declaredCount (cycleBytes (specHelpers 32) (Emitted.template [5, 6, 7]))
            = ([5, 6, 7] : List Int).length) ∧
        declaredCount (cycleBytes (specHelpers 32) (Emitted.padding pad)) = pad ∧
        ([5, 6, 7] : List Int).length + pad = (specHelpers 32).COMPRESSION_BLOCK_SIZE ∧
        coverage (templateEntry [5, 6, 7] ++ [Emitted.padding pad])
          = (specHelpers 32).COMPRESSION_BLOCK_SIZE) :=
  ⟨⟨_, Option.eq_some_of_isSome (by decide),
      (emitted_cycles_cover_block (specHelpers 32) deltaOptions
        (freshEncoder (specHelpers 32) reliableStream) (fun _ => rfl) (by decide)).1 40 blockA _
        (by decide) (Option.eq_some_of_isSome (by decide))⟩,
    (emitted_cycles_cover_block (specHelpers 32) deltaOptions
        (freshEncoder (specHelpers 32) reliableStream) (fun _ => rfl) (by decide)).2 [5, 6, 7]
        (by decide)⟩

/-- C24: on a stream whose writes all succeed (block size within the 16-bit
count), the bytes that `encodeBlock` writes for a block of `BLOCK` samples are
the bytes of the cycles it emitted, one after the other, and for every one of
these cycles: it holds at least one sample and at most as many as were still
unencoded before it (`BLOCK` minus the samples of the cycles before it in the
block), and when it is a template or a delta, the count that its header
declares in the stream is that number of samples. This holds for every option
set, all helpers (the search result being a natural number) and on every
path. -/
theorem cycle_count_within_remainder (fuel : Nat) (block16 : List Int) (s : HlacEncoder)
    (r : HlacEncoder × Bool) (hb : block16.length = h.COMPRESSION_BLOCK_SIZE)
    (hs : s.output.reliable) (hB : h.COMPRESSION_BLOCK_SIZE ≤ 32767)
    (hr : encodeBlock h options fuel block16 s = some r) :
    ∃ new, r.1.emitted = s.emitted ++ new ∧
      r.1.output.data = s.output.data ++ renderAll h new ∧
      ∀ pre e post, new = pre ++ e :: post →
        r.1.output.data
          = s.output.data ++ renderAll h pre ++ cycleBytes h e ++ renderAll h post ∧
        1 ≤ e.count ∧ e.count ≤ h.COMPRESSION_BLOCK_SIZE - coverage pre ∧
        ((∀ c, e ≠ Emitted.diff c) →
          1 ≤ declaredCount (cycleBytes h e) ∧
          declaredCount (cycleBytes h e) ≤ h.COMPRESSION_BLOCK_SIZE - coverage pre) := by
  obtain ⟨new, e1, d1⟩ := encodeBlock_renders h options block16 fuel s r hs hr
  obtain ⟨_, new', e2, c2⟩ := encodeBlock_coverage h options block16 hb fuel s r hs hr
  have hnew : new' = new := List.append_cancel_left (e2.symm.trans e1)
  subst hnew
  obtain ⟨new'', e3, p3⟩ := encodeBlock_positive h options block16 hb fuel s r hr
  have hnew2 : new'' = new' := List.append_cancel_left (e3.symm.trans e1)
  subst hnew2
  refine ⟨new'', e1, d1, ?_⟩
  intro pre e post hsplit
  have hpos : 1 ≤ e.count := p3 e (by rw [hsplit]; simp)
  have hc : coverage new'' = coverage pre + (e.count + coverage post) := by
    rw [hsplit, coverage_append]
    simp [coverage]
  refine ⟨?_, hpos, by omega, ?_⟩
  · rw [d1, hsplit, renderAll_append]
    show _ ++ (_ ++ (cycleBytes h e ++ renderAll h post)) = _
    simp only [List.append_assoc]
  · intro hd
    rw [declaredCount_cycleBytes h e hd (by omega)]
    omega

theorem cycle_count_within_remainder_witness :
    ∃ r, encodeBlock (specHelpers 32) deltaOptions 40 blockA
        (freshEncoder (specHelpers 32) reliableStream) = some r ∧
      ∃ new, r.1.emitted = (freshEncoder (specHelpers 32) reliableStream).emitted ++ new ∧
        r.1.output.data = (freshEncoder (specHelpers 32) reliableStream).output.data
          ++ renderAll (specHelpers 32) new ∧
        ∀ pre e post, new = pre ++ e :: post →
          r.1.output.data
            = (freshEncoder (specHelpers 32) reliableStream).output.data
              ++ renderAll (specHelpers 32) pre ++ cycleBytes (specHelpers 32) e
              ++ renderAll (specHelpers 32) post ∧
          1 ≤ e.count ∧ e.count ≤ (specHelpers 32).COMPRESSION_BLOCK_SIZE - coverage pre ∧
          ((∀ c, e ≠ Emitted.diff c) →
            1 ≤ declaredCount (cycleBytes (specHelpers 32) e) ∧
            declaredCount (cycleBytes (specHelpers 32) e)
              ≤ (specHelpers 32).COMPRESSION_BLOCK_SIZE - coverage pre) :=
  ⟨_, Option.eq_some_of_isSome (by decide),
    cycle_count_within_remainder (specHelpers 32) deltaOptions 40 blockA
      (freshEncoder (specHelpers 32) reliableStream) _ (by decide) (fun _ => rfl) (by decide)
      (Option.eq_some_of_isSome (by decide))⟩

/-! ### Deltas, their templates and their bytes -/

/-- C2: a cycle of 8 or more samples that `encodeCycleDelta` emits carries, after
its delta header, the packed element-wise differences between its samples and
those of `currentCycle`, each difference as the `int16` that the work buffer
holds (the difference of 32767 and -32768 is stored as -1); and among the
cycles that one `encodeBlock` call emits (one block of one channel), and so
among those of a `compress` call, every delta was taken against the samples
of the most recent cycle written with a template header, which that same call
has emitted: `currentCycle` is that cycle whenever a delta is emitted. On a
stream whose writes all succeed the bytes that `encodeBlock` writes are the
bytes of these cycles, the payload of each delta being packed from the
differences to that template. -/
theorem delta_is_difference_to_last_template :
    (∀ (cycle : List Int) (s : HlacEncoder), 8 ≤ cycle.length → s.output.reliable →
      (encodeCycleDelta h cycle s).1.output.data =
        s.output.data
          ++ cycleHeaderByte false (h.getSuitableCompressorForData
              (sub cycle s.currentCycle cycle.length)).allowedBitRange
            :: shortBytes cycle.length
          ++ memoryBlock ((h.getSuitableCompressorForData
              (sub cycle s.currentCycle cycle.length)).getByteAmount cycle.length)
            ((h.getSuitableCompressorForData
              (sub cycle s.currentCycle cycle.length)).compress
              (sub cycle s.currentCycle cycle.length)) ∧
      (encodeCycleDelta h cycle s).1.emitted
        = s.emitted ++ [Emitted.delta cycle s.currentCycle]) ∧
    (∀ (fuel : Nat) (block16 : List Int) (s : HlacEncoder) (r : HlacEncoder × Bool),
      encodeBlock h options fuel block16 s = some r →
      ∃ new, r.1.emitted = s.emitted ++ new ∧
        (∀ last, deltasFollowTemplate last new = true) ∧
        (s.output.reliable → r.1.output.data = s.output.data ++ renderAll h new)) ∧
    (∀ (fuel blockFuel : Nat) (source : AudioSampleBuffer) (s t : HlacEncoder),
      compress h options fuel blockFuel source s = some t →
      ∃ new, t.emitted = s.emitted ++ new ∧
        ∀ last, deltasFollowTemplate last new = true) ∧
    (∀ (a b : List Int) (n i : Nat), i < n →
      (sub a b n).length = n ∧
      (sub a b n).getD i 0 = toInt16 (a.getD i 0 - b.getD i 0) ∧
      -32768 ≤ (sub a b n).getD i 0 ∧ (sub a b n).getD i 0 ≤ 32767) ∧
    sub (List.replicate 8 32767) (List.replicate 8 (-32768)) 8 = List.replicate 8 (-1) ∧
    (encodeCycleDelta (specHelpers 8) (List.replicate 8 32767)
      (setCurrentCycle (specHelpers 8) (List.replicate 8 (-32768))
        (freshEncoder (specHelpers 8) reliableStream))).1.output.data = [3, 8, 0, 255] := by
  refine ⟨fun cycle s hlen hs => encodeCycleDelta_data h cycle s hs hlen, ?_,
    fun fuel blockFuel source s t ht => compress_extends h options fuel blockFuel source s t ht,
    ?_, by decide, by decide⟩
  · intro fuel block16 s r hr
    obtain ⟨new, e1, f1⟩ := encodeBlock_extends h options fuel block16 s r hr
    refine ⟨new, e1, f1, ?_⟩
    intro hs
    obtain ⟨new', e2, d2⟩ := encodeBlock_renders h options block16 fuel s r hs hr
    have hnew : new' = new := List.append_cancel_left (e2.symm.trans e1)
    rw [d2, hnew]
  · intro a b n i hi
    have hl : (sub a b n).length = n := by simp [sub]
    have hg : (sub a b n).getD i 0 = toInt16 (a.getD i 0 - b.getD i 0) := by
      unfold sub
      rw [List.getD_eq_getElem _ _ (by simpa using hi)]
      simp
    refine ⟨hl, hg, ?_, ?_⟩
    · rw [hg]
      unfold toInt16
      omega
    · rw [hg]
      unfold toInt16
      omega

/-- The statement of C2 for a block of 32 samples whose second cycle is
emitted as a delta against the first. -/
theorem delta_is_difference_to_last_template_witness :
    (encodeCycleDelta (specHelpers 32) cycleX
        (freshEncoder (specHelpers 32) reliableStream)).1.emitted
      = [Emitted.delta cycleX (List.replicate 32 0)] ∧
    (∃ r, encodeBlock (specHelpers 32) deltaOptions 40 blockA
        (freshEncoder (specHelpers 32) reliableStream) = some r ∧
      ∃ new, r.1.emitted = (freshEncoder (specHelpers 32) reliableStream).emitted ++ new ∧
        (∀ last, deltasFollowTemplate last new = true) ∧
        ((freshEncoder (specHelpers 32) reliableStream).output.reliable →
          r.1.output.data = (freshEncoder (specHelpers 32) reliableStream).output.data
            ++ renderAll (specHelpers 32) new)) ∧
    ∃ t, compress (specHelpers 32) deltaOptions 3 40 (monoBuffer blockA)
        (freshEncoder (specHelpers 32) reliableStream) = some t ∧
      t.emitted = [Emitted.template cycleX, Emitted.delta cycleX cycleX,
        Emitted.template cycleY, Emitted.template cycleZ] ∧
      ∃ new, t.emitted = (freshEncoder (specHelpers 32) reliableStream).emitted ++ new ∧
        ∀ last, deltasFollowTemplate last new = true :=
  ⟨((delta_is_difference_to_last_template (specHelpers 32) deltaOptions).1 cycleX
      (freshEncoder (specHelpers 32) reliableStream) (by decide) (fun _ => rfl)).2,
    ⟨_, Option.eq_some_of_isSome (by decide),
      (delta_is_difference_to_last_template (specHelpers 32) deltaOptions).2.1 40 blockA
        (freshEncoder (specHelpers 32) reliableStream) _
        (Option.eq_some_of_isSome (by decide))⟩,
    _, Option.eq_some_of_isSome (by decide), by decide,
    (delta_is_difference_to_last_template (specHelpers 32) deltaOptions).2.2.1 3 40
      (monoBuffer blockA) (freshEncoder (specHelpers 32) reliableStream) _
      (Option.eq_some_of_isSome (by decide))⟩

/-! ### The choice of the diff form -/

/-- With `useDiffEncodingWithFixedBlocks` enabled and a fixed cycle length that
is a power of two `2 ^ k` dividing `BLOCK`, every cycle that `encodeBlock`
hands to `encodeDiff` for a block of `BLOCK` samples holds exactly `2 ^ k`
samples, and the low byte that `writeDiffHeader` stores for it is `k`. -/
theorem diff_cycle_is_power_of_two (k : Nat)
    (hdiff : options.useDiffEncodingWithFixedBlocks = true)
    (hfix : options.fixedBlockWidth = ((2 ^ k : Nat) : Int))
    (hdvd : 2 ^ k ∣ h.COMPRESSION_BLOCK_SIZE) (hk : k < 256)
    (fuel : Nat) (block16 : List Int) (s : HlacEncoder) (r : HlacEncoder × Bool)
    (hb : block16.length = h.COMPRESSION_BLOCK_SIZE)
    (hr : encodeBlock h options fuel block16 s = some r) :
    ∃ new, r.1.emitted = s.emitted ++ new ∧
      ∀ c, Emitted.diff c ∈ new →
        c.length = 2 ^ k ∧
        ∀ fullBitRate errorBitRate : Int,
          diffShortPacked fullBitRate errorBitRate c.length % 256 = k := by
  have hem : Emits (DiffLength k) s r.1 := by
    unfold encodeBlock at hr
    dsimp only at hr
    split at hr
    · cases hr
      have e0 : Emits (DiffLength k) s (startBlock h s) := Emits.of_same rfl
      exact e0.emitsThen (encodeCycle_emits h _ _ _ (fun _ => True.intro))
    · have e0 : Emits (DiffLength k) s (startBlock h s) := Emits.of_same rfl
      exact e0.emitsThen (blockLoop_diffLength h options k hdiff hfix hdvd block16 hb fuel
        (startBlock h s) r (dvd_zero _) (Or.inl (show ((-1 : Int) < 0) by decide)) hr)
  obtain ⟨new, e, hp⟩ := hem
  refine ⟨new, e, ?_⟩
  intro c hc
  have hl : c.length = 2 ^ k := hp _ hc
  refine ⟨hl, ?_⟩
  intro f e'
  rw [hl]
  unfold diffShortPacked
  dsimp only
  rw [floorLog2_two_pow]
  exact packed_low_byte _ k hk

/-- C22: `encodeBlock` hands `encodeDiff` a cycle whose length is not a power
of two, and the diff header then stores a logarithm that does not give the
length back. With block size 16 and a fixed cycle length of 12 (a multiple of
4, as `encodeDiff` asserts), the 12 samples of `cycleV` cost 7 bytes in diff
form and 12 as a template, also when the diff cost is capped at the template
cost; they are emitted in diff form, and the header bytes `E0 03 72` store
`log2(12) = 3`, the same three bytes that the diff header of the first 8 of
these samples gets. `2 ^ 3` is 8, and no power of two is 12. -/
theorem diff_cycle_of_twelve_samples :
    diffTwelveOptions.useDiffEncodingWithFixedBlocks = true ∧
    diffTwelveOptions.fixedBlockWidth = 12 ∧
    cycleV.length = 12 ∧ cycleV.length % 4 = 0 ∧
    (specHelpers 16).getByteAmountForDifferential cycleV = 7 ∧
    (cappedHelpers 16).getByteAmountForDifferential cycleV = 7 ∧
    (specHelpers 16).getNumBytesForBitRate
      ((specHelpers 16).getPossibleBitReductionAmount cycleV) cycleV.length = 12 ∧
    (encodeBlock (specHelpers 16) diffTwelveOptions 12 blockV
        (freshEncoder (specHelpers 16) reliableStream)).map
      (fun r => (r.1.emitted, r.1.output.data.take 3))
      = some ([Emitted.diff cycleV, Emitted.template [5, 6, 7, 8]], [224, 3, 114]) ∧
    (encodeBlock (cappedHelpers 16) diffTwelveOptions 12 blockV
        (freshEncoder (cappedHelpers 16) reliableStream)).map
      (fun r => (r.1.emitted, r.1.output.data.take 3))
      = some ([Emitted.diff cycleV, Emitted.template [5, 6, 7, 8]], [224, 3, 114]) ∧
    (encodeDiff (specHelpers 16) (cycleV.take 8)
        (freshEncoder (specHelpers 16) reliableStream)).1.output.data.take 3 = [224, 3, 114] ∧
    (2 : Nat) ^ 3 ≠ cycleV.length ∧
    ¬ ∃ k : Nat, 2 ^ k = 12 := by
  refine ⟨rfl, rfl, rfl, by decide, by decide, by decide, by decide, by decide, by decide,
    by decide, by decide, ?_⟩
  rintro ⟨k, hk⟩
  have h4 : k < 4 := by
    by_contra hc
    have : 2 ^ 4 ≤ 2 ^ k := Nat.pow_le_pow_right (by decide) (by omega)
    omega
  interval_cases k <;> omega

end Hlac
